import Mathlib

/-!
Verification development for the startdue_valley simulation core.

Shallow embedding conventions:
- JS numbers that the source asserts to be non-negative integers (ticks,
  path indices) are embedded as Nat; other JS integers as Int; fractional
  JSON numbers as Rat.
- JS Map is an insertion-ordered association list, JS Set an
  insertion-ordered duplicate-free list.
- Functions that throw on malformed input return Option / Except.
-/

namespace StartdueValley

/-! ## JS Map / Set primitives -/

/-- JS Map.get: first binding for the key (keys are kept unique by mset). -/
def mget [DecidableEq κ] : List (κ × ν) → κ → Option ν
  | [], _ => none
  | (k, v) :: rest, key => if k = key then some v else mget rest key

/-- JS Map.set: replace in place when the key is present, else append. -/
def mset [DecidableEq κ] : List (κ × ν) → κ → ν → List (κ × ν)
  | [], key, value => [(key, value)]
  | (k, v) :: rest, key, value =>
    if k = key then (key, value) :: rest else (k, v) :: mset rest key value

/-- JS Map.delete: remove the binding for the key (at most one exists). -/
def mdel [DecidableEq κ] : List (κ × ν) → κ → List (κ × ν)
  | [], _ => []
  | (k, v) :: rest, key => if k = key then rest else (k, v) :: mdel rest key

/-- JS Set.add: append unless already present. -/
def sadd [DecidableEq α] (s : List α) (a : α) : List α :=
  if a ∈ s then s else s ++ [a]

/-- JS Set construction from an array: add the elements in order. -/
def jsSetOf [DecidableEq α] (l : List α) : List α :=
  l.foldl sadd []

/-! ## Movement component (src/simulation/movement.ts) -/

structure VillagerMovementComponent where
  villagerId : String
  currentTileId : String
  path : List String
  pathIndex : Nat
  lastProcessedTick : Nat
  arrivedAtTick : Option Nat
deriving DecidableEq, Repr

structure VillagerArrivalEvent where
  villagerId : String
  tileId : String
  tick : Nat
deriving DecidableEq, Repr

structure MovementAdvanceResult where
  component : VillagerMovementComponent
  events : List VillagerArrivalEvent
deriving DecidableEq, Repr

def createVillagerMovementComponent (villagerId startTileId : String)
    (initialTick : Nat) : VillagerMovementComponent :=
  { villagerId := villagerId
    currentTileId := startTileId
    path := [startTileId]
    pathIndex := 0
    lastProcessedTick := initialTick
    arrivedAtTick := some initialTick }

/-- Throws when the path is empty, hence Option. -/
def assignVillagerMovementPath (component : VillagerMovementComponent)
    (path : List String) (tick : Nat) : Option VillagerMovementComponent :=
  match path with
  | [] => none
  | first :: _ =>
    some { villagerId := component.villagerId
           currentTileId := first
           path := path
           pathIndex := 0
           lastProcessedTick := tick
           arrivedAtTick := if path.length = 1 then some tick else none }

def advanceVillagerMovement (component : VillagerMovementComponent)
    (tick : Nat) : MovementAdvanceResult :=
  if tick ≤ component.lastProcessedTick ∨ component.path.length ≤ 1 then
    { component :=
        { component with lastProcessedTick := max component.lastProcessedTick tick }
      events := [] }
  else
    let tickDelta := tick - component.lastProcessedTick
    let nextPathIndex := min (component.path.length - 1) (component.pathIndex + tickDelta)
    let nextCurrentTileId := component.path.getD nextPathIndex ""
    let reachedDestination := nextPathIndex = component.path.length - 1
    let distanceToDestination := component.path.length - 1 - component.pathIndex
    let arrivalTick : Option Nat :=
      if reachedDestination ∧ component.arrivedAtTick = none then
        some (component.lastProcessedTick + distanceToDestination)
      else component.arrivedAtTick
    let nextComponent : VillagerMovementComponent :=
      { component with
        currentTileId := nextCurrentTileId
        pathIndex := nextPathIndex
        lastProcessedTick := tick
        arrivedAtTick := arrivalTick }
    if ¬reachedDestination ∨ arrivalTick = none ∨ component.arrivedAtTick ≠ none then
      { component := nextComponent, events := [] }
    else
      { component := nextComponent
        events := [{ villagerId := component.villagerId
                     tileId := nextCurrentTileId
                     tick := arrivalTick.getD 0 }] }

/-- A sequence of advance calls, collecting all emitted events. -/
def advanceVillagerMovementSeq (component : VillagerMovementComponent) :
    List Nat → VillagerMovementComponent × List VillagerArrivalEvent
  | [] => (component, [])
  | t :: ts =>
    let step := advanceVillagerMovement component t
    let rest := advanceVillagerMovementSeq step.component ts
    (rest.1, step.events ++ rest.2)

/-! ## Domain enums (src/domain) -/

inductive VillagerActionType
  | walk | farm | chat | shop | rest | observe
deriving DecidableEq, Repr

inductive NpcState
  | idle | planning | moving | acting | resting
deriving DecidableEq, Repr

inductive JobRole
  | farmer | merchant | fisher | builder | caretaker
deriving DecidableEq, Repr

inductive MemorySourceType
  | self | world | villager | system
deriving DecidableEq, Repr

/-! ## Schedule index (src/simulation/schedule.ts) -/

def IDLE_ACTION : VillagerActionType := .observe

structure VillagerScheduleSlot where
  hour : Int
  action : VillagerActionType
  targetTileId : String
deriving DecidableEq, Repr

structure VillagerScheduleEntry where
  startMinute : Int
  action : VillagerActionType
  targetTileId : String
deriving DecidableEq, Repr

structure VillagerDailySchedule where
  villagerId : String
  entries : List VillagerScheduleEntry
deriving DecidableEq, Repr

inductive TaskSource
  | schedule | idle
deriving DecidableEq, Repr

structure ActiveVillagerTask where
  villagerId : String
  action : VillagerActionType
  targetTileId : Option String
  source : TaskSource
deriving DecidableEq, Repr

/-- Throws unless the hour is an integer in [0, 24). -/
def normalizeHourToMinute (hour : Int) : Option Int :=
  if hour < 0 ∨ 24 ≤ hour then none else some (hour * 60)

/-- The post-sort duplicate-start-minute scan (adjacent entries suffice on a
sorted list, exactly as the source loop checks index-1 against index). -/
def hasDuplicateStartMinute : List VillagerScheduleEntry → Bool
  | [] => false
  | [_] => false
  | a :: b :: rest => a.startMinute = b.startMinute ∨ hasDuplicateStartMinute (b :: rest)

/-- Stable insertion step of the sort-by-startMinute: an element is placed
before the first strictly larger entry, after equal ones already present. -/
def insertEntrySorted (e : VillagerScheduleEntry) :
    List VillagerScheduleEntry → List VillagerScheduleEntry
  | [] => [e]
  | y :: ys =>
    if e.startMinute ≤ y.startMinute then e :: y :: ys
    else y :: insertEntrySorted e ys

/-- The JS stable Array.sort with comparator (l, r) => l.startMinute -
r.startMinute, modeled as a stable insertion sort (a stable sort's output is
determined by the comparator, so any stable sort is a faithful model). -/
def sortByStartMinute : List VillagerScheduleEntry → List VillagerScheduleEntry
  | [] => []
  | x :: xs => insertEntrySorted x (sortByStartMinute xs)

/-- Builds the sorted schedule; none models the thrown errors (invalid hour,
duplicate schedule hours). -/
def createVillagerDailySchedule (villagerId : String)
    (baseSchedule : List VillagerScheduleSlot) : Option VillagerDailySchedule :=
  match baseSchedule.mapM (fun slot =>
      (normalizeHourToMinute slot.hour).map (fun m =>
        ({ startMinute := m, action := slot.action, targetTileId := slot.targetTileId }
          : VillagerScheduleEntry))) with
  | none => none
  | some mapped =>
    if hasDuplicateStartMinute (sortByStartMinute mapped) then none
    else some { villagerId := villagerId, entries := sortByStartMinute mapped }

/-- The binary-search loop of resolveActiveVillagerTask. The JS mid
computation (low + high) >> 1 is floor((low+high)/2), written here in the
equivalent form low + (high-low)/2 valid whenever low ≤ high. -/
def resolveLoop (entries : List VillagerScheduleEntry) (minuteOfDay : Int) :
    Int → Int → Option VillagerScheduleEntry → Option VillagerScheduleEntry :=
  fun low high acc =>
    if _h : low ≤ high then
      let mid : Int := low + ((high - low).toNat / 2 : Nat)
      match entries.get? (mid.toNat) with
      | none => acc
      | some entry =>
        if entry.startMinute ≤ minuteOfDay then
          resolveLoop entries minuteOfDay (mid + 1) high (some entry)
        else
          resolveLoop entries minuteOfDay low (mid - 1) acc
    else acc
termination_by low high _ => (high + 1 - low).toNat
decreasing_by
  all_goals omega

def resolveActiveVillagerTask (schedule : VillagerDailySchedule)
    (minuteOfDay : Int) : ActiveVillagerTask :=
  match resolveLoop schedule.entries minuteOfDay 0 (schedule.entries.length - 1) none with
  | none =>
    { villagerId := schedule.villagerId
      action := IDLE_ACTION
      targetTileId := none
      source := .idle }
  | some activeEntry =>
    { villagerId := schedule.villagerId
      action := activeEntry.action
      targetTileId := some activeEntry.targetTileId
      source := .schedule }

/-! ## Replan scheduling (src/simulation/replanning.ts and the GamePage
replan effect's completion handlers) -/

inductive NpcReplanReason
  | cadence | major_event
deriving DecidableEq, Repr

structure PersistedNpcIntent where
  action : VillagerActionType
  targetTileId : Option String
  reasoning : String
  plannedAtTick : Int
deriving DecidableEq, Repr

structure NpcReplanState where
  lastPlanTick : Option Int
  lastPlanSignature : Option String
  lastMajorEventTick : Option Int
  intent : Option PersistedNpcIntent
  intentUpdatedAtTick : Option Int
deriving DecidableEq, Repr

structure ShouldRequestNpcReplanInput where
  tick : Int
  intervalTicks : Int
  promptSignature : String
  lastPlanTick : Option Int
  lastPlanSignature : Option String
  lastMajorEventTick : Option Int
deriving DecidableEq, Repr

def shouldRequestNpcReplan (input : ShouldRequestNpcReplanInput) :
    Option NpcReplanReason :=
  let cadenceDue : Bool :=
    match input.lastPlanTick with
    | none => true
    | some lastPlanTick => input.intervalTicks ≤ input.tick - lastPlanTick
  let majorEventDue : Bool :=
    match input.lastMajorEventTick with
    | none => false
    | some lastMajorEventTick =>
      match input.lastPlanTick with
      | none => true
      | some lastPlanTick => lastPlanTick < lastMajorEventTick
  if ¬cadenceDue ∧ ¬majorEventDue then none
  else if input.lastPlanSignature = some input.promptSignature then none
  else if majorEventDue then some .major_event else some .cadence

def applyNpcIntentToTask (task : ActiveVillagerTask)
    (intent : Option PersistedNpcIntent) : ActiveVillagerTask :=
  match intent with
  | none => task
  | some intent =>
    { task with
      action := intent.action
      targetTileId :=
        match intent.targetTileId with
        | some t => some t
        | none => task.targetTileId }

/-- The replan-success completion handler's update of the agent's replan
state (the setVillagerRuntime call in the fetch .then branch of the GamePage
replan effect). -/
def completeNpcReplanSuccess (replan : NpcReplanState)
    (decisionAction : VillagerActionType) (decisionTargetTileId : Option String)
    (decisionReasoning : String) (tick : Int) (promptSignature : String) :
    NpcReplanState :=
  { replan with
    intent := some { action := decisionAction
                     targetTileId := decisionTargetTileId
                     reasoning := decisionReasoning
                     plannedAtTick := tick }
    intentUpdatedAtTick := some tick
    lastPlanTick := some tick
    lastPlanSignature := some promptSignature }

/-- The replan-failure completion handler's update of the agent's replan
state (the setVillagerRuntime call in the fetch .catch branch of the
GamePage replan effect). -/
def completeNpcReplanFailure (replan : NpcReplanState) (tick : Int)
    (promptSignature : String) : NpcReplanState :=
  { replan with
    lastPlanTick := some tick
    lastPlanSignature := some promptSignature }

/-! ## Decision guardrails (e2e/game-smoke.spec.ts: DECISION_POLICY_RULES,
applyDecisionGuardrails) -/

structure GuardrailWorldTime where
  minuteOfDay : Int
deriving DecidableEq, Repr

/-- The slice of NpcPromptInput the policy rules consult. -/
structure NpcPromptContext where
  role : JobRole
  worldTime : GuardrailWorldTime
deriving DecidableEq, Repr

structure NpcDecision where
  action : VillagerActionType
  reasoning : String
  targetTileId : Option String
deriving DecidableEq, Repr

inductive PolicyOutcome
  | rewrite (action : VillagerActionType) (reason : String)
  | block (reason : String)
deriving DecidableEq, Repr

structure DecisionPolicyRule where
  id : String
  disallowedActions : List VillagerActionType
  evaluate : NpcPromptContext → Bool
  outcome : PolicyOutcome

def DECISION_POLICY_RULES : List DecisionPolicyRule :=
  [ { id := "role-restriction-shop"
      disallowedActions := [.shop]
      evaluate := fun context => context.role ≠ .merchant
      outcome := .block "Only merchant-role villagers may execute shop actions." }
  , { id := "role-restriction-farm"
      disallowedActions := [.farm]
      evaluate := fun context => context.role ≠ .farmer
      outcome := .rewrite .observe "Non-farmer villagers cannot execute farm actions." }
  , { id := "quiet-hours-social"
      disallowedActions := [.chat, .shop]
      evaluate := fun context =>
        context.worldTime.minuteOfDay < 360 ∨ 1320 ≤ context.worldTime.minuteOfDay
      outcome := .rewrite .observe
        "Social and market actions are disallowed during quiet hours." } ]

inductive DecisionValidity
  | accepted | rewritten
deriving DecidableEq, Repr

structure NpcDecisionPolicyViolation where
  policyId : String
  reason : String
  originalAction : VillagerActionType
  finalAction : VillagerActionType
deriving DecidableEq, Repr

structure DecisionModerationResult where
  decision : NpcDecision
  decisionValidity : DecisionValidity
  policyViolations : List NpcDecisionPolicyViolation
deriving DecidableEq, Repr

/-- The 422 LlmAdapterApiError thrown on a block outcome. -/
structure GuardrailBlockError where
  policyId : String
  reason : String
deriving DecidableEq, Repr

def actionRequiresTarget (action : VillagerActionType) : Bool :=
  action = .walk ∨ action = .farm ∨ action = .shop

/-- The for-loop body of applyDecisionGuardrails folded over the rules.
State: (moderatedAction, moderatedTargetTileId, policyViolations so far). -/
def applyGuardrailRules (context : NpcPromptContext) :
    List DecisionPolicyRule →
    VillagerActionType → Option String → List NpcDecisionPolicyViolation →
    Except GuardrailBlockError
      (VillagerActionType × Option String × List NpcDecisionPolicyViolation)
  | [], moderatedAction, moderatedTargetTileId, policyViolations =>
    .ok (moderatedAction, moderatedTargetTileId, policyViolations)
  | rule :: rest, moderatedAction, moderatedTargetTileId, policyViolations =>
    if moderatedAction ∉ rule.disallowedActions ∨ ¬rule.evaluate context then
      applyGuardrailRules context rest moderatedAction moderatedTargetTileId policyViolations
    else
      match rule.outcome with
      | .block reason => .error { policyId := rule.id, reason := reason }
      | .rewrite action reason =>
        let originalAction := moderatedAction
        let nextTarget :=
          if ¬actionRequiresTarget action then none else moderatedTargetTileId
        let violation : NpcDecisionPolicyViolation :=
          { policyId := rule.id
            reason := reason
            originalAction := originalAction
            finalAction := action }
        applyGuardrailRules context rest action nextTarget
          (policyViolations ++ [violation])

def applyDecisionGuardrails (decision : NpcDecision)
    (context : NpcPromptContext) :
    Except GuardrailBlockError DecisionModerationResult :=
  match applyGuardrailRules context DECISION_POLICY_RULES
      decision.action decision.targetTileId [] with
  | .error e => .error e
  | .ok (moderatedAction, moderatedTargetTileId, policyViolations) =>
    .ok { decision := { action := moderatedAction
                        reasoning := decision.reasoning
                        targetTileId := moderatedTargetTileId }
          decisionValidity :=
            if policyViolations.length > 0 then .rewritten else .accepted
          policyViolations := policyViolations }

/-! ## Movement lemmas -/

theorem advance_eq_noop (c : VillagerMovementComponent) (t : Nat)
    (h : t ≤ c.lastProcessedTick ∨ c.path.length ≤ 1) :
    advanceVillagerMovement c t =
      { component := { c with lastProcessedTick := max c.lastProcessedTick t }
        events := [] } := by
  unfold advanceVillagerMovement
  rw [if_pos h]

theorem advance_eq_move_not_reached (c : VillagerMovementComponent) (t : Nat)
    (h1 : c.lastProcessedTick < t) (h2 : 2 ≤ c.path.length)
    (h3 : min (c.path.length - 1) (c.pathIndex + (t - c.lastProcessedTick))
            ≠ c.path.length - 1) :
    advanceVillagerMovement c t =
      { component :=
          { c with
            currentTileId := c.path.getD
              (min (c.path.length - 1) (c.pathIndex + (t - c.lastProcessedTick))) ""
            pathIndex := min (c.path.length - 1) (c.pathIndex + (t - c.lastProcessedTick))
            lastProcessedTick := t
            arrivedAtTick := c.arrivedAtTick }
        events := [] } := by
  simp only [advanceVillagerMovement]
  split_ifs with hA hB hC hD
  · exact absurd hA (by omega)
  · exact absurd hB.1 h3
  · exact absurd hB.1 h3
  · rfl
  · exact absurd (Or.inl h3) hD

theorem advance_eq_move_reached_already (c : VillagerMovementComponent) (t : Nat)
    (a : Nat) (h1 : c.lastProcessedTick < t) (h2 : 2 ≤ c.path.length)
    (h3 : min (c.path.length - 1) (c.pathIndex + (t - c.lastProcessedTick))
            = c.path.length - 1)
    (h4 : c.arrivedAtTick = some a) :
    advanceVillagerMovement c t =
      { component :=
          { c with
            currentTileId := c.path.getD
              (min (c.path.length - 1) (c.pathIndex + (t - c.lastProcessedTick))) ""
            pathIndex := min (c.path.length - 1) (c.pathIndex + (t - c.lastProcessedTick))
            lastProcessedTick := t
            arrivedAtTick := some a }
        events := [] } := by
  simp only [advanceVillagerMovement]
  split_ifs with hA hB hC hD
  · exact absurd hA (by omega)
  · simp [h4] at hB
  · simp [h4] at hB
  · simp [h4]
  · exact absurd (Or.inr (Or.inr (by simp [h4]))) hD

theorem advance_eq_move_reached_first (c : VillagerMovementComponent) (t : Nat)
    (h1 : c.lastProcessedTick < t) (h2 : 2 ≤ c.path.length)
    (h3 : min (c.path.length - 1) (c.pathIndex + (t - c.lastProcessedTick))
            = c.path.length - 1)
    (h4 : c.arrivedAtTick = none) :
    advanceVillagerMovement c t =
      { component :=
          { c with
            currentTileId := c.path.getD
              (min (c.path.length - 1) (c.pathIndex + (t - c.lastProcessedTick))) ""
            pathIndex := min (c.path.length - 1) (c.pathIndex + (t - c.lastProcessedTick))
            lastProcessedTick := t
            arrivedAtTick :=
              some (c.lastProcessedTick + (c.path.length - 1 - c.pathIndex)) }
        events := [{ villagerId := c.villagerId
                     tileId := c.path.getD
                       (min (c.path.length - 1)
                         (c.pathIndex + (t - c.lastProcessedTick))) ""
                     tick := c.lastProcessedTick
                       + (c.path.length - 1 - c.pathIndex) }] } := by
  simp only [advanceVillagerMovement]
  split_ifs with hA hB hC hD
  · exact absurd hA (by omega)
  · simp [h3, h4] at hC
  · simp
  · exact absurd ⟨h3, h4⟩ hB
  · exact absurd ⟨h3, h4⟩ hB

/-- Invariant linking a movement component to its originating path
assignment: before arrival the last-processed tick tracks the assignment
tick plus the distance travelled, and after arrival the marker pins the
arrival tick to assignment tick plus path distance. -/
def MovState (vid : String) (path : List String) (t0 : Nat)
    (c : VillagerMovementComponent) : Prop :=
  c.villagerId = vid ∧ c.path = path ∧
  ((c.arrivedAtTick = none ∧ c.pathIndex < path.length - 1 ∧
      c.lastProcessedTick = t0 + c.pathIndex) ∨
   (c.arrivedAtTick = some (t0 + (path.length - 1)) ∧
      c.pathIndex = path.length - 1))

theorem advanceSeq_len_le_one (ticks : List Nat) :
    ∀ c : VillagerMovementComponent, c.path.length ≤ 1 →
      (advanceVillagerMovementSeq c ticks).2 = [] := by
  induction ticks with
  | nil => intro c _; rfl
  | cons t ts ih =>
    intro c hc
    have hstep := advance_eq_noop c t (Or.inr hc)
    simp only [advanceVillagerMovementSeq, hstep]
    exact ih _ hc

/-- One advance step from a MovState component: the state is preserved and
the events fall into exactly one of three shapes. -/
theorem advance_step_spec (vid : String) (path : List String) (t0 : Nat)
    (h2 : 2 ≤ path.length) (c : VillagerMovementComponent)
    (hc : MovState vid path t0 c) (t : Nat) :
    MovState vid path t0 (advanceVillagerMovement c t).component ∧
    ((c.arrivedAtTick = none ∧
        (advanceVillagerMovement c t).component.arrivedAtTick = none ∧
        (advanceVillagerMovement c t).events = []) ∨
     (c.arrivedAtTick = none ∧
        (advanceVillagerMovement c t).component.arrivedAtTick ≠ none ∧
        (advanceVillagerMovement c t).events =
          [{ villagerId := vid
             tileId := path.getD (path.length - 1) ""
             tick := t0 + (path.length - 1) }]) ∨
     (c.arrivedAtTick ≠ none ∧
        (advanceVillagerMovement c t).component.arrivedAtTick ≠ none ∧
        (advanceVillagerMovement c t).events = [])) := by
  obtain ⟨hvid, hpath, hdisj⟩ := hc
  have hlen : c.path.length = path.length := by rw [hpath]
  by_cases ht : t ≤ c.lastProcessedTick
  · -- no-op step
    have hstep := advance_eq_noop c t (Or.inl ht)
    have hcomp : (advanceVillagerMovement c t).component =
        { c with lastProcessedTick := max c.lastProcessedTick t } := by
      rw [hstep]
    have hev : (advanceVillagerMovement c t).events = [] := by rw [hstep]
    refine ⟨⟨by simp [hcomp, hvid], by simp [hcomp, hpath], ?_⟩, ?_⟩
    · rcases hdisj with ⟨ha, hi, hl⟩ | ⟨ha, hi⟩
      · refine Or.inl ⟨by simp [hcomp, ha], by simp [hcomp]; omega, ?_⟩
        simp only [hcomp]
        omega
      · exact Or.inr ⟨by simp [hcomp, ha], by simp [hcomp]; omega⟩
    · cases harr : c.arrivedAtTick with
      | none => exact Or.inl ⟨rfl, by simp [hcomp, harr], hev⟩
      | some a =>
        exact Or.inr (Or.inr ⟨by simp, by simp [hcomp, harr], hev⟩)
  · push_neg at ht
    cases harr : c.arrivedAtTick with
    | some a =>
      -- already arrived before this step
      obtain ⟨hi, ha⟩ : c.pathIndex = path.length - 1 ∧ a = t0 + (path.length - 1) := by
        rcases hdisj with ⟨hb, _, _⟩ | ⟨hb, hi⟩
        · rw [harr] at hb; cases hb
        · rw [harr] at hb
          simp only [Option.some.injEq] at hb
          exact ⟨hi, hb⟩
      have hmin : min (c.path.length - 1)
          (c.pathIndex + (t - c.lastProcessedTick)) = c.path.length - 1 := by
        omega
      have hstep := advance_eq_move_reached_already c t a ht (by omega) hmin harr
      have hcomp : (advanceVillagerMovement c t).component =
          { c with
            currentTileId := c.path.getD
              (min (c.path.length - 1) (c.pathIndex + (t - c.lastProcessedTick))) ""
            pathIndex := min (c.path.length - 1) (c.pathIndex + (t - c.lastProcessedTick))
            lastProcessedTick := t
            arrivedAtTick := some a } := by rw [hstep]
      have hev : (advanceVillagerMovement c t).events = [] := by rw [hstep]
      refine ⟨⟨by simp [hcomp, hvid], by simp [hcomp, hpath], Or.inr ⟨?_, ?_⟩⟩, ?_⟩
      · simp only [hcomp, ha]
      · simp only [hcomp]
        omega
      · exact Or.inr (Or.inr ⟨by simp, by simp [hcomp], hev⟩)
    | none =>
      -- not yet arrived before this step
      obtain ⟨hi, hl⟩ : c.pathIndex < path.length - 1 ∧
          c.lastProcessedTick = t0 + c.pathIndex := by
        rcases hdisj with ⟨_, hi, hl⟩ | ⟨hb, _⟩
        · exact ⟨hi, hl⟩
        · rw [harr] at hb; cases hb
      by_cases hreach : min (c.path.length - 1)
          (c.pathIndex + (t - c.lastProcessedTick)) = c.path.length - 1
      · -- arrives on this step
        have hstep := advance_eq_move_reached_first c t ht (by omega) hreach harr
        have htick : c.lastProcessedTick + (c.path.length - 1 - c.pathIndex)
            = t0 + (path.length - 1) := by omega
        have hcomp : (advanceVillagerMovement c t).component =
            { c with
              currentTileId := c.path.getD
                (min (c.path.length - 1) (c.pathIndex + (t - c.lastProcessedTick))) ""
              pathIndex := min (c.path.length - 1) (c.pathIndex + (t - c.lastProcessedTick))
              lastProcessedTick := t
              arrivedAtTick :=
                some (c.lastProcessedTick + (c.path.length - 1 - c.pathIndex)) } := by
          rw [hstep]
        have hev : (advanceVillagerMovement c t).events =
            [{ villagerId := vid
               tileId := path.getD (path.length - 1) ""
               tick := t0 + (path.length - 1) }] := by
          rw [hstep]
          simp only [hvid, htick]
          rw [hpath]
          rw [show min (path.length - 1) (c.pathIndex + (t - c.lastProcessedTick))
              = path.length - 1 by omega]
        refine ⟨⟨by simp [hcomp, hvid], by simp [hcomp, hpath], Or.inr ⟨?_, ?_⟩⟩, ?_⟩
        · simp only [hcomp, htick]
        · simp only [hcomp]
          omega
        · exact Or.inr (Or.inl ⟨rfl, by simp [hcomp], hev⟩)
      · -- stays short of the end
        have hstep := advance_eq_move_not_reached c t ht (by omega) hreach
        have hcomp : (advanceVillagerMovement c t).component =
            { c with
              currentTileId := c.path.getD
                (min (c.path.length - 1) (c.pathIndex + (t - c.lastProcessedTick))) ""
              pathIndex := min (c.path.length - 1) (c.pathIndex + (t - c.lastProcessedTick))
              lastProcessedTick := t
              arrivedAtTick := c.arrivedAtTick } := by rw [hstep]
        have hev : (advanceVillagerMovement c t).events = [] := by rw [hstep]
        refine ⟨⟨by simp [hcomp, hvid], by simp [hcomp, hpath],
          Or.inl ⟨by simp [hcomp, harr], by simp [hcomp]; omega, ?_⟩⟩, ?_⟩
        · simp only [hcomp]
          omega
        · exact Or.inl ⟨rfl, by simp [hcomp, harr], hev⟩

theorem advanceSeq_spec (vid : String) (path : List String) (t0 : Nat)
    (h2 : 2 ≤ path.length) (ticks : List Nat) :
    ∀ c : VillagerMovementComponent, MovState vid path t0 c →
      MovState vid path t0 (advanceVillagerMovementSeq c ticks).1 ∧
      ((c.arrivedAtTick = none ∧
          (advanceVillagerMovementSeq c ticks).1.arrivedAtTick = none ∧
          (advanceVillagerMovementSeq c ticks).2 = []) ∨
       (c.arrivedAtTick = none ∧
          (advanceVillagerMovementSeq c ticks).1.arrivedAtTick ≠ none ∧
          (advanceVillagerMovementSeq c ticks).2 =
            [{ villagerId := vid
               tileId := path.getD (path.length - 1) ""
               tick := t0 + (path.length - 1) }]) ∨
       (c.arrivedAtTick ≠ none ∧
          (advanceVillagerMovementSeq c ticks).1.arrivedAtTick ≠ none ∧
          (advanceVillagerMovementSeq c ticks).2 = [])) := by
  induction ticks with
  | nil =>
    intro c hc
    refine ⟨hc, ?_⟩
    cases harr : c.arrivedAtTick with
    | none => exact Or.inl ⟨rfl, by simp [advanceVillagerMovementSeq, harr], rfl⟩
    | some a =>
      exact Or.inr (Or.inr ⟨by simp,
        by simp [advanceVillagerMovementSeq, harr], rfl⟩)
  | cons t ts ih =>
    intro c hc
    obtain ⟨hnext, hstepcase⟩ := advance_step_spec vid path t0 h2 c hc t
    obtain ⟨hfin, hreccase⟩ := ih _ hnext
    simp only [advanceVillagerMovementSeq]
    refine ⟨hfin, ?_⟩
    rcases hstepcase with ⟨ha0, ha1, hev⟩ | ⟨ha0, ha1, hev⟩ | ⟨ha0, ha1, hev⟩
    · rcases hreccase with ⟨hb0, hb1, hevs⟩ | ⟨hb0, hb1, hevs⟩ | ⟨hb0, hb1, hevs⟩
      · exact Or.inl ⟨ha0, hb1, by simp [hev, hevs]⟩
      · exact Or.inr (Or.inl ⟨ha0, hb1, by simp [hev, hevs]⟩)
      · exact absurd ha1 hb0
    · rcases hreccase with ⟨hb0, hb1, hevs⟩ | ⟨hb0, hb1, hevs⟩ | ⟨hb0, hb1, hevs⟩
      · exact absurd hb0 ha1
      · exact absurd hb0 ha1
      · exact Or.inr (Or.inl ⟨ha0, hb1, by simp [hev, hevs]⟩)
    · rcases hreccase with ⟨hb0, hb1, hevs⟩ | ⟨hb0, hb1, hevs⟩ | ⟨hb0, hb1, hevs⟩
      · exact absurd hb0 ha1
      · exact absurd hb0 ha1
      · exact Or.inr (Or.inr ⟨ha0, hb1, by simp [hev, hevs]⟩)

/-- Claim C2: advancing a movement component with an n-tile path at index i
and last-processed tick t0 to tick t0+k (k ≥ 1) moves the path index forward
by exactly min(k, n-1-i); every emitted arrival event comes from a call that
first reaches the path end while the arrival marker is still clear, carrying
arrival tick lastProcessedTick + remaining distance; and across any sequence
of advance calls after a single assignPath at tick t0 at most one arrival
event is emitted, namely (once the path end is reached) the single event
with arrival tick t0 + (n-1). -/
theorem claim_C2 :
    (∀ (c : VillagerMovementComponent) (k : Nat),
        c.pathIndex < c.path.length → 1 ≤ k →
        (advanceVillagerMovement c (c.lastProcessedTick + k)).component.pathIndex
          = c.pathIndex + min k (c.path.length - 1 - c.pathIndex)) ∧
    (∀ (c : VillagerMovementComponent) (t : Nat) (e : VillagerArrivalEvent),
        e ∈ (advanceVillagerMovement c t).events →
        c.arrivedAtTick = none ∧ c.lastProcessedTick < t ∧
        (advanceVillagerMovement c t).component.pathIndex = c.path.length - 1 ∧
        e = { villagerId := c.villagerId
              tileId := c.path.getD (c.path.length - 1) ""
              tick := c.lastProcessedTick + (c.path.length - 1 - c.pathIndex) }) ∧
    (∀ (c₀ c : VillagerMovementComponent) (path : List String) (t0 : Nat)
        (ticks : List Nat),
        assignVillagerMovementPath c₀ path t0 = some c →
        (advanceVillagerMovementSeq c ticks).2.length ≤ 1 ∧
        (2 ≤ path.length →
          (advanceVillagerMovementSeq c ticks).1.pathIndex = path.length - 1 →
          (advanceVillagerMovementSeq c ticks).2 =
            [{ villagerId := c₀.villagerId
               tileId := path.getD (path.length - 1) ""
               tick := t0 + (path.length - 1) }])) := by
  refine ⟨?_, ?_, ?_⟩
  · -- index advance formula
    intro c k hik hk
    by_cases hlen : c.path.length ≤ 1
    · have hstep := advance_eq_noop c (c.lastProcessedTick + k) (Or.inr hlen)
      rw [hstep]
      simp only []
      omega
    · push_neg at hlen
      have ht : c.lastProcessedTick < c.lastProcessedTick + k := by omega
      by_cases hreach : min (c.path.length - 1)
          (c.pathIndex + (c.lastProcessedTick + k - c.lastProcessedTick))
          = c.path.length - 1
      · cases harr : c.arrivedAtTick with
        | some a =>
          rw [advance_eq_move_reached_already c _ a ht (by omega) hreach harr]
          simp only []
          omega
        | none =>
          rw [advance_eq_move_reached_first c _ ht (by omega) hreach harr]
          simp only []
          omega
      · rw [advance_eq_move_not_reached c _ ht (by omega) hreach]
        simp only []
        omega
  · -- every emitted event is the first-arrival event of its call
    intro c t e he
    by_cases hcond : t ≤ c.lastProcessedTick ∨ c.path.length ≤ 1
    · rw [advance_eq_noop c t hcond] at he
      cases he
    · push_neg at hcond
      obtain ⟨ht, hlen⟩ := hcond
      by_cases hreach : min (c.path.length - 1)
          (c.pathIndex + (t - c.lastProcessedTick)) = c.path.length - 1
      · cases harr : c.arrivedAtTick with
        | some a =>
          rw [advance_eq_move_reached_already c t a ht (by omega) hreach harr] at he
          cases he
        | none =>
          have hstep := advance_eq_move_reached_first c t ht (by omega) hreach harr
          rw [hstep] at he
          simp only [List.mem_singleton] at he
          refine ⟨rfl, ht, ?_, ?_⟩
          · rw [hstep]
            simp only []
            omega
          · rw [he]
            congr 1
            rw [hreach]
      · rw [advance_eq_move_not_reached c t ht (by omega) hreach] at he
        cases he
  · -- sequences after one assignment
    intro c₀ c path t0 ticks hassign
    cases path with
    | nil => cases hassign
    | cons first rest =>
      simp only [assignVillagerMovementPath, Option.some.injEq] at hassign
      by_cases hlen : 2 ≤ (first :: rest).length
      · have hr : 1 ≤ rest.length := by
          simp only [List.length_cons] at hlen
          omega
        have hstate : MovState c₀.villagerId (first :: rest) t0 c := by
          rw [← hassign]
          refine ⟨rfl, rfl, Or.inl ⟨?_, ?_, ?_⟩⟩
          · simp only []
            rw [if_neg (by simp only [List.length_cons]; omega)]
          · simp only [List.length_cons] at hlen ⊢
            omega
          · simp only []
            omega
        obtain ⟨hfin, htri⟩ :=
          advanceSeq_spec c₀.villagerId (first :: rest) t0 hlen ticks c hstate
        constructor
        · rcases htri with ⟨_, _, hevs⟩ | ⟨_, _, hevs⟩ | ⟨_, _, hevs⟩ <;>
            simp [hevs]
        · intro _ hidx
          have harrsome : (advanceVillagerMovementSeq c ticks).1.arrivedAtTick ≠ none := by
            rcases hfin.2.2 with ⟨_, hlt, _⟩ | ⟨ha, _⟩
            · omega
            · simp [ha]
          have harrc : c.arrivedAtTick = none := by
            rw [← hassign]
            simp only []
            rw [if_neg (by simp only [List.length_cons]; omega)]
          rcases htri with ⟨_, hb, _⟩ | ⟨_, _, hevs⟩ | ⟨hb, _, _⟩
          · exact absurd hb harrsome
          · exact hevs
          · exact absurd harrc hb
      · have hone : (first :: rest).length ≤ 1 := by omega
        have hcle : c.path.length ≤ 1 := by rw [← hassign]; exact hone
        constructor
        · rw [advanceSeq_len_le_one ticks c hcle]
          simp
        · intro hge
          exact absurd hge hlen

/-- Witness for claim C2 at concrete inputs. -/
theorem claim_C2_witness :
    ((advanceVillagerMovement
        (⟨"v", "a", ["a", "b", "c"], 0, 0, none⟩ : VillagerMovementComponent)
        ((⟨"v", "a", ["a", "b", "c"], 0, 0, none⟩ :
            VillagerMovementComponent).lastProcessedTick + 5)).component.pathIndex
      = (⟨"v", "a", ["a", "b", "c"], 0, 0, none⟩ :
          VillagerMovementComponent).pathIndex + min 5 (["a", "b", "c"].length - 1 - 0)) ∧
    ((advanceVillagerMovementSeq
        (⟨"v", "b", ["b", "c"], 0, 0, none⟩ : VillagerMovementComponent)
        [1, 2]).2.length ≤ 1) := by
  constructor
  · exact claim_C2.1 ⟨"v", "a", ["a", "b", "c"], 0, 0, none⟩ 5 (by decide) (by decide)
  · exact (claim_C2.2.2 ⟨"v", "x", ["x"], 0, 0, none⟩
      ⟨"v", "b", ["b", "c"], 0, 0, none⟩ ["b", "c"] 0 [1, 2] (by decide)).1

/-- Claim C9 (counterexample): with a single-tile path and a tick strictly
above the last-processed tick, the advance is not a field-for-field no-op:
lastProcessedTick is updated to the new tick. -/
theorem claim_C9_counterexample :
    ((⟨"v", "a", ["a"], 0, 0, some 0⟩ :
        VillagerMovementComponent).path.length ≤ 1) ∧
    (advanceVillagerMovement
        (⟨"v", "a", ["a"], 0, 0, some 0⟩ : VillagerMovementComponent) 1).component
      ≠ (⟨"v", "a", ["a"], 0, 0, some 0⟩ : VillagerMovementComponent) := by
  constructor
  · decide
  · intro h
    have := congrArg VillagerMovementComponent.lastProcessedTick h
    simp [advanceVillagerMovement] at this

/-- Claim C9 (amended): whenever tick ≤ last-processed tick or the path has
at most one tile, advanceVillagerMovement emits no events and leaves every
field unchanged except lastProcessedTick, which becomes
max(lastProcessedTick, tick) — in particular a full no-op when
tick ≤ lastProcessedTick. -/
theorem claim_C9_amended (c : VillagerMovementComponent) (t : Nat)
    (h : t ≤ c.lastProcessedTick ∨ c.path.length ≤ 1) :
    advanceVillagerMovement c t =
      { component := { c with lastProcessedTick := max c.lastProcessedTick t }
        events := [] } :=
  advance_eq_noop c t h

/-- Witness for the amended claim C9 at a concrete input. -/
theorem claim_C9_witness :
    advanceVillagerMovement
        (⟨"v", "a", ["a"], 0, 3, some 0⟩ : VillagerMovementComponent) 1 =
      { component :=
          { (⟨"v", "a", ["a"], 0, 3, some 0⟩ : VillagerMovementComponent) with
            lastProcessedTick :=
              max (⟨"v", "a", ["a"], 0, 3, some 0⟩ :
                VillagerMovementComponent).lastProcessedTick 1 }
        events := [] } :=
  claim_C9_amended ⟨"v", "a", ["a"], 0, 3, some 0⟩ 1 (Or.inl (by decide))

/-! ## Schedule lemmas -/

theorem slice_split {α : Type} (entries : List α) (a b c : Nat)
    (hab : a ≤ b) (hbc : b ≤ c) :
    (entries.drop a).take (c - a) =
      (entries.drop a).take (b - a) ++ (entries.drop b).take (c - b) := by
  rw [show c - a = (b - a) + (c - b) by omega, List.take_add]
  congr 2
  rw [List.drop_drop]
  congr 1
  omega

theorem slice_singleton {α : Type} (entries : List α) (a : Nat)
    (h : a < entries.length) :
    (entries.drop a).take 1 = [entries.get ⟨a, h⟩] := by
  rw [List.drop_eq_getElem_cons h]
  rfl

theorem pairwise_getLast?_ge {α : Type} {R : α → α → Prop} :
    ∀ (l : List α), l.Pairwise R → ∀ b, l.getLast? = some b →
      ∀ x ∈ l, x = b ∨ R x b := by
  intro l
  induction l with
  | nil => intro _ b hb; cases hb
  | cons a t ih =>
    intro hp b hb x hx
    cases t with
    | nil =>
      simp at hb hx
      subst hb hx
      exact Or.inl rfl
    | cons a2 t2 =>
      rw [List.getLast?_cons_cons] at hb
      rcases List.mem_cons.mp hx with hxa | hxt
      · subst hxa
        right
        have hbmem : b ∈ a2 :: t2 := List.mem_of_mem_getLast? hb
        exact (List.pairwise_cons.mp hp).1 b hbmem
      · exact ih (List.pairwise_cons.mp hp).2 b hb x hxt

/-- Window spec of the binary-search loop: over the index window [lo, hi)
it returns the last window entry whose startMinute ≤ m, else the
accumulator. -/
theorem resolveLoop_window (entries : List VillagerScheduleEntry) (m : Int)
    (hsorted : entries.Pairwise (fun a b => a.startMinute ≤ b.startMinute)) :
    ∀ (n lo hi : Nat) (acc : Option VillagerScheduleEntry), hi - lo ≤ n →
      hi ≤ entries.length →
      resolveLoop entries m (lo : Int) ((hi : Int) - 1) acc =
        (((entries.drop lo).take (hi - lo)).filter
            (fun e => decide (e.startMinute ≤ m))).getLast?.elim acc some := by
  intro n
  induction n with
  | zero =>
    intro lo hi acc hn hhi
    rw [resolveLoop, dif_neg (by omega)]
    rw [show hi - lo = 0 by omega]
    simp
  | succ n ih =>
    intro lo hi acc hn hhi
    by_cases hlh : lo < hi
    case neg =>
      rw [resolveLoop, dif_neg (by omega)]
      rw [show hi - lo = 0 by omega]
      simp
    case pos =>
      rw [resolveLoop, dif_pos (by omega : (lo : Int) ≤ (hi : Int) - 1)]
      simp only []
      set q : Nat := (((hi : Int) - 1) - (lo : Int)).toNat / 2 with hq
      have hqlt : lo + q < hi := by omega
      have hmn : lo + q < entries.length := by omega
      rw [show ((lo : Int) + ((q : Nat) : Int)).toNat = lo + q by omega]
      rw [List.get?_eq_get hmn]
      set e : VillagerScheduleEntry := entries.get ⟨lo + q, hmn⟩ with he
      show (if e.startMinute ≤ m then
          resolveLoop entries m ((lo : Int) + (q : Int) + 1) ((hi : Int) - 1) (some e)
        else resolveLoop entries m (lo : Int) ((lo : Int) + (q : Int) - 1) acc) = _
      by_cases hle : e.startMinute ≤ m
      · rw [if_pos hle]
        rw [show (lo : Int) + (q : Int) + 1 = ((lo + q + 1 : Nat) : Int) by push_cast; ring]
        rw [ih (lo + q + 1) hi (some e) (by omega) hhi]
        -- split the window at the midpoint
        have hsplit1 : (entries.drop lo).take (hi - lo) =
            (entries.drop lo).take (lo + q + 1 - lo) ++
              (entries.drop (lo + q + 1)).take (hi - (lo + q + 1)) :=
          slice_split entries lo (lo + q + 1) hi (by omega) (by omega)
        have hsplit2 : (entries.drop lo).take (lo + q + 1 - lo) =
            (entries.drop lo).take (lo + q - lo) ++ [e] := by
          rw [show lo + q + 1 - lo = (lo + q - lo) + 1 by omega, List.take_add]
          congr 1
          rw [List.drop_drop, show lo + (lo + q - lo) = lo + q by omega]
          exact slice_singleton entries (lo + q) hmn
        rw [hsplit1, hsplit2, List.filter_append, List.filter_append]
        rw [show List.filter (fun e => decide (e.startMinute ≤ m)) [e] = [e] by
          simp [hle]]
        rw [List.getLast?_append, List.getLast?_append]
        cases hcl : (((entries.drop (lo + q + 1)).take (hi - (lo + q + 1))).filter
            (fun e => decide (e.startMinute ≤ m))).getLast? with
        | none => simp
        | some y => simp
      · rw [if_neg hle]
        rw [show (lo : Int) + (q : Int) - 1 = ((lo + q : Nat) : Int) - 1 by push_cast; ring]
        rw [ih lo (lo + q) acc (by omega) (by omega)]
        have hsplit1 : (entries.drop lo).take (hi - lo) =
            (entries.drop lo).take (lo + q - lo) ++
              (entries.drop (lo + q)).take (hi - (lo + q)) :=
          slice_split entries lo (lo + q) hi (by omega) (by omega)
        have hnil : ((entries.drop (lo + q)).take (hi - (lo + q))).filter
            (fun e => decide (e.startMinute ≤ m)) = [] := by
          rw [List.filter_eq_nil_iff]
          intro x hx
          have hxd : x ∈ entries.drop (lo + q) := List.mem_of_mem_take hx
          obtain ⟨⟨k, hk⟩, hkx⟩ := List.get_of_mem hxd
          have hkx2 : x = entries.get ⟨lo + q + k, by
              rw [List.length_drop] at hk; omega⟩ := by
            rw [← hkx]
            rw [List.get_drop]
          have hex : e.startMinute ≤ x.startMinute := by
            cases k with
            | zero =>
              rw [hkx2, he]
              exact le_refl _
            | succ k2 =>
              rw [hkx2, he]
              exact List.pairwise_iff_get.mp hsorted ⟨lo + q, hmn⟩ _ (by
                simp only [Fin.mk_lt_mk]; omega)
          simp only [decide_eq_true_eq]
          omega
        rw [hsplit1, List.filter_append, hnil, List.append_nil]

theorem mem_insertEntrySorted (e x : VillagerScheduleEntry) :
    ∀ l : List VillagerScheduleEntry,
      x ∈ insertEntrySorted e l ↔ x = e ∨ x ∈ l := by
  intro l
  induction l with
  | nil => simp [insertEntrySorted]
  | cons y ys ih =>
    simp only [insertEntrySorted]
    split_ifs with hc
    · simp [List.mem_cons]
    · simp only [List.mem_cons, ih]
      tauto

theorem pairwise_insertEntrySorted (e : VillagerScheduleEntry) :
    ∀ l : List VillagerScheduleEntry,
      l.Pairwise (fun a b => a.startMinute ≤ b.startMinute) →
      (insertEntrySorted e l).Pairwise (fun a b => a.startMinute ≤ b.startMinute) := by
  intro l
  induction l with
  | nil => intro _; simp [insertEntrySorted]
  | cons y ys ih =>
    intro hp
    obtain ⟨hy, hys⟩ := List.pairwise_cons.mp hp
    simp only [insertEntrySorted]
    split_ifs with hc
    · refine List.pairwise_cons.mpr ⟨?_, hp⟩
      intro z hz
      rcases List.mem_cons.mp hz with rfl | hzys
      · omega
      · have := hy z hzys
        omega
    · refine List.pairwise_cons.mpr ⟨?_, ih hys⟩
      intro z hz
      rcases (mem_insertEntrySorted e z ys).mp hz with rfl | hzys
      · omega
      · exact hy z hzys

theorem sortByStartMinute_sorted :
    ∀ l : List VillagerScheduleEntry,
      (sortByStartMinute l).Pairwise (fun a b => a.startMinute ≤ b.startMinute) := by
  intro l
  induction l with
  | nil => simp [sortByStartMinute]
  | cons x xs ih => exact pairwise_insertEntrySorted x _ ih

theorem create_sorted (villagerId : String) (slots : List VillagerScheduleSlot)
    (s : VillagerDailySchedule)
    (h : createVillagerDailySchedule villagerId slots = some s) :
    s.entries.Pairwise (fun a b => a.startMinute ≤ b.startMinute) := by
  unfold createVillagerDailySchedule at h
  split at h
  · cases h
  · split at h
    · cases h
    · injection h with h
      subst h
      exact sortByStartMinute_sorted _

/-- Claim C5: for every schedule built from distinct-hour entries,
resolveActiveVillagerTask returns the schedule entry with the greatest
start-minute ≤ the query minute (source "schedule", that entry's action and
target); when the query precedes every entry it returns the idle fallback
(observe, no target, source "idle"). -/
theorem claim_C5 (villagerId : String) (slots : List VillagerScheduleSlot)
    (schedule : VillagerDailySchedule) (minuteOfDay : Int)
    (hcreate : createVillagerDailySchedule villagerId slots = some schedule) :
    ((∀ e ∈ schedule.entries, minuteOfDay < e.startMinute) →
      resolveActiveVillagerTask schedule minuteOfDay =
        { villagerId := schedule.villagerId
          action := .observe
          targetTileId := none
          source := .idle }) ∧
    ((∃ e ∈ schedule.entries, e.startMinute ≤ minuteOfDay) →
      ∃ best ∈ schedule.entries, best.startMinute ≤ minuteOfDay ∧
        (∀ e' ∈ schedule.entries, e'.startMinute ≤ minuteOfDay →
          e'.startMinute ≤ best.startMinute) ∧
        resolveActiveVillagerTask schedule minuteOfDay =
          { villagerId := schedule.villagerId
            action := best.action
            targetTileId := some best.targetTileId
            source := .schedule }) := by
  have hsorted := create_sorted villagerId slots schedule hcreate
  have hloop := resolveLoop_window schedule.entries minuteOfDay hsorted
      schedule.entries.length 0 schedule.entries.length none (by omega) (le_refl _)
  simp only [List.drop_zero, Nat.sub_zero, List.take_length, Nat.cast_zero] at hloop
  constructor
  · intro hall
    have hnil : schedule.entries.filter
        (fun e => decide (e.startMinute ≤ minuteOfDay)) = [] := by
      rw [List.filter_eq_nil_iff]
      intro e he
      simp only [decide_eq_true_eq]
      have := hall e he
      omega
    rw [hnil] at hloop
    simp only [List.getLast?_nil, Option.elim] at hloop
    unfold resolveActiveVillagerTask
    rw [hloop]
    rfl
  · intro ⟨e, he, hle⟩
    have hmemf : e ∈ schedule.entries.filter
        (fun e => decide (e.startMinute ≤ minuteOfDay)) :=
      List.mem_filter.mpr ⟨he, by simpa using hle⟩
    cases hbl : (schedule.entries.filter
        (fun e => decide (e.startMinute ≤ minuteOfDay))).getLast? with
    | none =>
      rw [List.getLast?_eq_none_iff] at hbl
      rw [hbl] at hmemf
      cases hmemf
    | some best =>
      have hbestf : best ∈ schedule.entries.filter
          (fun e => decide (e.startMinute ≤ minuteOfDay)) :=
        List.mem_of_mem_getLast? hbl
      obtain ⟨hbmem, hble⟩ := List.mem_filter.mp hbestf
      refine ⟨best, hbmem, by simpa using hble, ?_, ?_⟩
      · intro e' he' hle'
        have he'f : e' ∈ schedule.entries.filter
            (fun e => decide (e.startMinute ≤ minuteOfDay)) :=
          List.mem_filter.mpr ⟨he', by simpa using hle'⟩
        rcases pairwise_getLast?_ge _ (hsorted.filter _) best hbl e' he'f with
          heq | hlt
        · rw [heq]
        · exact hlt
      · rw [hbl] at hloop
        simp only [Option.elim] at hloop
        unfold resolveActiveVillagerTask
        rw [hloop]

/-- Witness for claim C5 at a concrete schedule and query minute. -/
theorem claim_C5_witness :
    ∃ best ∈ ({ villagerId := "v"
                entries := [{ startMinute := 360, action := .farm, targetTileId := "t1" },
                            { startMinute := 720, action := .rest, targetTileId := "t2" }] }
        : VillagerDailySchedule).entries,
      best.startMinute ≤ 500 ∧
      (∀ e' ∈ ({ villagerId := "v"
                 entries := [{ startMinute := 360, action := .farm, targetTileId := "t1" },
                             { startMinute := 720, action := .rest, targetTileId := "t2" }] }
          : VillagerDailySchedule).entries,
        e'.startMinute ≤ 500 → e'.startMinute ≤ best.startMinute) ∧
      resolveActiveVillagerTask
          ({ villagerId := "v"
             entries := [{ startMinute := 360, action := .farm, targetTileId := "t1" },
                         { startMinute := 720, action := .rest, targetTileId := "t2" }] }
            : VillagerDailySchedule) 500 =
        { villagerId := "v"
          action := best.action
          targetTileId := some best.targetTileId
          source := .schedule } :=
  (claim_C5 "v"
      [{ hour := 6, action := .farm, targetTileId := "t1" },
       { hour := 12, action := .rest, targetTileId := "t2" }]
      _ 500 (by decide)).2
    ⟨{ startMinute := 360, action := .farm, targetTileId := "t1" }, by decide, by decide⟩

/-- Claim C6: a "shop" decision from a non-merchant context is blocked (the
whole decision aborts with a policy error); a "farm" decision from a
non-farmer context is rewritten to "observe" with the target cleared,
recording exactly the farm violation, and subsequent rules are evaluated
against the rewritten action; an accepted result means no rewrite occurred
(the decision is returned unchanged and the violation list is empty), and a
rewritten result carries a non-empty violation list. -/
theorem claim_C6 (decision : NpcDecision) (context : NpcPromptContext) :
    (decision.action = .shop → context.role ≠ .merchant →
      applyDecisionGuardrails decision context =
        .error { policyId := "role-restriction-shop"
                 reason := "Only merchant-role villagers may execute shop actions." }) ∧
    (decision.action = .farm → context.role ≠ .farmer →
      applyDecisionGuardrails decision context =
        .ok { decision := { action := .observe
                            reasoning := decision.reasoning
                            targetTileId := none }
              decisionValidity := .rewritten
              policyViolations :=
                [{ policyId := "role-restriction-farm"
                   reason := "Non-farmer villagers cannot execute farm actions."
                   originalAction := .farm
                   finalAction := .observe }] }) ∧
    (∀ result, applyDecisionGuardrails decision context = .ok result →
      (result.decisionValidity = .accepted ↔ result.policyViolations = []) ∧
      (result.decisionValidity = .accepted ↔ result.decision = decision)) := by
  obtain ⟨action, reasoning, targetTileId⟩ := decision
  obtain ⟨role, ⟨minuteOfDay⟩⟩ := context
  by_cases hq : minuteOfDay < 360 ∨ 1320 ≤ minuteOfDay <;>
    cases action <;> cases role <;>
      refine ⟨?_, ?_, ?_⟩ <;>
        simp_all [applyDecisionGuardrails, applyGuardrailRules,
          DECISION_POLICY_RULES, actionRequiresTarget]

/-- Witness for claim C6: a non-merchant proposing shop is blocked, and a
non-farmer proposing farm is rewritten to observe with cleared target. -/
theorem claim_C6_witness :
    applyDecisionGuardrails
        { action := .shop, reasoning := "r", targetTileId := some "t" }
        { role := .farmer, worldTime := { minuteOfDay := 600 } } =
      .error { policyId := "role-restriction-shop"
               reason := "Only merchant-role villagers may execute shop actions." } ∧
    applyDecisionGuardrails
        { action := .farm, reasoning := "r", targetTileId := some "t" }
        { role := .merchant, worldTime := { minuteOfDay := 600 } } =
      .ok { decision := { action := .observe, reasoning := "r", targetTileId := none }
            decisionValidity := .rewritten
            policyViolations :=
              [{ policyId := "role-restriction-farm"
                 reason := "Non-farmer villagers cannot execute farm actions."
                 originalAction := .farm
                 finalAction := .observe }] } :=
  ⟨(claim_C6 { action := .shop, reasoning := "r", targetTileId := some "t" }
      { role := .farmer, worldTime := { minuteOfDay := 600 } }).1 rfl (by decide),
   (claim_C6 { action := .farm, reasoning := "r", targetTileId := some "t" }
      { role := .merchant, worldTime := { minuteOfDay := 600 } }).2.1 rfl (by decide)⟩

/-- Claim C7: shouldRequestNpcReplan reports nothing whenever the last plan
signature equals the prompt signature, regardless of cadence or major-event
recency; both the success and the failure completion handlers record the
issued signature as lastPlanSignature; hence after any completion of a
request issued with signature s, a second evaluation whose prompt signature
is still s reports nothing — two consecutive evaluations with an unchanged
signature never both report due. -/
theorem claim_C7 :
    (∀ input : ShouldRequestNpcReplanInput,
        input.lastPlanSignature = some input.promptSignature →
        shouldRequestNpcReplan input = none) ∧
    (∀ (replan : NpcReplanState) (tick : Int) (promptSignature : String)
        (decisionAction : VillagerActionType)
        (decisionTargetTileId : Option String) (decisionReasoning : String),
        (completeNpcReplanSuccess replan decisionAction decisionTargetTileId
            decisionReasoning tick promptSignature).lastPlanSignature
          = some promptSignature ∧
        (completeNpcReplanFailure replan tick promptSignature).lastPlanSignature
          = some promptSignature) ∧
    (∀ (replan : NpcReplanState) (t1 t2 interval : Int) (s : String)
        (lastMajorEventTick : Option Int) (decisionAction : VillagerActionType)
        (decisionTargetTileId : Option String) (decisionReasoning : String),
        shouldRequestNpcReplan
          { tick := t2, intervalTicks := interval, promptSignature := s
            lastPlanTick := (completeNpcReplanSuccess replan decisionAction
              decisionTargetTileId decisionReasoning t1 s).lastPlanTick
            lastPlanSignature := (completeNpcReplanSuccess replan decisionAction
              decisionTargetTileId decisionReasoning t1 s).lastPlanSignature
            lastMajorEventTick := lastMajorEventTick } = none ∧
        shouldRequestNpcReplan
          { tick := t2, intervalTicks := interval, promptSignature := s
            lastPlanTick := (completeNpcReplanFailure replan t1 s).lastPlanTick
            lastPlanSignature := (completeNpcReplanFailure replan t1 s).lastPlanSignature
            lastMajorEventTick := lastMajorEventTick } = none) := by
  have h1 : ∀ input : ShouldRequestNpcReplanInput,
      input.lastPlanSignature = some input.promptSignature →
      shouldRequestNpcReplan input = none := by
    intro input h
    simp [shouldRequestNpcReplan, h]
  refine ⟨h1, ?_, ?_⟩
  · intro replan tick promptSignature da dt dr
    exact ⟨rfl, rfl⟩
  · intro replan t1 t2 interval s lastMajorEventTick da dt dr
    exact ⟨h1 _ rfl, h1 _ rfl⟩

/-- Witness for claim C7 at a concrete input: an unchanged signature
suppresses due-ness even when cadence is overdue and a major event is newer
than the last plan. -/
theorem claim_C7_witness :
    shouldRequestNpcReplan
      { tick := 100, intervalTicks := 1, promptSignature := "sig"
        lastPlanTick := some 0, lastPlanSignature := some "sig"
        lastMajorEventTick := some 99 } = none :=
  claim_C7.1
    { tick := 100, intervalTicks := 1, promptSignature := "sig"
      lastPlanTick := some 0, lastPlanSignature := some "sig"
      lastMajorEventTick := some 99 } rfl

/-! ## JSON values and the snapshot codec (src/simulation/snapshots.ts).
JSON numbers are modeled as rationals; Number.isInteger is den = 1. The
unknown-typed argument of each duck-typing validator is a Json value. -/

inductive Json
  | null
  | bool (b : Bool)
  | num (q : Rat)
  | str (s : String)
  | arr (items : List Json)
  | obj (fields : List (String × Json))

def WORLD_SNAPSHOT_VERSION : Int := 1

/-! Identifier and enum validators (src/domain). -/

/-- value.startsWith(prefix), computed on the underlying character list. -/
def strStartsWith (s pre : String) : Bool :=
  pre.data.isPrefixOf s.data

def isVillagerIdStr (s : String) : Bool :=
  strStartsWith s "villager_" && s.length > "villager_".length

def isMemoryIdStr (s : String) : Bool :=
  strStartsWith s "memory_" && s.length > "memory_".length

def isDigitChar (c : Char) : Bool := '0' ≤ c && c ≤ '9'

/-- The \d+_\d+ suffix of the tile id pattern. -/
def tileIdSuffix (cs : List Char) : Bool :=
  match cs.span isDigitChar with
  | (ds, remaining) =>
    !ds.isEmpty &&
      match remaining with
      | '_' :: ds2 => !ds2.isEmpty && ds2.all isDigitChar
      | _ => false

/-- The /^tile_\d+_\d+$/ test of isTileId. -/
def isTileIdStr (s : String) : Bool :=
  match s.data with
  | 't' :: 'i' :: 'l' :: 'e' :: '_' :: rest => tileIdSuffix rest
  | _ => false

def NPC_STATE_STRINGS : List String :=
  ["idle", "planning", "moving", "acting", "resting"]

def VILLAGER_ACTION_STRINGS : List String :=
  ["walk", "farm", "chat", "shop", "rest", "observe"]

def MEMORY_SOURCE_TYPE_STRINGS : List String :=
  ["self", "world", "villager", "system"]

def isNpcStateStr (s : String) : Bool := NPC_STATE_STRINGS.contains s

def isVillagerActionTypeStr (s : String) : Bool := VILLAGER_ACTION_STRINGS.contains s

def isMemorySourceTypeStr (s : String) : Bool := MEMORY_SOURCE_TYPE_STRINGS.contains s

/-! The snapshot validators, over Json. -/

def isMemoryCreatedAtJson (value : Json) : Bool :=
  match value with
  | .obj fields =>
    match mget fields "day", mget fields "minuteOfDay" with
    | some (.num day), some (.num minuteOfDay) =>
      day.den = 1 && 1 ≤ day && minuteOfDay.den = 1 &&
        0 ≤ minuteOfDay && minuteOfDay ≤ 1439
    | _, _ => false
  | _ => false

def isMemorySourceJson (sourceFields : List (String × Json)) : Bool :=
  (match mget sourceFields "type" with
   | some (.str t) => isMemorySourceTypeStr t
   | _ => false) &&
  (match mget sourceFields "actorVillagerId" with
   | none => true
   | some (.str a) => isVillagerIdStr a
   | some _ => false) &&
  (match mget sourceFields "eventId" with
   | none => true
   | some (.str _) => true
   | some _ => false)

def isShortTermMemoryJson (value : Json) : Bool :=
  match value with
  | .obj fields =>
    match mget fields "id", mget fields "villagerId", mget fields "type",
        mget fields "summary", mget fields "source", mget fields "createdAt",
        mget fields "bucket", mget fields "expiresAfterTicks",
        mget fields "importance" with
    | some (.str id), some (.str villagerId), some (.str _type),
        some (.str _summary), some (.obj sourceFields), some createdAt,
        some (.str bucket), some (.num expiresAfterTicks), some (.num importance) =>
      isMemoryIdStr id && isVillagerIdStr villagerId &&
        isMemoryCreatedAtJson createdAt && bucket = "short_term" &&
        expiresAfterTicks.den = 1 && 0 < expiresAfterTicks &&
        0 ≤ importance && importance ≤ 1 &&
        isMemorySourceJson sourceFields
    | _, _, _, _, _, _, _, _, _ => false
  | _ => false

def isLongTermMemoryJson (value : Json) : Bool :=
  match value with
  | .obj fields =>
    match mget fields "id", mget fields "villagerId", mget fields "type",
        mget fields "summary", mget fields "source", mget fields "createdAt",
        mget fields "bucket", mget fields "reinforcementCount",
        mget fields "importance" with
    | some (.str id), some (.str villagerId), some (.str _type),
        some (.str _summary), some (.obj sourceFields), some createdAt,
        some (.str bucket), some (.num reinforcementCount), some (.num importance) =>
      isMemoryIdStr id && isVillagerIdStr villagerId &&
        isMemoryCreatedAtJson createdAt && bucket = "long_term" &&
        reinforcementCount.den = 1 && 0 ≤ reinforcementCount &&
        0 ≤ importance && importance ≤ 1 &&
        isMemorySourceJson sourceFields
    | _, _, _, _, _, _, _, _, _ => false
  | _ => false

def isVillagerMemoryStoreJson (value : Json) : Bool :=
  match value with
  | .obj fields =>
    match mget fields "villagerId", mget fields "shortTerm",
        mget fields "longTerm" with
    | some (.str villagerId), some (.arr shortTerm), some (.arr longTerm) =>
      isVillagerIdStr villagerId && shortTerm.all isShortTermMemoryJson &&
        longTerm.all isLongTermMemoryJson
    | _, _, _ => false
  | _ => false

def isOptionalIntegerNumJson (field : Option Json) : Bool :=
  match field with
  | none => true
  | some (.num q) => q.den = 1
  | some _ => false

def isNpcIntentJson (field : Option Json) : Bool :=
  match field with
  | none => true
  | some (.obj intentFields) =>
    (match mget intentFields "action" with
     | some (.str a) => isVillagerActionTypeStr a
     | _ => false) &&
    (match mget intentFields "targetTileId" with
     | none => true
     | some (.str t) => isTileIdStr t
     | some _ => false) &&
    (match mget intentFields "reasoning" with
     | some (.str _) => true
     | _ => false) &&
    (match mget intentFields "plannedAtTick" with
     | some (.num q) => q.den = 1
     | _ => false)
  | some _ => false

def isNpcReplanStateJson (value : Json) : Bool :=
  match value with
  | .obj fields =>
    isOptionalIntegerNumJson (mget fields "lastPlanTick") &&
    (match mget fields "lastPlanSignature" with
     | none => true
     | some (.str _) => true
     | some _ => false) &&
    isOptionalIntegerNumJson (mget fields "lastMajorEventTick") &&
    isOptionalIntegerNumJson (mget fields "intentUpdatedAtTick") &&
    isNpcIntentJson (mget fields "intent")
  | _ => false

def isPersistedNpcWorldStateJson (value : Json) : Bool :=
  match value with
  | .obj fields =>
    match mget fields "villagerId", mget fields "currentTileId",
        mget fields "targetTileId", mget fields "npcState",
        mget fields "memoryStore", mget fields "replan" with
    | some (.str villagerId), some (.str currentTileId), some (.str targetTileId),
        some (.str npcState), some memoryStore, some replan =>
      isVillagerIdStr villagerId && isTileIdStr currentTileId &&
        isTileIdStr targetTileId && isNpcStateStr npcState &&
        isVillagerMemoryStoreJson memoryStore && isNpcReplanStateJson replan
    | _, _, _, _, _, _ => false
  | _ => false

/-- The parse result: top-level fields rebuilt, npcs kept as-is (the source
returns candidate.npcs unchanged after validation). -/
structure SimulationTime where
  tick : Int
  day : Int
  minuteOfDay : Int
deriving DecidableEq, Repr

structure ParsedWorldSnapshot where
  version : Int
  savedAtIso : String
  world : SimulationTime
  npcs : List Json

def parseWorldSnapshot (value : Json) : Option ParsedWorldSnapshot :=
  match value with
  | .obj fields =>
    -- candidate.version !== WORLD_SNAPSHOT_VERSION: anything but the number 1
    match mget fields "version" with
    | some (.num version) =>
      if version ≠ (WORLD_SNAPSHOT_VERSION : Rat) then none
      else
      match mget fields "savedAtIso", mget fields "world", mget fields "npcs" with
      | some (.str savedAtIso), some (.obj worldFields), some (.arr npcs) =>
        if ¬npcs.all isPersistedNpcWorldStateJson then none
        else
          match mget worldFields "tick", mget worldFields "day",
              mget worldFields "minuteOfDay" with
          | some (.num tick), some (.num day), some (.num minuteOfDay) =>
            if tick.den = 1 ∧ 0 ≤ tick ∧ day.den = 1 ∧ 1 ≤ day ∧
                minuteOfDay.den = 1 ∧ 0 ≤ minuteOfDay ∧ minuteOfDay ≤ 1439 then
              some { version := WORLD_SNAPSHOT_VERSION
                     savedAtIso := savedAtIso
                     world := { tick := tick.num, day := day.num
                                minuteOfDay := minuteOfDay.num }
                     npcs := npcs }
            else none
          | _, _, _ => none
      | _, _, _ => none
    | _ => none
  | _ => none

/-! Typed snapshot values (the TS WorldSnapshot shape) and their canonical
JSON encoding (the object JSON.stringify would produce, undefined-valued
optional fields omitted). -/

structure VillagerMemorySource where
  type : MemorySourceType
  actorVillagerId : Option String
  eventId : Option String
deriving DecidableEq, Repr

structure ShortTermVillagerMemory where
  id : String
  villagerId : String
  type : String
  summary : String
  source : VillagerMemorySource
  createdAt : SimulationTime
  importance : Rat
  expiresAfterTicks : Int
deriving DecidableEq, Repr

structure LongTermVillagerMemory where
  id : String
  villagerId : String
  type : String
  summary : String
  source : VillagerMemorySource
  createdAt : SimulationTime
  importance : Rat
  reinforcementCount : Int
deriving DecidableEq, Repr

structure VillagerMemoryStore where
  villagerId : String
  shortTerm : List ShortTermVillagerMemory
  longTerm : List LongTermVillagerMemory
deriving DecidableEq, Repr

structure PersistedNpcWorldState where
  villagerId : String
  currentTileId : String
  targetTileId : String
  npcState : NpcState
  memoryStore : VillagerMemoryStore
  replan : NpcReplanState
deriving DecidableEq, Repr

structure WorldSnapshot where
  version : Int
  savedAtIso : String
  world : SimulationTime
  npcs : List PersistedNpcWorldState
deriving DecidableEq, Repr

def npcStateToString : NpcState → String
  | .idle => "idle" | .planning => "planning" | .moving => "moving"
  | .acting => "acting" | .resting => "resting"

def villagerActionTypeToString : VillagerActionType → String
  | .walk => "walk" | .farm => "farm" | .chat => "chat"
  | .shop => "shop" | .rest => "rest" | .observe => "observe"

def memorySourceTypeToString : MemorySourceType → String
  | .self => "self" | .world => "world" | .villager => "villager"
  | .system => "system"

def encodeSimulationTime (t : SimulationTime) : Json :=
  .obj [("tick", .num (t.tick : Rat)), ("day", .num (t.day : Rat)),
        ("minuteOfDay", .num (t.minuteOfDay : Rat))]

def encodeMemorySource (s : VillagerMemorySource) : Json :=
  .obj ([("type", .str (memorySourceTypeToString s.type))] ++
    (match s.actorVillagerId with
     | some a => [("actorVillagerId", .str a)]
     | none => []) ++
    (match s.eventId with
     | some e => [("eventId", .str e)]
     | none => []))

def encodeShortTermMemory (m : ShortTermVillagerMemory) : Json :=
  .obj [("id", .str m.id), ("villagerId", .str m.villagerId),
        ("type", .str m.type), ("summary", .str m.summary),
        ("source", encodeMemorySource m.source),
        ("createdAt", encodeSimulationTime m.createdAt),
        ("importance", .num m.importance), ("bucket", .str "short_term"),
        ("expiresAfterTicks", .num (m.expiresAfterTicks : Rat))]

def encodeLongTermMemory (m : LongTermVillagerMemory) : Json :=
  .obj [("id", .str m.id), ("villagerId", .str m.villagerId),
        ("type", .str m.type), ("summary", .str m.summary),
        ("source", encodeMemorySource m.source),
        ("createdAt", encodeSimulationTime m.createdAt),
        ("importance", .num m.importance), ("bucket", .str "long_term"),
        ("reinforcementCount", .num (m.reinforcementCount : Rat))]

def encodeVillagerMemoryStore (st : VillagerMemoryStore) : Json :=
  .obj [("villagerId", .str st.villagerId),
        ("shortTerm", .arr (st.shortTerm.map encodeShortTermMemory)),
        ("longTerm", .arr (st.longTerm.map encodeLongTermMemory))]

def encodeNpcIntent (i : PersistedNpcIntent) : Json :=
  .obj ([("action", .str (villagerActionTypeToString i.action))] ++
    (match i.targetTileId with
     | some t => [("targetTileId", .str t)]
     | none => []) ++
    [("reasoning", .str i.reasoning), ("plannedAtTick", .num (i.plannedAtTick : Rat))])

def encodeNpcReplanState (r : NpcReplanState) : Json :=
  .obj ((match r.lastPlanTick with
         | some t => [("lastPlanTick", .num (t : Rat))]
         | none => []) ++
    (match r.lastPlanSignature with
     | some sg => [("lastPlanSignature", .str sg)]
     | none => []) ++
    (match r.lastMajorEventTick with
     | some t => [("lastMajorEventTick", .num (t : Rat))]
     | none => []) ++
    (match r.intent with
     | some i => [("intent", encodeNpcIntent i)]
     | none => []) ++
    (match r.intentUpdatedAtTick with
     | some t => [("intentUpdatedAtTick", .num (t : Rat))]
     | none => []))

def encodePersistedNpcWorldState (n : PersistedNpcWorldState) : Json :=
  .obj [("villagerId", .str n.villagerId),
        ("currentTileId", .str n.currentTileId),
        ("targetTileId", .str n.targetTileId),
        ("npcState", .str (npcStateToString n.npcState)),
        ("memoryStore", encodeVillagerMemoryStore n.memoryStore),
        ("replan", encodeNpcReplanState n.replan)]

def encodeWorldSnapshot (s : WorldSnapshot) : Json :=
  .obj [("version", .num (s.version : Rat)),
        ("savedAtIso", .str s.savedAtIso),
        ("world", encodeSimulationTime s.world),
        ("npcs", .arr (s.npcs.map encodePersistedNpcWorldState))]

/-- The JSON object the parse result denotes (top-level fields in the same
order the source constructs them, npcs as returned). -/
def parsedWorldSnapshotToJson (p : ParsedWorldSnapshot) : Json :=
  .obj [("version", .num (p.version : Rat)),
        ("savedAtIso", .str p.savedAtIso),
        ("world", encodeSimulationTime p.world),
        ("npcs", .arr p.npcs)]

/-! The documented structural constraints on a typed snapshot. -/

@[reducible] def VillagerMemorySourceValid (s : VillagerMemorySource) : Prop :=
  s.actorVillagerId.all isVillagerIdStr = true

@[reducible] def MemoryCreatedAtValid (t : SimulationTime) : Prop :=
  1 ≤ t.day ∧ 0 ≤ t.minuteOfDay ∧ t.minuteOfDay ≤ 1439

@[reducible] def ShortTermMemoryValid (m : ShortTermVillagerMemory) : Prop :=
  isMemoryIdStr m.id = true ∧ isVillagerIdStr m.villagerId = true ∧
  MemoryCreatedAtValid m.createdAt ∧ 0 < m.expiresAfterTicks ∧
  0 ≤ m.importance ∧ m.importance ≤ 1 ∧ VillagerMemorySourceValid m.source

@[reducible] def LongTermMemoryValid (m : LongTermVillagerMemory) : Prop :=
  isMemoryIdStr m.id = true ∧ isVillagerIdStr m.villagerId = true ∧
  MemoryCreatedAtValid m.createdAt ∧ 0 ≤ m.reinforcementCount ∧
  0 ≤ m.importance ∧ m.importance ≤ 1 ∧ VillagerMemorySourceValid m.source

@[reducible] def VillagerMemoryStoreValid (st : VillagerMemoryStore) : Prop :=
  isVillagerIdStr st.villagerId = true ∧
  (∀ m ∈ st.shortTerm, ShortTermMemoryValid m) ∧
  (∀ m ∈ st.longTerm, LongTermMemoryValid m)

@[reducible] def NpcReplanStateValid (r : NpcReplanState) : Prop :=
  r.intent.all (fun i => i.targetTileId.all isTileIdStr) = true

@[reducible] def PersistedNpcWorldStateValid (n : PersistedNpcWorldState) : Prop :=
  isVillagerIdStr n.villagerId = true ∧ isTileIdStr n.currentTileId = true ∧
  isTileIdStr n.targetTileId = true ∧
  VillagerMemoryStoreValid n.memoryStore ∧ NpcReplanStateValid n.replan

@[reducible] def WorldSnapshotValid (s : WorldSnapshot) : Prop :=
  s.version = WORLD_SNAPSHOT_VERSION ∧ 0 ≤ s.world.tick ∧ 1 ≤ s.world.day ∧
  0 ≤ s.world.minuteOfDay ∧ s.world.minuteOfDay ≤ 1439 ∧
  ∀ n ∈ s.npcs, PersistedNpcWorldStateValid n

/-! Round-trip lemmas: encoded valid data passes every validator. -/

theorem memorySourceTypeToString_valid (t : MemorySourceType) :
    isMemorySourceTypeStr (memorySourceTypeToString t) = true := by
  cases t <;> rfl

theorem npcStateToString_valid (st : NpcState) :
    isNpcStateStr (npcStateToString st) = true := by
  cases st <;> rfl

theorem villagerActionTypeToString_valid (a : VillagerActionType) :
    isVillagerActionTypeStr (villagerActionTypeToString a) = true := by
  cases a <;> rfl

theorem encode_createdAt_valid (t : SimulationTime)
    (h : MemoryCreatedAtValid t) :
    isMemoryCreatedAtJson (encodeSimulationTime t) = true := by
  obtain ⟨h1, h2, h3⟩ := h
  simp only [isMemoryCreatedAtJson, encodeSimulationTime, mget,
    String.reduceEq, reduceIte, Rat.den_intCast, Bool.and_eq_true,
    decide_eq_true_eq, true_and, and_true]
  refine ⟨⟨?_, ?_⟩, ?_⟩
  · exact_mod_cast h1
  · exact_mod_cast h2
  · exact_mod_cast h3

theorem encode_source_valid (s : VillagerMemorySource)
    (h : VillagerMemorySourceValid s) :
    isMemorySourceJson
      (match encodeMemorySource s with
       | .obj fields => fields
       | _ => []) = true := by
  unfold VillagerMemorySourceValid at h
  obtain ⟨ty, actor, event⟩ := s
  cases actor <;> cases event <;>
    simp_all [encodeMemorySource, isMemorySourceJson, mget,
      memorySourceTypeToString_valid]

theorem encode_shortTerm_valid (m : ShortTermVillagerMemory)
    (h : ShortTermMemoryValid m) :
    isShortTermMemoryJson (encodeShortTermMemory m) = true := by
  obtain ⟨h1, h2, h3, h4, h5, h6, h7⟩ := h
  have hsrc := encode_source_valid m.source h7
  have hca := encode_createdAt_valid m.createdAt h3
  obtain ⟨ty, actor, event⟩ := m.source
  cases actor <;> cases event <;>
    simp_all [isShortTermMemoryJson, encodeShortTermMemory, encodeMemorySource,
      mget, String.reduceEq, reduceIte, Rat.den_intCast]

theorem encode_longTerm_valid (m : LongTermVillagerMemory)
    (h : LongTermMemoryValid m) :
    isLongTermMemoryJson (encodeLongTermMemory m) = true := by
  obtain ⟨h1, h2, h3, h4, h5, h6, h7⟩ := h
  have hsrc := encode_source_valid m.source h7
  have hca := encode_createdAt_valid m.createdAt h3
  obtain ⟨ty, actor, event⟩ := m.source
  cases actor <;> cases event <;>
    simp_all [isLongTermMemoryJson, encodeLongTermMemory, encodeMemorySource,
      mget, String.reduceEq, reduceIte, Rat.den_intCast]

theorem encode_store_valid (st : VillagerMemoryStore)
    (h : VillagerMemoryStoreValid st) :
    isVillagerMemoryStoreJson (encodeVillagerMemoryStore st) = true := by
  obtain ⟨h1, h2, h3⟩ := h
  simp only [isVillagerMemoryStoreJson, encodeVillagerMemoryStore, mget,
    String.reduceEq, reduceIte, Bool.and_eq_true, List.all_eq_true]
  refine ⟨⟨h1, ?_⟩, ?_⟩
  · intro j hj
    obtain ⟨m, hm, rfl⟩ := List.mem_map.mp hj
    exact encode_shortTerm_valid m (h2 m hm)
  · intro j hj
    obtain ⟨m, hm, rfl⟩ := List.mem_map.mp hj
    exact encode_longTerm_valid m (h3 m hm)

theorem encode_intent_valid (i : PersistedNpcIntent)
    (h : i.targetTileId.all isTileIdStr = true) :
    isNpcIntentJson (some (encodeNpcIntent i)) = true := by
  obtain ⟨action, target, reasoning, planned⟩ := i
  cases target <;>
    simp_all [isNpcIntentJson, encodeNpcIntent, mget, String.reduceEq,
      reduceIte, Rat.den_intCast, villagerActionTypeToString_valid]

theorem encode_replan_valid (r : NpcReplanState)
    (h : NpcReplanStateValid r) :
    isNpcReplanStateJson (encodeNpcReplanState r) = true := by
  obtain ⟨lpt, lps, lmet, intent, iuat⟩ := r
  unfold NpcReplanStateValid at h
  cases intent with
  | none =>
    cases lpt <;> cases lps <;> cases lmet <;> cases iuat <;>
      simp [isNpcReplanStateJson, encodeNpcReplanState, mget,
        isOptionalIntegerNumJson, isNpcIntentJson, String.reduceEq, reduceIte,
        Rat.den_intCast]
  | some i =>
    have hi := encode_intent_valid i (by simpa [NpcReplanStateValid] using h)
    cases lpt <;> cases lps <;> cases lmet <;> cases iuat <;>
      simp_all [isNpcReplanStateJson, encodeNpcReplanState, mget,
        isOptionalIntegerNumJson, String.reduceEq, reduceIte,
        Rat.den_intCast]

theorem encode_npc_valid (n : PersistedNpcWorldState)
    (h : PersistedNpcWorldStateValid n) :
    isPersistedNpcWorldStateJson (encodePersistedNpcWorldState n) = true := by
  obtain ⟨h1, h2, h3, h4, h5⟩ := h
  have hst := encode_store_valid n.memoryStore h4
  have hrp := encode_replan_valid n.replan h5
  simp_all [isPersistedNpcWorldStateJson, encodePersistedNpcWorldState, mget,
    String.reduceEq, reduceIte, npcStateToString_valid]

/-- Claim C8: a WorldSnapshot satisfying the documented structural
constraints parses back (also after a JSON encode/decode round trip, which
is the identity on the JSON value) to an equal value, and any input whose
version field differs from the current version is rejected with none. -/
theorem claim_C8 :
    (∀ s : WorldSnapshot, WorldSnapshotValid s →
      parseWorldSnapshot (encodeWorldSnapshot s) =
        some { version := WORLD_SNAPSHOT_VERSION
               savedAtIso := s.savedAtIso
               world := s.world
               npcs := s.npcs.map encodePersistedNpcWorldState } ∧
      (∀ p, parseWorldSnapshot (encodeWorldSnapshot s) = some p →
        parsedWorldSnapshotToJson p = encodeWorldSnapshot s)) ∧
    (∀ (fields : List (String × Json)) (v : Json),
      mget fields "version" = some v → v ≠ .num (WORLD_SNAPSHOT_VERSION : Rat) →
      parseWorldSnapshot (.obj fields) = none) := by
  constructor
  · intro s hs
    obtain ⟨hv, ht, hd, hm1, hm2, hnpcs⟩ := hs
    have hall : (s.npcs.map encodePersistedNpcWorldState).all
        isPersistedNpcWorldStateJson = true := by
      rw [List.all_eq_true]
      intro j hj
      obtain ⟨n, hn, rfl⟩ := List.mem_map.mp hj
      exact encode_npc_valid n (hnpcs n hn)
    have hmain : parseWorldSnapshot (encodeWorldSnapshot s) =
        some { version := WORLD_SNAPSHOT_VERSION
               savedAtIso := s.savedAtIso
               world := s.world
               npcs := s.npcs.map encodePersistedNpcWorldState } := by
      simp only [parseWorldSnapshot, encodeWorldSnapshot, encodeSimulationTime,
        mget, String.reduceEq, reduceIte, hall]
      rw [if_neg (by rw [hv]; simp)]
      rw [if_neg (by simp [hall])]
      rw [if_pos (by
        refine ⟨Rat.den_intCast _, by exact_mod_cast ht, Rat.den_intCast _,
          by exact_mod_cast hd, Rat.den_intCast _, by exact_mod_cast hm1,
          by exact_mod_cast hm2⟩)]
      simp [Rat.num_intCast]
    refine ⟨hmain, ?_⟩
    intro p hp
    rw [hmain] at hp
    injection hp with hp
    subst hp
    simp [parsedWorldSnapshotToJson, encodeWorldSnapshot, hv]
  · intro fields v hget hne
    cases v with
    | num q =>
      simp only [parseWorldSnapshot, hget]
      rw [if_pos (by
        intro hq
        exact hne (by rw [hq]))]
    | null => simp [parseWorldSnapshot, hget]
    | bool b => simp [parseWorldSnapshot, hget]
    | str st => simp [parseWorldSnapshot, hget]
    | arr items => simp [parseWorldSnapshot, hget]
    | obj fs => simp [parseWorldSnapshot, hget]

/-- A concrete valid snapshot used by the claim C8 witness. -/
def sampleWorldSnapshot : WorldSnapshot :=
  { version := 1
    savedAtIso := "2026-01-01T00:00:00Z"
    world := { tick := 10, day := 1, minuteOfDay := 600 }
    npcs :=
      [{ villagerId := "villager_ava"
         currentTileId := "tile_1_1"
         targetTileId := "tile_2_7"
         npcState := .moving
         memoryStore :=
           { villagerId := "villager_ava"
             shortTerm :=
               [{ id := "memory_1", villagerId := "villager_ava"
                  type := "observation", summary := "s"
                  source := { type := .self, actorVillagerId := none
                              eventId := none }
                  createdAt := { tick := 5, day := 1, minuteOfDay := 300 }
                  importance := 1, expiresAfterTicks := 100 }]
             longTerm := [] }
         replan :=
           { lastPlanTick := some 3, lastPlanSignature := some "sig"
             lastMajorEventTick := none
             intent := some { action := .walk, targetTileId := some "tile_2_7"
                              reasoning := "r", plannedAtTick := 3 }
             intentUpdatedAtTick := some 3 } }] }

/-- Witness for claim C8: the sample snapshot round-trips, and an object
whose version field is the string "2" is rejected. -/
theorem claim_C8_witness :
    parseWorldSnapshot (encodeWorldSnapshot sampleWorldSnapshot) =
      some { version := WORLD_SNAPSHOT_VERSION
             savedAtIso := sampleWorldSnapshot.savedAtIso
             world := sampleWorldSnapshot.world
             npcs := sampleWorldSnapshot.npcs.map encodePersistedNpcWorldState } ∧
    parseWorldSnapshot (.obj [("version", .str "2")]) = none :=
  ⟨(claim_C8.1 sampleWorldSnapshot (by decide)).1,
   claim_C8.2 [("version", .str "2")] (.str "2") rfl (fun h => by cases h)⟩

/-! ## Pathfinding (src/unnamed/part_005 and part_006)

Both modules define the same graph construction (`createNodesById`,
`heuristicDistance`), the same cache key and the same cached `findPath`
service; they differ only in the open-set representation inside
`findShortestPath`: part_005 scans a JS Set for the lowest f-score,
part_006 keeps a binary min-heap.  Scores are JS doubles that only ever
take natural-number values or Number.POSITIVE_INFINITY, embedded as ℕ∞
(with ⊤ for the infinity; note ⊤ + 1 = ⊤ matches IEEE ∞ + 1 = ∞).
`Array.prototype.sort` with a `localeCompare` comparator sorts strings by
a total order; it is modeled by Lean's total String order. -/

inductive TileType
  | path
  | home
  | plaza
  | farm
  | shop
  | water
  | tree
deriving DecidableEq, Repr

structure TileCoordinate where
  x : Int
  y : Int
deriving DecidableEq, Repr

structure Tile where
  id : String
  coordinate : TileCoordinate
  type : TileType
  walkable : Bool
deriving DecidableEq, Repr

structure PathfindingNode where
  id : String
  x : Int
  y : Int
  walkable : Bool
  neighbors : List String
deriving DecidableEq, Repr

structure PathfindingRequest where
  startTileId : String
  destinationTileId : String
  blockedTileIds : List String
deriving DecidableEq, Repr

inductive PathfindingResult
  | found (path : List String) (fromCache : Bool)
  | unreachable (reason : String) (path : List String)
deriving DecidableEq, Repr

/-- The source keys the coordinate map by the string x,y; over integer
coordinates that keying is injective (the decimal forms contain no comma),
so the coordinate pair itself serves as the key here. -/
def toCoordinateKey (x y : Int) : Int × Int := (x, y)

/-- createNodesById, defined identically in part_005 and part_006. -/
def createNodesById (tiles : List Tile) : List (String × PathfindingNode) :=
  let coordinatesToId := tiles.foldl
    (fun m tile => mset m (toCoordinateKey tile.coordinate.x tile.coordinate.y) tile.id) []
  tiles.foldl
    (fun m tile =>
      let neighbors := ([
          mget coordinatesToId (toCoordinateKey (tile.coordinate.x + 1) tile.coordinate.y),
          mget coordinatesToId (toCoordinateKey (tile.coordinate.x - 1) tile.coordinate.y),
          mget coordinatesToId (toCoordinateKey tile.coordinate.x (tile.coordinate.y + 1)),
          mget coordinatesToId (toCoordinateKey tile.coordinate.x (tile.coordinate.y - 1))
        ].filterMap id)
      mset m tile.id
        { id := tile.id, x := tile.coordinate.x, y := tile.coordinate.y,
          walkable := tile.walkable, neighbors := neighbors }) []

/-- heuristicDistance, defined identically in part_005 and part_006:
Manhattan distance between known nodes, infinity otherwise. -/
def heuristicDistance (nodesById : List (String × PathfindingNode))
    (fromId toId : String) : ℕ∞ :=
  match mget nodesById fromId, mget nodesById toId with
  | some fromNode, some toNode =>
    (((fromNode.x - toNode.x).natAbs + (fromNode.y - toNode.y).natAbs : ℕ) : ℕ∞)
  | _, _ => ⊤

/-- The parent-chain walk shared by both reconstructPath variants
(part_006 pushes each parent and reverses at the end; part_005 prepends
each parent in front of the list, which builds the same reversed chain).
The source loop runs until a node has no cameFrom entry; `fuel` bounds the
step count and every call site passes enough fuel for the chains the
search builds (the chain visits distinct keys of `cameFrom`, so
`cameFrom.length + 1` steps always suffice). -/
def reconstructChain (cameFrom : List (String × String)) : Nat → String → List String
  | 0, current => [current]
  | fuel + 1, current =>
    match mget cameFrom current with
    | none => [current]
    | some previousStep => current :: reconstructChain cameFrom fuel previousStep

/-- reconstructPath of part_005/part_006: the cameFrom chain from
`current` back to the start, returned start-first. -/
def reconstructPath (cameFrom : List (String × String)) (fuel : Nat)
    (current : String) : List String :=
  (reconstructChain cameFrom fuel current).reverse

/-- One entry of part_006's BinaryMinHeap backing array. -/
structure HeapEntry where
  id : String
  score : ℕ∞
deriving DecidableEq

namespace BinaryMinHeap

/-- bubbleUp of part_006's BinaryMinHeap.  The JS while-loop index
strictly decreases (the parent index (i-1)>>1 is < i for i > 0), so any
fuel above the starting index makes the embedding agree with the loop;
push passes the array length. -/
def bubbleUp : Nat → List HeapEntry → Nat → List HeapEntry
  | 0, heap, _ => heap
  | fuel + 1, heap, index =>
    if index = 0 then heap
    else
      let parentIndex := (index - 1) / 2
      match heap.get? parentIndex, heap.get? index with
      | some parentEntry, some indexEntry =>
        if parentEntry.score ≤ indexEntry.score then heap
        else bubbleUp fuel ((heap.set parentIndex indexEntry).set index parentEntry) parentIndex
      | _, _ => heap

/-- push of part_006's BinaryMinHeap. -/
def push (heap : List HeapEntry) (id : String) (score : ℕ∞) : List HeapEntry :=
  let grown := heap ++ [{ id := id, score := score }]
  bubbleUp grown.length grown (grown.length - 1)

/-- sinkDown of part_006's BinaryMinHeap.  The JS while-loop index
strictly increases (a chosen child index is ≥ 2i+1 > i) and stays below
the array length, so length + 1 fuel makes the embedding agree with the
loop. -/
def sinkDown : Nat → List HeapEntry → Nat → List HeapEntry
  | 0, heap, _ => heap
  | fuel + 1, heap, index =>
    let left := 2 * index + 1
    let right := 2 * index + 2
    match heap.get? index with
    | none => heap
    | some indexEntry =>
      let s1 : Nat × HeapEntry :=
        match heap.get? left with
        | some leftEntry =>
          if leftEntry.score < indexEntry.score then (left, leftEntry) else (index, indexEntry)
        | none => (index, indexEntry)
      let s2 : Nat × HeapEntry :=
        match heap.get? right with
        | some rightEntry => if rightEntry.score < s1.2.score then (right, rightEntry) else s1
        | none => s1
      if s2.1 = index then heap
      else sinkDown fuel ((heap.set index s2.2).set s2.1 indexEntry) s2.1

/-- pop of part_006's BinaryMinHeap: remove the root, move the last
element to the root and sink it down; returns only the popped id. -/
def pop (heap : List HeapEntry) : Option (String × List HeapEntry) :=
  match heap with
  | [] => none
  | top :: rest =>
    match rest.getLast? with
    | none => some (top.id, [])
    | some last => some (top.id, sinkDown (rest.length + 1) (last :: rest.dropLast) 0)

end BinaryMinHeap

namespace PathfindingHeap

/-- The for-loop body over a popped node's neighbors in part_006's
findShortestPath, threading heap, cameFrom and gScore. -/
def relaxNeighbors (nodesById : List (String × PathfindingNode))
    (destinationTileId : String) (blockedTileIds : List String)
    (closedSet : List String) (current : String) :
    List String → List HeapEntry → List (String × String) → List (String × ℕ∞) →
    List HeapEntry × List (String × String) × List (String × ℕ∞)
  | [], heap, cameFrom, gScore => (heap, cameFrom, gScore)
  | neighborId :: restNeighbors, heap, cameFrom, gScore =>
    if neighborId ∈ closedSet ∨ neighborId ∈ blockedTileIds then
      relaxNeighbors nodesById destinationTileId blockedTileIds closedSet current
        restNeighbors heap cameFrom gScore
    else
      match mget nodesById neighborId with
      | none =>
        relaxNeighbors nodesById destinationTileId blockedTileIds closedSet current
          restNeighbors heap cameFrom gScore
      | some neighborNode =>
        if neighborNode.walkable = false then
          relaxNeighbors nodesById destinationTileId blockedTileIds closedSet current
            restNeighbors heap cameFrom gScore
        else
          let tentativeScore := (mget gScore current).getD ⊤ + 1
          if (mget gScore neighborId).getD ⊤ ≤ tentativeScore then
            relaxNeighbors nodesById destinationTileId blockedTileIds closedSet current
              restNeighbors heap cameFrom gScore
          else
            relaxNeighbors nodesById destinationTileId blockedTileIds closedSet current
              restNeighbors
              (BinaryMinHeap.push heap neighborId
                (tentativeScore + heuristicDistance nodesById neighborId destinationTileId))
              (mset cameFrom neighborId current)
              (mset gScore neighborId tentativeScore)

/-- The while-loop of part_006's findShortestPath.  `fuel` bounds the
iteration count; the search adds at most four heap entries per closed
node and pops one entry per iteration, so
heapSize + 5 * (unclosed nodes) + 1 iterations always suffice and the
caller's fuel of 5 * nodesById.length + 2 never runs out. -/
def searchLoop (nodesById : List (String × PathfindingNode))
    (destinationTileId : String) (blockedTileIds : List String) :
    Nat → List HeapEntry → List String → List (String × String) → List (String × ℕ∞) →
    Option (List String)
  | 0, _, _, _, _ => none
  | fuel + 1, heap, closedSet, cameFrom, gScore =>
    match BinaryMinHeap.pop heap with
    | none => none
    | some (current, heapRest) =>
      if current = destinationTileId then
        some (reconstructPath cameFrom (cameFrom.length + 1) current)
      else if current ∈ closedSet then
        searchLoop nodesById destinationTileId blockedTileIds fuel heapRest closedSet
          cameFrom gScore
      else
        match mget nodesById current with
        | none =>
          searchLoop nodesById destinationTileId blockedTileIds fuel heapRest
            (sadd closedSet current) cameFrom gScore
        | some currentNode =>
          match relaxNeighbors nodesById destinationTileId blockedTileIds
              (sadd closedSet current) current currentNode.neighbors heapRest
              cameFrom gScore with
          | (heap2, cameFrom2, gScore2) =>
            searchLoop nodesById destinationTileId blockedTileIds fuel heap2
              (sadd closedSet current) cameFrom2 gScore2

/-- findShortestPath of part_006 (binary-min-heap A*). -/
def findShortestPath (nodesById : List (String × PathfindingNode))
    (startTileId destinationTileId : String) (blockedTileIds : List String) :
    Option (List String) :=
  let startF := heuristicDistance nodesById startTileId destinationTileId
  searchLoop nodesById destinationTileId blockedTileIds (5 * nodesById.length + 2)
    (BinaryMinHeap.push [] startTileId startF) [] [] [(startTileId, (0 : ℕ∞))]

end PathfindingHeap

namespace PathfindingScan

/-- pickLowestScore of part_005: linear scan of the open set in insertion
order, keeping the first strictly-smaller score; undefined when every
score is infinite. -/
def pickLowestScore (openSet : List String) (fScore : List (String × ℕ∞)) :
    Option String :=
  (openSet.foldl
    (fun best tileId =>
      let score := (mget fScore tileId).getD ⊤
      if score < best.2 then (some tileId, score) else best)
    ((none : Option String), (⊤ : ℕ∞))).1

/-- The for-loop body over the current node's neighbors in part_005's
findShortestPath, threading openSet, cameFrom, gScore and fScore. -/
def relaxNeighbors (nodesById : List (String × PathfindingNode))
    (destinationTileId : String) (blockedTileIds : List String)
    (closedSet : List String) (current : String) :
    List String → List String → List (String × String) → List (String × ℕ∞) →
    List (String × ℕ∞) →
    List String × List (String × String) × List (String × ℕ∞) × List (String × ℕ∞)
  | [], openSet, cameFrom, gScore, fScore => (openSet, cameFrom, gScore, fScore)
  | neighborId :: restNeighbors, openSet, cameFrom, gScore, fScore =>
    if neighborId ∈ closedSet ∨ neighborId ∈ blockedTileIds then
      relaxNeighbors nodesById destinationTileId blockedTileIds closedSet current
        restNeighbors openSet cameFrom gScore fScore
    else
      match mget nodesById neighborId with
      | none =>
        relaxNeighbors nodesById destinationTileId blockedTileIds closedSet current
          restNeighbors openSet cameFrom gScore fScore
      | some neighborNode =>
        if neighborNode.walkable = false then
          relaxNeighbors nodesById destinationTileId blockedTileIds closedSet current
            restNeighbors openSet cameFrom gScore fScore
        else
          let tentativeScore := (mget gScore current).getD ⊤ + 1
          if (mget gScore neighborId).getD ⊤ ≤ tentativeScore then
            relaxNeighbors nodesById destinationTileId blockedTileIds closedSet current
              restNeighbors openSet cameFrom gScore fScore
          else
            relaxNeighbors nodesById destinationTileId blockedTileIds closedSet current
              restNeighbors
              (sadd openSet neighborId)
              (mset cameFrom neighborId current)
              (mset gScore neighborId tentativeScore)
              (mset fScore neighborId
                (tentativeScore + heuristicDistance nodesById neighborId destinationTileId))

/-- The while-loop of part_005's findShortestPath.  Each iteration
removes the picked node from the open set and closes it, adding at most
four open entries, so openSetSize + 5 * (unclosed nodes) + 1 iterations
suffice; the caller's fuel of 5 * nodesById.length + 2 never runs out. -/
def searchLoop (nodesById : List (String × PathfindingNode))
    (destinationTileId : String) (blockedTileIds : List String) :
    Nat → List String → List String → List (String × String) → List (String × ℕ∞) →
    List (String × ℕ∞) → Option (List String)
  | 0, _, _, _, _, _ => none
  | fuel + 1, openSet, closedSet, cameFrom, gScore, fScore =>
    if openSet.isEmpty then none
    else
      match pickLowestScore openSet fScore with
      | none => none
      | some current =>
        if current = destinationTileId then
          some (reconstructPath cameFrom (cameFrom.length + 1) current)
        else
          match mget nodesById current with
          | none =>
            searchLoop nodesById destinationTileId blockedTileIds fuel
              (openSet.erase current) (sadd closedSet current) cameFrom gScore fScore
          | some currentNode =>
            match relaxNeighbors nodesById destinationTileId blockedTileIds
                (sadd closedSet current) current currentNode.neighbors
                (openSet.erase current) cameFrom gScore fScore with
            | (openSet2, cameFrom2, gScore2, fScore2) =>
              searchLoop nodesById destinationTileId blockedTileIds fuel openSet2
                (sadd closedSet current) cameFrom2 gScore2 fScore2

/-- findShortestPath of part_005 (linear-scan open-set A*). -/
def findShortestPath (nodesById : List (String × PathfindingNode))
    (startTileId destinationTileId : String) (blockedTileIds : List String) :
    Option (List String) :=
  searchLoop nodesById destinationTileId blockedTileIds (5 * nodesById.length + 2)
    [startTileId] [] [] [(startTileId, (0 : ℕ∞))]
    [(startTileId, heuristicDistance nodesById startTileId destinationTileId)]

end PathfindingScan

/-! ### The cached findPath service (part_006) -/

/-- Insertion step of the sorted spread in toCacheKey. -/
def insertSortedString (s : String) : List String → List String
  | [] => [s]
  | t :: rest => if s ≤ t then s :: t :: rest else t :: insertSortedString s rest

/-- [...set].sort((l, r) => l.localeCompare(r)): sorting by a total
string order, here via insertion sort (stability is irrelevant because a
JS Set never holds duplicates). -/
def sortStrings : List String → List String
  | [] => []
  | s :: rest => insertSortedString s (sortStrings rest)

/-- Array.prototype.join(",") -/
def joinComma : List String → String
  | [] => ""
  | [s] => s
  | s :: rest => s ++ "," ++ joinComma rest

/-- toCacheKey, defined identically in part_005 and part_006; `blocked`
is the already-deduplicated Set contents in insertion order. -/
def toCacheKey (startTileId destinationTileId : String)
    (blockedTileIds : List String) : String :=
  let blockedPart :=
    if blockedTileIds.isEmpty then "" else joinComma (sortStrings blockedTileIds)
  startTileId ++ "->" ++ destinationTileId ++ "|" ++ blockedPart

/-- createPathfindingService: maxCachedRoutes (default 256) is replaced
by 1 unless it is a positive integer. -/
def normalizeMaxCachedRoutes (maxCachedRoutes : Int) : Nat :=
  if 0 < maxCachedRoutes then maxCachedRoutes.toNat else 1

/-- The overflow branch of findPath: look at the first (oldest) cache key
and delete it.  The source guards the delete with a JS truthiness check
on the key, so an empty-string key would be kept. -/
def evictOldest (routeCache : List (String × List String)) :
    List (String × List String) :=
  match routeCache with
  | [] => routeCache
  | (oldestKey, _) :: _ =>
    if oldestKey = "" then routeCache else mdel routeCache oldestKey

namespace PathfindingHeap

/-- findPath of part_006's createPathfindingService, with the captured
routeCache passed and returned explicitly (it is the only mutable state
of the service). -/
def findPath (nodesById : List (String × PathfindingNode))
    (normalizedMaxCachedRoutes : Nat) (routeCache : List (String × List String))
    (request : PathfindingRequest) :
    PathfindingResult × List (String × List String) :=
  match mget nodesById request.startTileId with
  | none => (.unreachable "unknown-start" [], routeCache)
  | some startNode =>
    match mget nodesById request.destinationTileId with
    | none => (.unreachable "unknown-destination" [], routeCache)
    | some destinationNode =>
      let blocked := jsSetOf request.blockedTileIds
      if startNode.id ∈ blocked ∨ startNode.walkable = false then
        (.unreachable "blocked-start" [], routeCache)
      else if destinationNode.id ∈ blocked ∨ destinationNode.walkable = false then
        (.unreachable "blocked-destination" [], routeCache)
      else if startNode.id = destinationNode.id then
        (.found [startNode.id] false, routeCache)
      else
        let cacheKey := toCacheKey startNode.id destinationNode.id blocked
        match mget routeCache cacheKey with
        | some cachedPath =>
          (.found cachedPath true, mset (mdel routeCache cacheKey) cacheKey cachedPath)
        | none =>
          match findShortestPath nodesById startNode.id destinationNode.id blocked with
          | none => (.unreachable "no-route" [], routeCache)
          | some path =>
            let grown := mset routeCache cacheKey path
            if normalizedMaxCachedRoutes < grown.length then
              (.found path false, evictOldest grown)
            else
              (.found path false, grown)

/-- A sequence of findPath calls against one service instance, threading
the route cache. -/
def runFindPaths (nodesById : List (String × PathfindingNode))
    (normalizedMaxCachedRoutes : Nat) :
    List PathfindingRequest → List (String × List String) →
    List PathfindingResult × List (String × List String)
  | [], routeCache => ([], routeCache)
  | request :: rest, routeCache =>
    match findPath nodesById normalizedMaxCachedRoutes routeCache request with
    | (result, routeCache2) =>
      match runFindPaths nodesById normalizedMaxCachedRoutes rest routeCache2 with
      | (results, routeCache3) => (result :: results, routeCache3)

end PathfindingHeap

/-- The cache key a request produces when its endpoints are known tiles
(findPath builds it from the node ids, which coincide with the request
ids for maps built by createNodesById). -/
def requestCacheKey (request : PathfindingRequest) : String :=
  toCacheKey request.startTileId request.destinationTileId
    (jsSetOf request.blockedTileIds)

/-! ### Association-list facts -/

theorem mget_eq_none_iff {κ ν : Type _} [DecidableEq κ] (l : List (κ × ν)) (k : κ) :
    mget l k = none ↔ k ∉ l.map Prod.fst := by
  induction l with
  | nil => simp [mget]
  | cons p rest ih =>
    obtain ⟨k0, v0⟩ := p
    by_cases h : k0 = k
    · subst h
      simp [mget]
    · simp only [mget, if_neg h, List.map_cons, List.mem_cons, ih]
      constructor
      · rintro hn (hk | hk)
        · exact h hk.symm
        · exact hn hk
      · exact fun hn hk => hn (Or.inr hk)

theorem mem_keys_of_mget {κ ν : Type _} [DecidableEq κ] {l : List (κ × ν)} {k : κ}
    {v : ν} (h : mget l k = some v) : k ∈ l.map Prod.fst := by
  by_contra hk
  rw [← mget_eq_none_iff l k] at hk
  rw [h] at hk
  cases hk

theorem mget_mset_self {κ ν : Type _} [DecidableEq κ] (l : List (κ × ν)) (k : κ) (v : ν) :
    mget (mset l k v) k = some v := by
  induction l with
  | nil => simp [mset, mget]
  | cons p rest ih =>
    obtain ⟨k0, v0⟩ := p
    by_cases h : k0 = k
    · subst h
      simp [mset, mget]
    · simp [mset, mget, h, ih]

theorem mget_mset_ne {κ ν : Type _} [DecidableEq κ] (l : List (κ × ν)) (k k' : κ) (v : ν)
    (h : k' ≠ k) : mget (mset l k v) k' = mget l k' := by
  induction l with
  | nil => simp [mset, mget, Ne.symm h]
  | cons p rest ih =>
    obtain ⟨k0, v0⟩ := p
    by_cases h0 : k0 = k
    · subst h0
      simp [mset, mget, Ne.symm h]
    · simp [mset, mget, h0, ih]

theorem mset_eq_append {κ ν : Type _} [DecidableEq κ] (l : List (κ × ν)) (k : κ) (v : ν)
    (h : k ∉ l.map Prod.fst) : mset l k v = l ++ [(k, v)] := by
  induction l with
  | nil => simp [mset]
  | cons p rest ih =>
    obtain ⟨k0, v0⟩ := p
    simp only [List.map_cons, List.mem_cons, not_or] at h
    have hne : k0 ≠ k := fun hh => h.1 hh.symm
    simp [mset, hne, ih h.2]

theorem mget_append {κ ν : Type _} [DecidableEq κ] (l r : List (κ × ν)) (k : κ) :
    mget (l ++ r) k = (mget l k).or (mget r k) := by
  induction l with
  | nil => simp [mget]
  | cons p rest ih =>
    obtain ⟨k0, v0⟩ := p
    by_cases h : k0 = k
    · subst h
      simp [mget]
    · simp [mget, h, ih]

theorem keys_mdel {κ ν : Type _} [DecidableEq κ] (l : List (κ × ν)) (k : κ) :
    (mdel l k).map Prod.fst = (l.map Prod.fst).erase k := by
  induction l with
  | nil => simp [mdel]
  | cons p rest ih =>
    obtain ⟨k0, v0⟩ := p
    by_cases h : k0 = k
    · subst h
      simp [mdel, List.erase_cons]
    · simp [mdel, h, ih, List.erase_cons]

theorem mget_mdel_ne {κ ν : Type _} [DecidableEq κ] (l : List (κ × ν)) (k k' : κ)
    (h : k' ≠ k) : mget (mdel l k) k' = mget l k' := by
  induction l with
  | nil => simp [mdel]
  | cons p rest ih =>
    obtain ⟨k0, v0⟩ := p
    by_cases h0 : k0 = k
    · subst h0
      simp [mdel, mget, Ne.symm h]
    · simp [mdel, mget, h0, ih]

theorem keys_mset {κ ν : Type _} [DecidableEq κ] (l : List (κ × ν)) (k : κ) (v : ν) :
    (mset l k v).map Prod.fst =
      if k ∈ l.map Prod.fst then l.map Prod.fst else l.map Prod.fst ++ [k] := by
  induction l with
  | nil => simp [mset]
  | cons p rest ih =>
    obtain ⟨k0, v0⟩ := p
    by_cases h : k0 = k
    · subst h
      simp [mset]
    · by_cases hm : k ∈ rest.map Prod.fst
      · have hne : k ≠ k0 := fun hh => h hh.symm
        simp [mset, h, ih, hm, hne]
      · have hne : k ≠ k0 := fun hh => h hh.symm
        simp [mset, h, ih, hm, hne]

theorem nodup_keys_mset {κ ν : Type _} [DecidableEq κ] (l : List (κ × ν)) (k : κ) (v : ν)
    (h : (l.map Prod.fst).Nodup) : ((mset l k v).map Prod.fst).Nodup := by
  rw [keys_mset]
  split
  · exact h
  · next hm => simp [List.nodup_append, h, hm]

theorem nodup_keys_mdel {κ ν : Type _} [DecidableEq κ] (l : List (κ × ν)) (k : κ)
    (h : (l.map Prod.fst).Nodup) : ((mdel l k).map Prod.fst).Nodup := by
  rw [keys_mdel]
  exact h.erase k

theorem length_mset_of_mem {κ ν : Type _} [DecidableEq κ] (l : List (κ × ν)) (k : κ) (v : ν)
    (h : k ∈ l.map Prod.fst) : (mset l k v).length = l.length := by
  have := congrArg List.length (keys_mset l k v)
  simp only [if_pos h, List.length_map] at this
  exact this

theorem length_mset_of_not_mem {κ ν : Type _} [DecidableEq κ] (l : List (κ × ν)) (k : κ)
    (v : ν) (h : k ∉ l.map Prod.fst) : (mset l k v).length = l.length + 1 := by
  rw [mset_eq_append l k v h]
  simp

/-- Every cache key produced by findPath is a nonempty string, so the
truthiness guard in front of the eviction delete never fires. -/
theorem toCacheKey_ne_empty (s d : String) (b : List String) : toCacheKey s d b ≠ "" := by
  intro h
  have hlen := congrArg String.length h
  simp only [toCacheKey, String.length_append] at hlen
  have h2 : ("->" : String).length = 2 := by decide
  have h3 : ("|" : String).length = 1 := by decide
  have h0 : ("" : String).length = 0 := by decide
  omega

/-- In a map built by createNodesById, every node is stored under its own
id. -/
theorem createNodesById_id (tiles : List Tile) (i : String) (n : PathfindingNode)
    (h : mget (createNodesById tiles) i = some n) : n.id = i := by
  have general :
      ∀ (ts : List Tile) (cmap : List ((Int × Int) × String))
        (m : List (String × PathfindingNode)),
        (∀ j nd, mget m j = some nd → nd.id = j) →
        ∀ j nd,
          mget (ts.foldl
            (fun m tile =>
              mset m tile.id
                { id := tile.id, x := tile.coordinate.x, y := tile.coordinate.y,
                  walkable := tile.walkable,
                  neighbors := ([
                      mget cmap (toCoordinateKey (tile.coordinate.x + 1) tile.coordinate.y),
                      mget cmap (toCoordinateKey (tile.coordinate.x - 1) tile.coordinate.y),
                      mget cmap (toCoordinateKey tile.coordinate.x (tile.coordinate.y + 1)),
                      mget cmap (toCoordinateKey tile.coordinate.x (tile.coordinate.y - 1))
                    ].filterMap id) }) m) j = some nd → nd.id = j := by
    intro ts
    induction ts with
    | nil => intro cmap m hm j nd hj; exact hm j nd hj
    | cons t rest ih =>
      intro cmap m hm j nd hj
      refine ih cmap _ ?_ j nd hj
      intro j' nd' hj'
      by_cases hk : j' = t.id
      · subst hk
        rw [mget_mset_self] at hj'
        cases hj'
        rfl
      · rw [mget_mset_ne _ _ _ _ hk] at hj'
        exact hm j' nd' hj'
  rw [createNodesById] at h
  exact general tiles _ [] (fun j nd hj => by simp [mget] at hj) i n h

/-! ### findPath branch lemmas -/

theorem findPath_hit (nodesById : List (String × PathfindingNode)) (C : Nat)
    (cache : List (String × List String)) (req : PathfindingRequest)
    (sn dn : PathfindingNode) (p : List String)
    (hs : mget nodesById req.startTileId = some sn)
    (hd : mget nodesById req.destinationTileId = some dn)
    (hsb : ¬(sn.id ∈ jsSetOf req.blockedTileIds ∨ sn.walkable = false))
    (hdb : ¬(dn.id ∈ jsSetOf req.blockedTileIds ∨ dn.walkable = false))
    (hne : ¬sn.id = dn.id)
    (hcache : mget cache (toCacheKey sn.id dn.id (jsSetOf req.blockedTileIds)) = some p) :
    PathfindingHeap.findPath nodesById C cache req =
      (.found p true,
        mset (mdel cache (toCacheKey sn.id dn.id (jsSetOf req.blockedTileIds)))
          (toCacheKey sn.id dn.id (jsSetOf req.blockedTileIds)) p) := by
  simp [PathfindingHeap.findPath, hs, hd, hsb, hdb, hne, hcache]

theorem findPath_equal (nodesById : List (String × PathfindingNode)) (C : Nat)
    (cache : List (String × List String)) (req : PathfindingRequest)
    (sn dn : PathfindingNode)
    (hs : mget nodesById req.startTileId = some sn)
    (hd : mget nodesById req.destinationTileId = some dn)
    (hsb : ¬(sn.id ∈ jsSetOf req.blockedTileIds ∨ sn.walkable = false))
    (hdb : ¬(dn.id ∈ jsSetOf req.blockedTileIds ∨ dn.walkable = false))
    (heq : sn.id = dn.id) :
    PathfindingHeap.findPath nodesById C cache req = (.found [sn.id] false, cache) := by
  have hdb1 : dn.id ∉ jsSetOf req.blockedTileIds := fun hh => hdb (Or.inl hh)
  have hs2 : sn.walkable = true := by revert hsb; cases sn.walkable <;> simp
  have hd2 : dn.walkable = true := by revert hdb; cases dn.walkable <;> simp
  simp [PathfindingHeap.findPath, hs, hd, hsb, hdb, heq, hdb1, hs2, hd2]

theorem findPath_miss_none (nodesById : List (String × PathfindingNode)) (C : Nat)
    (cache : List (String × List String)) (req : PathfindingRequest)
    (sn dn : PathfindingNode)
    (hs : mget nodesById req.startTileId = some sn)
    (hd : mget nodesById req.destinationTileId = some dn)
    (hsb : ¬(sn.id ∈ jsSetOf req.blockedTileIds ∨ sn.walkable = false))
    (hdb : ¬(dn.id ∈ jsSetOf req.blockedTileIds ∨ dn.walkable = false))
    (hne : ¬sn.id = dn.id)
    (hcache : mget cache (toCacheKey sn.id dn.id (jsSetOf req.blockedTileIds)) = none)
    (hfsp : PathfindingHeap.findShortestPath nodesById sn.id dn.id
        (jsSetOf req.blockedTileIds) = none) :
    PathfindingHeap.findPath nodesById C cache req = (.unreachable "no-route" [], cache) := by
  simp [PathfindingHeap.findPath, hs, hd, hsb, hdb, hne, hcache, hfsp]

theorem findPath_miss_found (nodesById : List (String × PathfindingNode)) (C : Nat)
    (cache : List (String × List String)) (req : PathfindingRequest)
    (sn dn : PathfindingNode) (p : List String)
    (hs : mget nodesById req.startTileId = some sn)
    (hd : mget nodesById req.destinationTileId = some dn)
    (hsb : ¬(sn.id ∈ jsSetOf req.blockedTileIds ∨ sn.walkable = false))
    (hdb : ¬(dn.id ∈ jsSetOf req.blockedTileIds ∨ dn.walkable = false))
    (hne : ¬sn.id = dn.id)
    (hcache : mget cache (toCacheKey sn.id dn.id (jsSetOf req.blockedTileIds)) = none)
    (hfsp : PathfindingHeap.findShortestPath nodesById sn.id dn.id
        (jsSetOf req.blockedTileIds) = some p) :
    PathfindingHeap.findPath nodesById C cache req =
      (.found p false,
        if C < (mset cache (toCacheKey sn.id dn.id (jsSetOf req.blockedTileIds)) p).length
        then evictOldest (mset cache (toCacheKey sn.id dn.id (jsSetOf req.blockedTileIds)) p)
        else mset cache (toCacheKey sn.id dn.id (jsSetOf req.blockedTileIds)) p) := by
  by_cases hlen :
      C < (mset cache (toCacheKey sn.id dn.id (jsSetOf req.blockedTileIds)) p).length
  · simp [PathfindingHeap.findPath, hs, hd, hsb, hdb, hne, hcache, hfsp, hlen]
  · simp [PathfindingHeap.findPath, hs, hd, hsb, hdb, hne, hcache, hfsp, hlen]

theorem findPath_found_inv (nodesById : List (String × PathfindingNode)) (C : Nat)
    (cache : List (String × List String)) (req : PathfindingRequest)
    (p : List String) (fc : Bool)
    (h : (PathfindingHeap.findPath nodesById C cache req).1 = .found p fc) :
    ∃ sn dn, mget nodesById req.startTileId = some sn ∧
      mget nodesById req.destinationTileId = some dn ∧
      ¬(sn.id ∈ jsSetOf req.blockedTileIds ∨ sn.walkable = false) ∧
      ¬(dn.id ∈ jsSetOf req.blockedTileIds ∨ dn.walkable = false) ∧
      ((sn.id = dn.id ∧ p = [sn.id] ∧ fc = false ∧
         (PathfindingHeap.findPath nodesById C cache req).2 = cache) ∨
       (¬sn.id = dn.id ∧
         ((fc = true ∧
            mget cache (toCacheKey sn.id dn.id (jsSetOf req.blockedTileIds)) = some p ∧
            (PathfindingHeap.findPath nodesById C cache req).2 =
              mset (mdel cache (toCacheKey sn.id dn.id (jsSetOf req.blockedTileIds)))
                (toCacheKey sn.id dn.id (jsSetOf req.blockedTileIds)) p) ∨
          (fc = false ∧
            mget cache (toCacheKey sn.id dn.id (jsSetOf req.blockedTileIds)) = none ∧
            PathfindingHeap.findShortestPath nodesById sn.id dn.id
              (jsSetOf req.blockedTileIds) = some p ∧
            (PathfindingHeap.findPath nodesById C cache req).2 =
              (if C <
                  (mset cache (toCacheKey sn.id dn.id (jsSetOf req.blockedTileIds)) p).length
               then
                 evictOldest
                   (mset cache (toCacheKey sn.id dn.id (jsSetOf req.blockedTileIds)) p)
               else mset cache (toCacheKey sn.id dn.id (jsSetOf req.blockedTileIds)) p))))) := by
  rcases hs : mget nodesById req.startTileId with _ | sn
  · simp [PathfindingHeap.findPath, hs] at h
  rcases hd : mget nodesById req.destinationTileId with _ | dn
  · simp [PathfindingHeap.findPath, hs, hd] at h
  by_cases hsb : sn.id ∈ jsSetOf req.blockedTileIds ∨ sn.walkable = false
  · simp [PathfindingHeap.findPath, hs, hd, hsb] at h
  by_cases hdb : dn.id ∈ jsSetOf req.blockedTileIds ∨ dn.walkable = false
  · simp [PathfindingHeap.findPath, hs, hd, hsb, hdb] at h
  refine ⟨sn, dn, rfl, rfl, hsb, hdb, ?_⟩
  by_cases hne : sn.id = dn.id
  · rw [findPath_equal nodesById C cache req sn dn hs hd hsb hdb hne] at h ⊢
    injection h with h1 h2
    exact Or.inl ⟨hne, h1.symm, h2.symm, rfl⟩
  · rcases hc : mget cache (toCacheKey sn.id dn.id (jsSetOf req.blockedTileIds)) with _ | q
    · rcases hf : PathfindingHeap.findShortestPath nodesById sn.id dn.id
          (jsSetOf req.blockedTileIds) with _ | path
      · rw [findPath_miss_none nodesById C cache req sn dn hs hd hsb hdb hne hc hf] at h
        cases h
      · rw [findPath_miss_found nodesById C cache req sn dn path hs hd hsb hdb hne hc hf]
          at h ⊢
        injection h with h1 h2
        subst h1
        exact Or.inr ⟨hne, Or.inr ⟨h2.symm, rfl, rfl, rfl⟩⟩
    · rw [findPath_hit nodesById C cache req sn dn q hs hd hsb hdb hne hc] at h ⊢
      injection h with h1 h2
      subst h1
      exact Or.inr ⟨hne, Or.inl ⟨h2.symm, rfl, rfl⟩⟩

theorem findPath_unreachable_inv (nodesById : List (String × PathfindingNode)) (C : Nat)
    (cache : List (String × List String)) (req : PathfindingRequest)
    (reason : String) (path0 : List String)
    (h : (PathfindingHeap.findPath nodesById C cache req).1 = .unreachable reason path0) :
    (PathfindingHeap.findPath nodesById C cache req).2 = cache ∧ path0 = [] ∧
    (reason = "no-route" →
      ∃ sn dn, mget nodesById req.startTileId = some sn ∧
        mget nodesById req.destinationTileId = some dn ∧
        ¬(sn.id ∈ jsSetOf req.blockedTileIds ∨ sn.walkable = false) ∧
        ¬(dn.id ∈ jsSetOf req.blockedTileIds ∨ dn.walkable = false) ∧
        ¬sn.id = dn.id ∧
        mget cache (toCacheKey sn.id dn.id (jsSetOf req.blockedTileIds)) = none ∧
        PathfindingHeap.findShortestPath nodesById sn.id dn.id
          (jsSetOf req.blockedTileIds) = none) := by
  rcases hs : mget nodesById req.startTileId with _ | sn
  · refine ⟨by simp [PathfindingHeap.findPath, hs], ?_, ?_⟩
    · simp [PathfindingHeap.findPath, hs] at h
      first
      | exact h.2
      | exact h.2.symm
    · intro hr
      simp [PathfindingHeap.findPath, hs] at h
      first
      | exact absurd (h.1.trans hr) (by decide)
      | exact absurd (h.1.symm.trans hr) (by decide)
  rcases hd : mget nodesById req.destinationTileId with _ | dn
  · refine ⟨by simp [PathfindingHeap.findPath, hs, hd], ?_, ?_⟩
    · simp [PathfindingHeap.findPath, hs, hd] at h
      first
      | exact h.2
      | exact h.2.symm
    · intro hr
      simp [PathfindingHeap.findPath, hs, hd] at h
      first
      | exact absurd (h.1.trans hr) (by decide)
      | exact absurd (h.1.symm.trans hr) (by decide)
  by_cases hsb : sn.id ∈ jsSetOf req.blockedTileIds ∨ sn.walkable = false
  · refine ⟨by simp [PathfindingHeap.findPath, hs, hd, hsb], ?_, ?_⟩
    · simp [PathfindingHeap.findPath, hs, hd, hsb] at h
      first
      | exact h.2
      | exact h.2.symm
    · intro hr
      simp [PathfindingHeap.findPath, hs, hd, hsb] at h
      first
      | exact absurd (h.1.trans hr) (by decide)
      | exact absurd (h.1.symm.trans hr) (by decide)
  by_cases hdb : dn.id ∈ jsSetOf req.blockedTileIds ∨ dn.walkable = false
  · refine ⟨by simp [PathfindingHeap.findPath, hs, hd, hsb, hdb], ?_, ?_⟩
    · simp [PathfindingHeap.findPath, hs, hd, hsb, hdb] at h
      first
      | exact h.2
      | exact h.2.symm
    · intro hr
      simp [PathfindingHeap.findPath, hs, hd, hsb, hdb] at h
      first
      | exact absurd (h.1.trans hr) (by decide)
      | exact absurd (h.1.symm.trans hr) (by decide)
  by_cases hne : sn.id = dn.id
  · rw [findPath_equal nodesById C cache req sn dn hs hd hsb hdb hne] at h
    cases h
  rcases hc : mget cache (toCacheKey sn.id dn.id (jsSetOf req.blockedTileIds)) with _ | q
  · rcases hf : PathfindingHeap.findShortestPath nodesById sn.id dn.id
        (jsSetOf req.blockedTileIds) with _ | path
    · rw [findPath_miss_none nodesById C cache req sn dn hs hd hsb hdb hne hc hf] at h ⊢
      injection h with h1 h2
      exact ⟨rfl, h2.symm, fun _ => ⟨sn, dn, rfl, rfl, hsb, hdb, hne, hc, hf⟩⟩
    · rw [findPath_miss_found nodesById C cache req sn dn path hs hd hsb hdb hne hc hf]
        at h
      cases h
  · rw [findPath_hit nodesById C cache req sn dn q hs hd hsb hdb hne hc] at h
    cases h

/-! ### Route-cache size and order invariants (claims C3, C4) -/

/-- Structural well-formedness of the route cache: pairwise-distinct,
nonempty keys.  Holds for every cache a service can reach because keys
are produced by toCacheKey. -/
def cacheKeysWF (cache : List (String × List String)) : Prop :=
  (cache.map Prod.fst).Nodup ∧ ∀ k ∈ cache.map Prod.fst, k ≠ ""

theorem evictOldest_cons (k0 : String) (p0 : List String)
    (rest : List (String × List String)) (hk0 : k0 ≠ "") :
    evictOldest ((k0, p0) :: rest) = rest := by
  simp [evictOldest, hk0, mdel]

theorem findPath_preserves_cacheWF (nodesById : List (String × PathfindingNode)) (C : Nat)
    (cache : List (String × List String)) (req : PathfindingRequest) (hC : 0 < C)
    (hwf : cacheKeysWF cache) (hlen : cache.length ≤ C) :
    cacheKeysWF (PathfindingHeap.findPath nodesById C cache req).2 ∧
      ((PathfindingHeap.findPath nodesById C cache req).2).length ≤ C := by
  rcases hs : mget nodesById req.startTileId with _ | sn
  · simp only [PathfindingHeap.findPath, hs]
    exact ⟨hwf, hlen⟩
  rcases hd : mget nodesById req.destinationTileId with _ | dn
  · simp only [PathfindingHeap.findPath, hs, hd]
    exact ⟨hwf, hlen⟩
  by_cases hsb : sn.id ∈ jsSetOf req.blockedTileIds ∨ sn.walkable = false
  · simp only [PathfindingHeap.findPath, hs, hd, if_pos hsb]
    exact ⟨hwf, hlen⟩
  by_cases hdb : dn.id ∈ jsSetOf req.blockedTileIds ∨ dn.walkable = false
  · simp only [PathfindingHeap.findPath, hs, hd, if_neg hsb, if_pos hdb]
    exact ⟨hwf, hlen⟩
  by_cases hne : sn.id = dn.id
  · rw [findPath_equal nodesById C cache req sn dn hs hd hsb hdb hne]
    exact ⟨hwf, hlen⟩
  rcases hc : mget cache (toCacheKey sn.id dn.id (jsSetOf req.blockedTileIds)) with _ | q
  · rcases hf : PathfindingHeap.findShortestPath nodesById sn.id dn.id
        (jsSetOf req.blockedTileIds) with _ | path
    · rw [findPath_miss_none nodesById C cache req sn dn hs hd hsb hdb hne hc hf]
      exact ⟨hwf, hlen⟩
    · rw [findPath_miss_found nodesById C cache req sn dn path hs hd hsb hdb hne hc hf]
      have hknotmem : toCacheKey sn.id dn.id (jsSetOf req.blockedTileIds) ∉
          cache.map Prod.fst := (mget_eq_none_iff cache _).1 hc
      have hkey : toCacheKey sn.id dn.id (jsSetOf req.blockedTileIds) ≠ "" :=
        toCacheKey_ne_empty sn.id dn.id (jsSetOf req.blockedTileIds)
      rw [mset_eq_append _ _ _ hknotmem]
      by_cases hlen2 : C <
          (cache ++ [(toCacheKey sn.id dn.id (jsSetOf req.blockedTileIds), path)]).length
      · rw [if_pos hlen2]
        have hcl : cache.length = C := by
          simp only [List.length_append, List.length_cons, List.length_nil] at hlen2
          omega
        rcases hcc : cache with _ | ⟨⟨k0, p0⟩, crest⟩
        · rw [hcc] at hcl
          simp at hcl
          omega
        subst hcc
        have hk0 : k0 ≠ "" := hwf.2 k0 (by simp)
        have hkeys := hwf.1
        simp only [List.map_cons, List.nodup_cons] at hkeys
        simp only [List.map_cons, List.mem_cons, not_or] at hknotmem
        rw [List.cons_append, evictOldest_cons k0 p0 _ hk0]
        refine ⟨⟨?_, ?_⟩, ?_⟩
        · simp only [List.map_append, List.map_cons, List.map_nil]
          rw [List.nodup_append]
          refine ⟨hkeys.2, List.nodup_singleton _, ?_⟩
          intro a ha hb
          simp only [List.mem_singleton] at hb
          subst hb
          exact hknotmem.2 ha
        · intro k hk
          simp only [List.map_append, List.map_cons, List.map_nil,
            List.mem_append, List.mem_singleton] at hk
          rcases hk with hk | hk
          · exact hwf.2 k (by simp [hk])
          · subst hk
            exact hkey
        · simp only [List.length_append, List.length_cons, List.length_nil] at hcl ⊢
          omega
      · rw [if_neg hlen2]
        refine ⟨⟨?_, ?_⟩, ?_⟩
        · simp only [List.map_append, List.map_cons, List.map_nil]
          rw [List.nodup_append]
          exact ⟨hwf.1, List.nodup_singleton _, by
            intro a ha hb
            simp only [List.mem_singleton] at hb
            subst hb
            exact hknotmem ha⟩
        · intro k hk
          simp only [List.map_append, List.map_cons, List.map_nil,
            List.mem_append, List.mem_singleton] at hk
          rcases hk with hk | hk
          · exact hwf.2 k hk
          · subst hk
            exact hkey
        · simp only [List.length_append, List.length_cons, List.length_nil,
            not_lt] at hlen2 ⊢
          omega
  · rw [findPath_hit nodesById C cache req sn dn q hs hd hsb hdb hne hc]
    have hmem : toCacheKey sn.id dn.id (jsSetOf req.blockedTileIds) ∈
        cache.map Prod.fst := mem_keys_of_mget hc
    have h1 : toCacheKey sn.id dn.id (jsSetOf req.blockedTileIds) ∉
        (mdel cache (toCacheKey sn.id dn.id (jsSetOf req.blockedTileIds))).map Prod.fst := by
      rw [keys_mdel]
      intro hx
      exact ((hwf.1.mem_erase_iff).1 hx).1 rfl
    rw [mset_eq_append _ _ _ h1]
    have herase := keys_mdel cache (toCacheKey sn.id dn.id (jsSetOf req.blockedTileIds))
    refine ⟨⟨?_, ?_⟩, ?_⟩
    · simp only [List.map_append, List.map_cons, List.map_nil, herase]
      rw [List.nodup_append]
      refine ⟨hwf.1.erase _, List.nodup_singleton _, ?_⟩
      intro a ha hb
      simp only [List.mem_singleton] at hb
      subst hb
      exact ((hwf.1.mem_erase_iff).1 ha).1 rfl
    · intro k hk
      simp only [List.map_append, List.map_cons, List.map_nil, herase,
        List.mem_append, List.mem_singleton] at hk
      rcases hk with hk | hk
      · exact hwf.2 k (List.mem_of_mem_erase hk)
      · subst hk
        exact toCacheKey_ne_empty sn.id dn.id (jsSetOf req.blockedTileIds)
    · have hlm : ((mdel cache (toCacheKey sn.id dn.id
          (jsSetOf req.blockedTileIds))).map Prod.fst).length =
            (cache.map Prod.fst).length - 1 := by
        rw [herase]
        exact List.length_erase_of_mem hmem
      simp only [List.length_map] at hlm
      have hpos : 1 ≤ cache.length := by
        have := List.length_pos.2 (List.ne_nil_of_mem hmem)
        simp only [List.length_map] at this
        omega
      simp only [List.length_append, List.length_cons, List.length_nil]
      omega

theorem runFindPaths_wf (nodesById : List (String × PathfindingNode)) (C : Nat)
    (hC : 0 < C) :
    ∀ (reqs : List PathfindingRequest) (cache : List (String × List String)),
      cacheKeysWF cache → cache.length ≤ C →
      cacheKeysWF (PathfindingHeap.runFindPaths nodesById C reqs cache).2 ∧
        ((PathfindingHeap.runFindPaths nodesById C reqs cache).2).length ≤ C := by
  intro reqs
  induction reqs with
  | nil =>
    intro cache h1 h2
    exact ⟨h1, h2⟩
  | cons r rest ih =>
    intro cache h1 h2
    have hstep := findPath_preserves_cacheWF nodesById C cache r hC h1 h2
    simp only [PathfindingHeap.runFindPaths]
    rcases hfp : PathfindingHeap.findPath nodesById C cache r with ⟨result, cache2⟩
    rw [hfp] at hstep
    have := ih cache2 hstep.1 hstep.2
    rcases hrun : PathfindingHeap.runFindPaths nodesById C rest cache2 with ⟨results, cache3⟩
    rw [hrun] at this
    exact this

theorem runFindPaths_append (nodesById : List (String × PathfindingNode)) (C : Nat)
    (xs ys : List PathfindingRequest) :
    ∀ cache,
      PathfindingHeap.runFindPaths nodesById C (xs ++ ys) cache =
        ((PathfindingHeap.runFindPaths nodesById C xs cache).1 ++
            (PathfindingHeap.runFindPaths nodesById C ys
              (PathfindingHeap.runFindPaths nodesById C xs cache).2).1,
          (PathfindingHeap.runFindPaths nodesById C ys
            (PathfindingHeap.runFindPaths nodesById C xs cache).2).2) := by
  induction xs with
  | nil => intro cache; simp [PathfindingHeap.runFindPaths]
  | cons r rest ih =>
    intro cache
    simp only [List.cons_append, PathfindingHeap.runFindPaths, List.append_eq, ih]

/-- A run of miss-and-insert calls appends one entry per request, in call
order, as long as the capacity is not yet exceeded. -/
theorem runFindPaths_insert_keys (nodesById : List (String × PathfindingNode)) (C : Nat)
    (hwfn : ∀ i n, mget nodesById i = some n → n.id = i) :
    ∀ (reqs : List PathfindingRequest) (cache : List (String × List String)),
      cacheKeysWF cache →
      cache.length + reqs.length ≤ C →
      (∀ res ∈ (PathfindingHeap.runFindPaths nodesById C reqs cache).1,
        ∃ p, res = .found p false) →
      (∀ r ∈ reqs, r.startTileId ≠ r.destinationTileId) →
      ((PathfindingHeap.runFindPaths nodesById C reqs cache).2).map Prod.fst =
          cache.map Prod.fst ++ reqs.map requestCacheKey ∧
        cacheKeysWF (PathfindingHeap.runFindPaths nodesById C reqs cache).2 ∧
        ((PathfindingHeap.runFindPaths nodesById C reqs cache).2).length =
          cache.length + reqs.length := by
  intro reqs
  induction reqs with
  | nil =>
    intro cache h1 h2 _ _
    exact ⟨by simp [PathfindingHeap.runFindPaths], h1,
      by simp [PathfindingHeap.runFindPaths]⟩
  | cons r rest ih =>
    intro cache h1 h2 hres hne
    have hres0 : ∃ p, (PathfindingHeap.findPath nodesById C cache r).1 = .found p false := by
      have hmem : (PathfindingHeap.findPath nodesById C cache r).1 ∈
          (PathfindingHeap.runFindPaths nodesById C (r :: rest) cache).1 := by
        simp only [PathfindingHeap.runFindPaths]
        rcases PathfindingHeap.findPath nodesById C cache r with ⟨result, cache2⟩
        rcases PathfindingHeap.runFindPaths nodesById C rest cache2 with ⟨results, cache3⟩
        exact List.mem_cons_self _ _
      obtain ⟨p, hp⟩ := hres _ hmem
      exact ⟨p, hp⟩
    obtain ⟨p, hp⟩ := hres0
    obtain ⟨sn, dn, hs, hd, hsb, hdb, hcases⟩ :=
      findPath_found_inv nodesById C cache r p false hp
    have hsid : sn.id = r.startTileId := hwfn _ _ hs
    have hdid : dn.id = r.destinationTileId := hwfn _ _ hd
    rcases hcases with ⟨heq, _, _, _⟩ | ⟨hneq, hrest⟩
    · exact absurd (hsid ▸ hdid ▸ heq) (hne r (List.mem_cons_self r rest))
    rcases hrest with ⟨hfc, _, _⟩ | ⟨_, hcnone, hfsp, hsnd⟩
    · cases hfc
    have hknotmem : toCacheKey sn.id dn.id (jsSetOf r.blockedTileIds) ∉
        cache.map Prod.fst := (mget_eq_none_iff cache _).1 hcnone
    have hgrow : mset cache (toCacheKey sn.id dn.id (jsSetOf r.blockedTileIds)) p =
        cache ++ [(toCacheKey sn.id dn.id (jsSetOf r.blockedTileIds), p)] :=
      mset_eq_append _ _ _ hknotmem
    have hnoevict : ¬C <
        (mset cache (toCacheKey sn.id dn.id (jsSetOf r.blockedTileIds)) p).length := by
      rw [hgrow]
      simp only [List.length_append, List.length_cons, List.length_nil, not_lt]
      simp only [List.length_cons] at h2
      omega
    rw [if_neg hnoevict, hgrow] at hsnd
    have hkey : requestCacheKey r = toCacheKey sn.id dn.id (jsSetOf r.blockedTileIds) := by
      rw [requestCacheKey, hsid, hdid]
    have hwf2 : cacheKeysWF (cache ++ [(toCacheKey sn.id dn.id
        (jsSetOf r.blockedTileIds), p)]) := by
      constructor
      · simp only [List.map_append, List.map_cons, List.map_nil]
        rw [List.nodup_append]
        refine ⟨h1.1, List.nodup_singleton _, ?_⟩
        intro a ha hb
        simp only [List.mem_singleton] at hb
        subst hb
        exact hknotmem ha
      · intro k hk
        simp only [List.map_append, List.map_cons, List.map_nil, List.mem_append,
          List.mem_singleton] at hk
        rcases hk with hk | hk
        · exact h1.2 k hk
        · subst hk
          exact toCacheKey_ne_empty _ _ _
    have hlen2 : (cache ++ [(toCacheKey sn.id dn.id
        (jsSetOf r.blockedTileIds), p)]).length + rest.length ≤ C := by
      simp only [List.length_append, List.length_cons, List.length_nil]
      simp only [List.length_cons] at h2
      omega
    have hres2 : ∀ res ∈ (PathfindingHeap.runFindPaths nodesById C rest
        (cache ++ [(toCacheKey sn.id dn.id (jsSetOf r.blockedTileIds), p)])).1,
        ∃ q, res = .found q false := by
      intro res hmem
      apply hres
      simp only [PathfindingHeap.runFindPaths]
      rcases hfp : PathfindingHeap.findPath nodesById C cache r with ⟨result, cache2⟩
      have hc2 : cache2 = cache ++ [(toCacheKey sn.id dn.id (jsSetOf r.blockedTileIds), p)] := by
        have := congrArg Prod.snd hfp
        simp only at this
        rw [← this, hsnd]
      rw [← hc2] at hmem
      rcases hrr : PathfindingHeap.runFindPaths nodesById C rest cache2 with ⟨results, cache3⟩
      rw [hrr] at hmem
      exact List.mem_cons_of_mem _ hmem
    have hne2 : ∀ r2 ∈ rest, r2.startTileId ≠ r2.destinationTileId :=
      fun r2 hr2 => hne r2 (List.mem_cons_of_mem r hr2)
    have ihapp := ih (cache ++ [(toCacheKey sn.id dn.id (jsSetOf r.blockedTileIds), p)])
      hwf2 hlen2 hres2 hne2
    have hruneq : (PathfindingHeap.runFindPaths nodesById C (r :: rest) cache).2 =
        (PathfindingHeap.runFindPaths nodesById C rest
          (cache ++ [(toCacheKey sn.id dn.id (jsSetOf r.blockedTileIds), p)])).2 := by
      simp only [PathfindingHeap.runFindPaths]
      rcases hfp : PathfindingHeap.findPath nodesById C cache r with ⟨result, cache2⟩
      have hc2 : cache2 = cache ++ [(toCacheKey sn.id dn.id (jsSetOf r.blockedTileIds), p)] := by
        have := congrArg Prod.snd hfp
        simp only at this
        rw [← this, hsnd]
      rw [hc2]
    rw [hruneq]
    refine ⟨?_, ihapp.2.1, ?_⟩
    · rw [ihapp.1]
      simp only [List.map_append, List.map_cons, List.map_nil, List.append_assoc,
        List.cons_append, List.nil_append, hkey]
    · rw [ihapp.2.2]
      simp only [List.length_append, List.length_cons, List.length_nil]
      omega

theorem runFindPaths_singleton (nodesById : List (String × PathfindingNode)) (C : Nat)
    (r : PathfindingRequest) (cache : List (String × List String)) :
    PathfindingHeap.runFindPaths nodesById C [r] cache =
      ([(PathfindingHeap.findPath nodesById C cache r).1],
        (PathfindingHeap.findPath nodesById C cache r).2) := by
  simp only [PathfindingHeap.runFindPaths]

/-- Claim C3: against a service built on any tile set with (normalized,
hence positive) cache capacity C: the route cache holds at most C entries
after every call sequence; a cache hit moves the hit entry to the
most-recently-used position (re-appended at the back, while eviction
deletes from the front); and a run of C+1 distinct-key miss-inserting
calls from an empty cache evicts exactly the least-recently-used
(first-inserted) entry, leaving the keys of the later C calls in order. -/
theorem claim_C3 (tiles : List Tile) (C : Nat) (hC : 0 < C) :
    (∀ reqs : List PathfindingRequest,
      ((PathfindingHeap.runFindPaths (createNodesById tiles) C reqs []).2).length ≤ C) ∧
    (∀ (reqs : List PathfindingRequest) (request : PathfindingRequest) (p : List String),
      ((PathfindingHeap.findPath (createNodesById tiles) C
          (PathfindingHeap.runFindPaths (createNodesById tiles) C reqs []).2 request).1 =
        .found p true) →
      mget (PathfindingHeap.runFindPaths (createNodesById tiles) C reqs []).2
          (requestCacheKey request) = some p ∧
        (PathfindingHeap.findPath (createNodesById tiles) C
            (PathfindingHeap.runFindPaths (createNodesById tiles) C reqs []).2 request).2 =
          mdel (PathfindingHeap.runFindPaths (createNodesById tiles) C reqs []).2
              (requestCacheKey request) ++ [(requestCacheKey request, p)]) ∧
    (∀ reqs : List PathfindingRequest,
      reqs.length = C + 1 →
      (∀ res ∈ (PathfindingHeap.runFindPaths (createNodesById tiles) C reqs []).1,
        ∃ p, res = .found p false) →
      (∀ r ∈ reqs, r.startTileId ≠ r.destinationTileId) →
      (reqs.map requestCacheKey).Nodup →
      ((PathfindingHeap.runFindPaths (createNodesById tiles) C reqs []).2).map Prod.fst =
        (reqs.map requestCacheKey).drop 1) := by
  have hwf0 : cacheKeysWF [] := ⟨List.nodup_nil, by simp⟩
  have hlen0 : ([] : List (String × List String)).length ≤ C := by simp
  refine ⟨?_, ?_, ?_⟩
  · intro reqs
    exact (runFindPaths_wf (createNodesById tiles) C hC reqs [] hwf0 hlen0).2
  · intro reqs request p h
    have hwf := (runFindPaths_wf (createNodesById tiles) C hC reqs [] hwf0 hlen0).1
    obtain ⟨sn, dn, hs, hd, hsb, hdb, hcases⟩ :=
      findPath_found_inv (createNodesById tiles) C
        (PathfindingHeap.runFindPaths (createNodesById tiles) C reqs []).2 request p true h
    have hsid : sn.id = request.startTileId := createNodesById_id tiles _ _ hs
    have hdid : dn.id = request.destinationTileId := createNodesById_id tiles _ _ hd
    have hkey : requestCacheKey request =
        toCacheKey sn.id dn.id (jsSetOf request.blockedTileIds) := by
      rw [requestCacheKey, hsid, hdid]
    rcases hcases with ⟨_, _, hfc, _⟩ | ⟨hneq, hrest⟩
    · cases hfc
    rcases hrest with ⟨_, hcache, hsnd⟩ | ⟨hfc, _, _, _⟩
    · have hnotmem : toCacheKey sn.id dn.id (jsSetOf request.blockedTileIds) ∉
          (mdel (PathfindingHeap.runFindPaths (createNodesById tiles) C reqs []).2
            (toCacheKey sn.id dn.id (jsSetOf request.blockedTileIds))).map Prod.fst := by
        rw [keys_mdel]
        intro hx
        exact ((hwf.1.mem_erase_iff).1 hx).1 rfl
      rw [hkey]
      exact ⟨hcache, by rw [hsnd, mset_eq_append _ _ _ hnotmem]⟩
    · cases hfc
  · intro reqs hlen hres hne _
    rcases List.eq_nil_or_concat reqs with rfl | ⟨first, last, rfl⟩
    · simp at hlen
    rw [List.concat_eq_append] at hlen hres hne ⊢
    have hfirstlen : first.length = C := by
      simp only [List.length_append, List.length_cons, List.length_nil] at hlen
      omega
    have happ := runFindPaths_append (createNodesById tiles) C first [last] []
    have hres1 : ∀ res ∈ (PathfindingHeap.runFindPaths (createNodesById tiles) C first []).1,
        ∃ p, res = .found p false := by
      intro res hmem
      apply hres
      rw [happ]
      exact List.mem_append_left _ hmem
    have hne1 : ∀ r ∈ first, r.startTileId ≠ r.destinationTileId :=
      fun r hr => hne r (List.mem_append_left _ hr)
    have htrack := runFindPaths_insert_keys (createNodesById tiles) C
      (createNodesById_id tiles) first [] hwf0 (by simp [hfirstlen]) hres1 hne1
    have hkeys1 : ((PathfindingHeap.runFindPaths (createNodesById tiles) C first []).2).map
        Prod.fst = first.map requestCacheKey := by
      rw [htrack.1]
      simp
    have hwf1 := htrack.2.1
    have hlen1 : ((PathfindingHeap.runFindPaths (createNodesById tiles) C first []).2).length
        = C := by
      rw [htrack.2.2]
      simp [hfirstlen]
    have hlast : ∃ p, (PathfindingHeap.findPath (createNodesById tiles) C
        (PathfindingHeap.runFindPaths (createNodesById tiles) C first []).2 last).1 =
          .found p false := by
      apply hres
      rw [happ, runFindPaths_singleton]
      exact List.mem_append_right _ (List.mem_cons_self _ _)
    obtain ⟨p, hp⟩ := hlast
    obtain ⟨sn, dn, hs, hd, hsb, hdb, hcases⟩ :=
      findPath_found_inv (createNodesById tiles) C
        (PathfindingHeap.runFindPaths (createNodesById tiles) C first []).2 last p false hp
    have hsid : sn.id = last.startTileId := createNodesById_id tiles _ _ hs
    have hdid : dn.id = last.destinationTileId := createNodesById_id tiles _ _ hd
    rcases hcases with ⟨heq, _, _, _⟩ | ⟨hneq, hrest⟩
    · exact absurd (hsid ▸ hdid ▸ heq)
        (hne last (List.mem_append_right _ (List.mem_cons_self _ _)))
    rcases hrest with ⟨hfc, _, _⟩ | ⟨_, hcnone, hfsp, hsnd⟩
    · cases hfc
    have hknotmem : toCacheKey sn.id dn.id (jsSetOf last.blockedTileIds) ∉
        ((PathfindingHeap.runFindPaths (createNodesById tiles) C first []).2).map Prod.fst :=
      (mget_eq_none_iff _ _).1 hcnone
    have hgrow : mset (PathfindingHeap.runFindPaths (createNodesById tiles) C first []).2
        (toCacheKey sn.id dn.id (jsSetOf last.blockedTileIds)) p =
        (PathfindingHeap.runFindPaths (createNodesById tiles) C first []).2 ++
          [(toCacheKey sn.id dn.id (jsSetOf last.blockedTileIds), p)] :=
      mset_eq_append _ _ _ hknotmem
    have hevict : C < (mset (PathfindingHeap.runFindPaths (createNodesById tiles) C
        first []).2 (toCacheKey sn.id dn.id (jsSetOf last.blockedTileIds)) p).length := by
      rw [hgrow]
      simp [hlen1]
    rw [if_pos hevict, hgrow] at hsnd
    rcases hcc : (PathfindingHeap.runFindPaths (createNodesById tiles) C first []).2 with
      _ | ⟨⟨k0, q0⟩, c1rest⟩
    · rw [hcc] at hlen1
      simp at hlen1
      omega
    have hk0 : k0 ≠ "" := hwf1.2 k0 (by rw [hcc]; simp)
    rw [hcc, List.cons_append, evictOldest_cons k0 q0 _ hk0] at hsnd
    have hfinal : (PathfindingHeap.runFindPaths (createNodesById tiles) C
        (first ++ [last]) []).2 = c1rest ++
          [(toCacheKey sn.id dn.id (jsSetOf last.blockedTileIds), p)] := by
      rw [happ, runFindPaths_singleton, hcc]
      exact hsnd
    rw [hfinal]
    have hkeyeq : requestCacheKey last =
        toCacheKey sn.id dn.id (jsSetOf last.blockedTileIds) := by
      rw [requestCacheKey, hsid, hdid]
    have hc1keys : k0 :: c1rest.map Prod.fst = first.map requestCacheKey := by
      rw [← hkeys1, hcc]
      simp
    have hdrop : (first.map requestCacheKey).drop 1 = c1rest.map Prod.fst := by
      rw [← hc1keys]
      simp
    have hrhs : (List.map requestCacheKey (first ++ [last])).drop 1 =
        c1rest.map Prod.fst ++ [requestCacheKey last] := by
      rw [List.map_append, List.drop_append_of_le_length
        (by rw [List.length_map, hfirstlen]; omega), hdrop]
      simp
    rw [hrhs]
    simp [hkeyeq]

theorem mget_append_key {κ ν : Type _} [DecidableEq κ] (l : List (κ × ν)) (k : κ) (v : ν)
    (h : k ∉ l.map Prod.fst) : mget (l ++ [(k, v)]) k = some v := by
  rw [mget_append, (mget_eq_none_iff l k).2 h]
  simp [mget]

/-- Claim C4: a found result is reproduced from the cache by an identical
immediate retry (fromCache true, same path); an equal start/destination
request returns the single-tile path without reading or writing the
cache; and an unreachable result never changes the cache, while a
no-route result implies its key was absent (so unreachable outcomes are
neither stored nor served). -/
theorem claim_C4 (tiles : List Tile) (C : Nat) (hC : 0 < C) :
    (∀ (cache : List (String × List String)) (request : PathfindingRequest)
        (p : List String) (fc : Bool),
      request.startTileId ≠ request.destinationTileId →
      (PathfindingHeap.findPath (createNodesById tiles) C cache request).1 = .found p fc →
      (PathfindingHeap.findPath (createNodesById tiles) C
          (PathfindingHeap.findPath (createNodesById tiles) C cache request).2 request).1 =
        .found p true) ∧
    (∀ (cache cache2 : List (String × List String)) (request : PathfindingRequest),
      request.startTileId = request.destinationTileId →
      (PathfindingHeap.findPath (createNodesById tiles) C cache request).2 = cache ∧
      (PathfindingHeap.findPath (createNodesById tiles) C cache request).1 =
        (PathfindingHeap.findPath (createNodesById tiles) C cache2 request).1 ∧
      (∀ (p : List String) (fc : Bool),
        (PathfindingHeap.findPath (createNodesById tiles) C cache request).1 = .found p fc →
        p = [request.startTileId] ∧ fc = false)) ∧
    (∀ (cache : List (String × List String)) (request : PathfindingRequest)
        (reason : String),
      (PathfindingHeap.findPath (createNodesById tiles) C cache request).1 =
        .unreachable reason [] →
      (PathfindingHeap.findPath (createNodesById tiles) C cache request).2 = cache ∧
      (reason = "no-route" → mget cache (requestCacheKey request) = none)) := by
  refine ⟨?_, ?_, ?_⟩
  · intro cache request p fc hne h
    obtain ⟨sn, dn, hs, hd, hsb, hdb, hcases⟩ :=
      findPath_found_inv (createNodesById tiles) C cache request p fc h
    have hsid : sn.id = request.startTileId := createNodesById_id tiles _ _ hs
    have hdid : dn.id = request.destinationTileId := createNodesById_id tiles _ _ hd
    have hneq : ¬sn.id = dn.id := by
      rw [hsid, hdid]
      exact hne
    rcases hcases with ⟨heq, _, _, _⟩ | ⟨_, hrest⟩
    · exact absurd heq hneq
    have hc2 : mget (PathfindingHeap.findPath (createNodesById tiles) C cache request).2
        (toCacheKey sn.id dn.id (jsSetOf request.blockedTileIds)) = some p := by
      rcases hrest with ⟨_, hcache, hsnd⟩ | ⟨_, hcnone, hfsp, hsnd⟩
      · rw [hsnd]
        exact mget_mset_self _ _ _
      · have hnotmem : toCacheKey sn.id dn.id (jsSetOf request.blockedTileIds) ∉
            cache.map Prod.fst := (mget_eq_none_iff cache _).1 hcnone
        have hgrow := mset_eq_append cache
          (toCacheKey sn.id dn.id (jsSetOf request.blockedTileIds)) p hnotmem
        rw [hsnd]
        by_cases hev : C < (mset cache
            (toCacheKey sn.id dn.id (jsSetOf request.blockedTileIds)) p).length
        · rw [if_pos hev]
          rcases hcc : cache with _ | ⟨⟨k0, q0⟩, crest⟩
          · exfalso
            subst hcc
            rw [hgrow] at hev
            simp at hev
            omega
          subst hcc
          simp only [List.map_cons, List.mem_cons, not_or] at hnotmem
          by_cases hk0 : k0 = ""
          · rw [hgrow]
            have : evictOldest (((k0, q0) :: crest) ++
                [(toCacheKey sn.id dn.id (jsSetOf request.blockedTileIds), p)]) =
                ((k0, q0) :: crest) ++
                  [(toCacheKey sn.id dn.id (jsSetOf request.blockedTileIds), p)] := by
              simp [evictOldest, hk0]
            rw [this]
            exact mget_append_key _ _ _ (by
              simp only [List.map_cons, List.mem_cons, not_or]
              exact hnotmem)
          · rw [hgrow, List.cons_append, evictOldest_cons k0 q0 _ hk0]
            exact mget_append_key _ _ _ hnotmem.2
        · rw [if_neg hev, hgrow]
          exact mget_append_key _ _ _ hnotmem
    rw [findPath_hit (createNodesById tiles) C _ request sn dn p hs hd hsb hdb hneq hc2]
  · intro cache cache2 request heq
    rcases hs : mget (createNodesById tiles) request.startTileId with _ | sn
    · refine ⟨?_, ?_, ?_⟩
      · simp [PathfindingHeap.findPath, hs]
      · simp [PathfindingHeap.findPath, hs]
      · intro p fc hp
        simp [PathfindingHeap.findPath, hs] at hp
    rcases hd : mget (createNodesById tiles) request.destinationTileId with _ | dn
    · refine ⟨?_, ?_, ?_⟩
      · simp [PathfindingHeap.findPath, hs, hd]
      · simp [PathfindingHeap.findPath, hs, hd]
      · intro p fc hp
        simp [PathfindingHeap.findPath, hs, hd] at hp
    have hsid : sn.id = request.startTileId := createNodesById_id tiles _ _ hs
    have hdid : dn.id = request.destinationTileId := createNodesById_id tiles _ _ hd
    have hiq : sn.id = dn.id := by
      rw [hsid, hdid]
      exact heq
    by_cases hsb : sn.id ∈ jsSetOf request.blockedTileIds ∨ sn.walkable = false
    · refine ⟨?_, ?_, ?_⟩
      · simp [PathfindingHeap.findPath, hs, hd, hsb]
      · simp [PathfindingHeap.findPath, hs, hd, hsb]
      · intro p fc hp
        simp [PathfindingHeap.findPath, hs, hd, hsb] at hp
    by_cases hdb : dn.id ∈ jsSetOf request.blockedTileIds ∨ dn.walkable = false
    · refine ⟨?_, ?_, ?_⟩
      · simp [PathfindingHeap.findPath, hs, hd, hsb, hdb]
      · simp [PathfindingHeap.findPath, hs, hd, hsb, hdb]
      · intro p fc hp
        simp [PathfindingHeap.findPath, hs, hd, hsb, hdb] at hp
    rw [findPath_equal (createNodesById tiles) C cache request sn dn hs hd hsb hdb hiq,
      findPath_equal (createNodesById tiles) C cache2 request sn dn hs hd hsb hdb hiq]
    refine ⟨rfl, rfl, ?_⟩
    intro p fc hp
    injection hp with h1 h2
    exact ⟨h1.symm.trans (by rw [hsid]), h2.symm⟩
  · intro cache request reason h
    obtain ⟨hsnd, _, hnr⟩ :=
      findPath_unreachable_inv (createNodesById tiles) C cache request reason [] h
    refine ⟨hsnd, ?_⟩
    intro hreason
    obtain ⟨sn, dn, hs, hd, _, _, _, hcnone, _⟩ := hnr hreason
    have hsid : sn.id = request.startTileId := createNodesById_id tiles _ _ hs
    have hdid : dn.id = request.destinationTileId := createNodesById_id tiles _ _ hd
    rw [requestCacheKey, ← hsid, ← hdid]
    exact hcnone

/-! ### Verification of part_006's binary min-heap -/

namespace BinaryMinHeap

/-- The score stored at an index, ⊤ when out of bounds. -/
def scoreAt (heap : List HeapEntry) (i : Nat) : ℕ∞ :=
  ((heap.get? i).map HeapEntry.score).getD ⊤

/-- The binary-heap ordering: every entry's parent has a score ≤ its
own (out-of-bounds positions count as ⊤, making the bound trivial). -/
def HeapOrd (heap : List HeapEntry) : Prop :=
  ∀ j, 0 < j → scoreAt heap ((j - 1) / 2) ≤ scoreAt heap j

theorem scoreAt_oob (heap : List HeapEntry) (i : Nat) (h : heap.length ≤ i) :
    scoreAt heap i = ⊤ := by
  rw [scoreAt, List.get?_eq_none.2 h]
  rfl

theorem scoreAt_set_ne (heap : List HeapEntry) (i j : Nat) (e : HeapEntry) (h : i ≠ j) :
    scoreAt (heap.set i e) j = scoreAt heap j := by
  rw [scoreAt, scoreAt, List.get?_set_ne e heap h]

theorem scoreAt_set_eq (heap : List HeapEntry) (i : Nat) (e : HeapEntry)
    (h : i < heap.length) : scoreAt (heap.set i e) i = e.score := by
  rw [scoreAt, List.get?_set_eq_of_lt e h]
  rfl

theorem parent_lt (j : Nat) (h : 0 < j) : (j - 1) / 2 < j := by omega

theorem child_characterize (i j : Nat) (h0 : 0 < j) (h : (j - 1) / 2 = i) :
    j = 2 * i + 1 ∨ j = 2 * i + 2 := by omega

/-- In an ordered heap, the root has the minimum score. -/
theorem root_min (heap : List HeapEntry) (h : HeapOrd heap) :
    ∀ j, scoreAt heap 0 ≤ scoreAt heap j := by
  intro j
  induction j using Nat.strong_induction_on with
  | _ j ih =>
    rcases Nat.eq_zero_or_pos j with rfl | hj
    · exact le_refl _
    · exact le_trans (ih ((j - 1) / 2) (parent_lt j hj)) (h j hj)

theorem root_min_mem (heap : List HeapEntry) (h : HeapOrd heap) (e0 : HeapEntry)
    (rest : List HeapEntry) (hcons : heap = e0 :: rest) :
    ∀ f ∈ heap, e0.score ≤ f.score := by
  intro f hf
  obtain ⟨⟨j, hj⟩, hgf⟩ := List.mem_iff_get.1 hf
  have h0 : scoreAt heap 0 = e0.score := by
    rw [hcons]
    rfl
  have hjs : scoreAt heap j = f.score := by
    rw [scoreAt, List.get?_eq_get hj, hgf]
    rfl
  rw [← h0, ← hjs]
  exact root_min heap h j

theorem cons_set_perm {α : Type _} (xs : List α) (k : Nat) (a b : α)
    (hb : xs.get? k = some b) : List.Perm (b :: xs.set k a) (a :: xs) := by
  induction xs generalizing k with
  | nil => simp [List.get?] at hb
  | cons y ys ih =>
    cases k with
    | zero =>
      simp only [List.get?] at hb
      injection hb with hyb
      subst hyb
      simp only [List.set]
      exact List.Perm.swap a y ys
    | succ k =>
      simp only [List.get?] at hb
      simp only [List.set]
      exact ((List.Perm.swap y b (ys.set k a)).trans ((ih k hb).cons y)).trans
        (List.Perm.swap a y ys)

/-- Swapping two entries (writing each one's value at the other's index)
permutes the list. -/
theorem set_set_perm {α : Type _} (l : List α) (i j : Nat) (a b : α)
    (hij : i < j) (ha : l.get? i = some a) (hb : l.get? j = some b) :
    List.Perm ((l.set i b).set j a) l := by
  induction l generalizing i j with
  | nil => simp [List.get?] at ha
  | cons x xs ih =>
    obtain ⟨k, rfl⟩ : ∃ k, j = k + 1 := ⟨j - 1, by omega⟩
    cases i with
    | zero =>
      simp only [List.get?] at ha hb
      injection ha with hxa
      subst hxa
      simp only [List.set]
      exact cons_set_perm xs k x b hb
    | succ i =>
      simp only [List.get?] at ha hb
      simp only [List.set]
      exact (ih i k (by omega) ha hb).cons x

theorem bubbleUp_perm (fuel : Nat) : ∀ (heap : List HeapEntry) (i : Nat),
    List.Perm (bubbleUp fuel heap i) heap := by
  induction fuel with
  | zero => intro heap i; exact List.Perm.refl _
  | succ fuel ih =>
    intro heap i
    simp only [bubbleUp]
    by_cases h0 : i = 0
    · rw [if_pos h0]
    · rw [if_neg h0]
      rcases hp : heap.get? ((i - 1) / 2) with _ | pe
      · exact List.Perm.refl _
      rcases hi : heap.get? i with _ | ie
      · exact List.Perm.refl _
      dsimp only
      by_cases hcmp : pe.score ≤ ie.score
      · rw [if_pos hcmp]
      · rw [if_neg hcmp]
        exact (ih _ _).trans
          (set_set_perm heap ((i - 1) / 2) i pe ie (parent_lt i (by omega)) hp hi)

/-- The heap ordering, except that entry i may be smaller than its
parent; the second component bridges i's parent to i's children. -/
def OrdExceptUp (heap : List HeapEntry) (i : Nat) : Prop :=
  (∀ j, 0 < j → j ≠ i → scoreAt heap ((j - 1) / 2) ≤ scoreAt heap j) ∧
  (0 < i → ∀ c, 0 < c → (c - 1) / 2 = i → scoreAt heap ((i - 1) / 2) ≤ scoreAt heap c)

theorem bubbleUp_ord (fuel : Nat) : ∀ (heap : List HeapEntry) (i : Nat),
    i < fuel → OrdExceptUp heap i → HeapOrd (bubbleUp fuel heap i) := by
  induction fuel with
  | zero => intro heap i h; omega
  | succ fuel ih =>
    intro heap i hfuel hinv
    simp only [bubbleUp]
    by_cases h0 : i = 0
    · rw [if_pos h0]
      intro j hj
      exact hinv.1 j hj (by omega)
    · rw [if_neg h0]
      rcases hp : heap.get? ((i - 1) / 2) with _ | pe
      · intro j hj
        by_cases hji : j = i
        · subst hji
          have hlen : heap.length ≤ (j - 1) / 2 := List.get?_eq_none.1 hp
          rw [scoreAt_oob heap j (by omega)]
          exact le_top
        · exact hinv.1 j hj hji
      rcases hi : heap.get? i with _ | ie
      · intro j hj
        by_cases hji : j = i
        · subst hji
          have hj2 : scoreAt heap j = ⊤ := by
            rw [scoreAt, hi]
            rfl
          rw [hj2]
          exact le_top
        · exact hinv.1 j hj hji
      have hps : scoreAt heap ((i - 1) / 2) = pe.score := by
        rw [scoreAt, hp]
        rfl
      have his : scoreAt heap i = ie.score := by
        rw [scoreAt, hi]
        rfl
      dsimp only
      by_cases hcmp : pe.score ≤ ie.score
      · rw [if_pos hcmp]
        intro j hj
        by_cases hji : j = i
        · subst hji
          rw [hps, his]
          exact hcmp
        · exact hinv.1 j hj hji
      · rw [if_neg hcmp]
        have hplen : (i - 1) / 2 < heap.length := by
          by_contra hc
          rw [List.get?_eq_none.2 (by omega)] at hp
          cases hp
        have hilen : i < heap.length := by
          by_contra hc
          rw [List.get?_eq_none.2 (by omega)] at hi
          cases hi
        have hpi : (i - 1) / 2 ≠ i := by
          have := parent_lt i (by omega)
          omega
        have hlt : ie.score < pe.score := lt_of_not_le hcmp
        have hsi : scoreAt ((heap.set ((i - 1) / 2) ie).set i pe) i = pe.score :=
          scoreAt_set_eq _ i pe (by rw [List.length_set]; exact hilen)
        have hsp : scoreAt ((heap.set ((i - 1) / 2) ie).set i pe) ((i - 1) / 2) =
            ie.score := by
          rw [scoreAt_set_ne _ i _ pe (fun hh => hpi hh.symm),
            scoreAt_set_eq heap _ ie hplen]
        have hsc : ∀ k, k ≠ i → k ≠ (i - 1) / 2 →
            scoreAt ((heap.set ((i - 1) / 2) ie).set i pe) k = scoreAt heap k := by
          intro k hki hkp
          rw [scoreAt_set_ne _ i k pe (fun hh => hki hh.symm),
            scoreAt_set_ne heap _ k ie (fun hh => hkp hh.symm)]
        apply ih _ _ (by have := parent_lt i (by omega); omega)
        constructor
        · intro j hj hjp
          by_cases hji : j = i
          · subst hji
            have hpar : (j - 1) / 2 = (j - 1) / 2 := rfl
            rw [hsp, hsi]
            exact le_of_lt hlt
          by_cases hchi : (j - 1) / 2 = i
          · rw [hchi, hsi, hsc j hji (by omega)]
            have := hinv.2 (by omega) j hj hchi
            rw [hps] at this
            exact this
          by_cases hchp : (j - 1) / 2 = (i - 1) / 2
          · rw [hchp, hsp, hsc j hji (by rw [← hchp]; omega)]
            have h1 := hinv.1 j hj hji
            rw [hchp, hps] at h1
            exact le_trans (le_of_lt hlt) h1
          · rw [hsc _ hchi hchp, hsc j hji (fun hh => hjp (by omega))]
            exact hinv.1 j hj hji
        · intro hpos c hc hcp
          have hgp : (((i - 1) / 2) - 1) / 2 ≠ i := by
            have h1 := parent_lt i (by omega)
            have h2 := parent_lt ((i - 1) / 2) hpos
            omega
          have hgp2 : (((i - 1) / 2) - 1) / 2 ≠ (i - 1) / 2 := by
            have h2 := parent_lt ((i - 1) / 2) hpos
            omega
          rw [hsc _ hgp hgp2]
          have hgpar := hinv.1 ((i - 1) / 2) hpos hpi
          by_cases hci : c = i
          · subst hci
            rw [hsi, ← hps]
            exact hgpar
          · have hcnp : c ≠ (i - 1) / 2 := by omega
            rw [hsc c hci hcnp]
            have h2 := hinv.1 c hc hci
            rw [hcp] at h2
            exact le_trans hgpar (hps ▸ h2)

theorem scoreAt_append_left (heap tail : List HeapEntry) (j : Nat) (h : j < heap.length) :
    scoreAt (heap ++ tail) j = scoreAt heap j := by
  rw [scoreAt, scoreAt, List.get?_append h]

theorem push_perm (heap : List HeapEntry) (id : String) (score : ℕ∞) :
    List.Perm (push heap id score) (heap ++ [{ id := id, score := score }]) := by
  simp only [push]
  exact bubbleUp_perm _ _ _

theorem push_ord (heap : List HeapEntry) (id : String) (score : ℕ∞) (h : HeapOrd heap) :
    HeapOrd (push heap id score) := by
  simp only [push]
  have hlen : (heap ++ ([{ id := id, score := score }] : List HeapEntry)).length =
      heap.length + 1 := by simp
  apply bubbleUp_ord
  · omega
  · constructor
    · intro j hj hjlast
      rw [hlen] at hjlast
      by_cases hjb : j < heap.length
      · have hparent : (j - 1) / 2 < heap.length := lt_of_lt_of_le (parent_lt j hj)
          (le_of_lt hjb)
      -- wait
        rw [scoreAt_append_left _ _ j hjb, scoreAt_append_left _ _ _ hparent]
        exact h j hj
      · have hoob : (heap ++ ([{ id := id, score := score }] : List HeapEntry)).length
            ≤ j := by
          rw [hlen]
          omega
        rw [scoreAt_oob _ j hoob]
        exact le_top
    · intro hpos c hc hcp
      rw [hlen] at hcp
      have hchar := child_characterize (heap.length + 1 - 1) c hc hcp
      have hoob : (heap ++ ([{ id := id, score := score }] : List HeapEntry)).length
          ≤ c := by
        rw [hlen]
        omega
      rw [scoreAt_oob _ c hoob]
      exact le_top

theorem sinkDown_perm (fuel : Nat) : ∀ (heap : List HeapEntry) (i : Nat),
    List.Perm (sinkDown fuel heap i) heap := by
  induction fuel with
  | zero => intro heap i; exact List.Perm.refl _
  | succ fuel ih =>
    intro heap i
    simp only [sinkDown]
    rcases hie : heap.get? i with _ | ie
    · exact List.Perm.refl _
    dsimp only
    rcases hl : heap.get? (2 * i + 1) with _ | le <;>
      rcases hr : heap.get? (2 * i + 2) with _ | re <;> dsimp only
    · rw [if_pos rfl]
    · by_cases h2 : re.score < ie.score
      · rw [if_pos h2, if_neg (show ¬(2 * i + 2 = i) by omega)]
        exact (ih _ _).trans (set_set_perm heap i (2 * i + 2) ie re (by omega) hie hr)
      · rw [if_neg h2, if_pos rfl]
    · by_cases h1 : le.score < ie.score
      · rw [if_pos h1, if_neg (show ¬(2 * i + 1 = i) by omega)]
        exact (ih _ _).trans (set_set_perm heap i (2 * i + 1) ie le (by omega) hie hl)
      · rw [if_neg h1, if_pos rfl]
    · by_cases h1 : le.score < ie.score
      · rw [if_pos h1]
        by_cases h2 : re.score < le.score
        · rw [if_pos h2, if_neg (show ¬(2 * i + 2 = i) by omega)]
          exact (ih _ _).trans (set_set_perm heap i (2 * i + 2) ie re (by omega) hie hr)
        · rw [if_neg h2, if_neg (show ¬(2 * i + 1 = i) by omega)]
          exact (ih _ _).trans (set_set_perm heap i (2 * i + 1) ie le (by omega) hie hl)
      · rw [if_neg h1]
        by_cases h2 : re.score < ie.score
        · rw [if_pos h2, if_neg (show ¬(2 * i + 2 = i) by omega)]
          exact (ih _ _).trans (set_set_perm heap i (2 * i + 2) ie re (by omega) hie hr)
        · rw [if_neg h2, if_pos rfl]

/-- The heap ordering, except that entry i may exceed its children; the
second component bridges i's parent to i's children. -/
def OrdExceptDown (heap : List HeapEntry) (i : Nat) : Prop :=
  (∀ j, 0 < j → (j - 1) / 2 ≠ i → scoreAt heap ((j - 1) / 2) ≤ scoreAt heap j) ∧
  (0 < i → ∀ c, 0 < c → (c - 1) / 2 = i → scoreAt heap ((i - 1) / 2) ≤ scoreAt heap c)

/-- After swapping the sinking entry with its smallest (strictly smaller)
child m, the down-invariant holds at m. -/
theorem sinkDown_swap_inv (heap : List HeapEntry) (i m : Nat) (ie em : HeapEntry)
    (hie : heap.get? i = some ie) (hm : heap.get? m = some em)
    (hchild : (m - 1) / 2 = i) (hm0 : 0 < m)
    (hlt : em.score < ie.score)
    (hother : ∀ c, 0 < c → (c - 1) / 2 = i → c ≠ m → em.score ≤ scoreAt heap c)
    (hinv : OrdExceptDown heap i) :
    OrdExceptDown ((heap.set i em).set m ie) m := by
  have him : i < m := hchild ▸ parent_lt m hm0
  have hilen : i < heap.length := by
    by_contra hc
    rw [List.get?_eq_none.2 (by omega)] at hie
    cases hie
  have hmlen : m < heap.length := by
    by_contra hc
    rw [List.get?_eq_none.2 (by omega)] at hm
    cases hm
  have hsi : scoreAt ((heap.set i em).set m ie) i = em.score := by
    rw [scoreAt_set_ne _ m i ie (by omega), scoreAt_set_eq heap i em hilen]
  have hsm : scoreAt ((heap.set i em).set m ie) m = ie.score :=
    scoreAt_set_eq _ m ie (by rw [List.length_set]; exact hmlen)
  have hsc : ∀ k, k ≠ i → k ≠ m →
      scoreAt ((heap.set i em).set m ie) k = scoreAt heap k := by
    intro k hki hkm
    rw [scoreAt_set_ne _ m k ie (fun hh => hkm hh.symm),
      scoreAt_set_ne heap i k em (fun hh => hki hh.symm)]
  have hmem : scoreAt heap m = em.score := by
    rw [scoreAt, hm]
    rfl
  constructor
  · intro j hj hjm
    by_cases hji : j = m
    · subst hji
      rw [hchild, hsi, hsm]
      exact le_of_lt hlt
    by_cases hpji : (j - 1) / 2 = i
    · rw [hpji, hsi, hsc j (by omega) hji]
      exact hother j hj hpji hji
    by_cases hjei : j = i
    · subst hjei
      have hpar_ne_m : (j - 1) / 2 ≠ m := by
        have := parent_lt j hj
        omega
      rw [hsi, hsc _ hpji hpar_ne_m]
      have := hinv.2 hj m hm0 hchild
      rw [hmem] at this
      exact this
    · have hpar_ne_m : (j - 1) / 2 ≠ m := hjm
      rw [hsc _ hpji hpar_ne_m, hsc j hjei hji]
      exact hinv.1 j hj hpji
  · intro _ c hc hcm
    have hcmgt : m < c := hcm ▸ parent_lt c hc
    rw [hchild, hsi, hsc c (by omega) (by omega)]
    have := hinv.1 c hc (by omega)
    rw [hcm, hmem] at this
    exact this

theorem sinkDown_ord (fuel : Nat) : ∀ (heap : List HeapEntry) (i : Nat),
    heap.length ≤ fuel + i → OrdExceptDown heap i → HeapOrd (sinkDown fuel heap i) := by
  induction fuel with
  | zero =>
    intro heap i hf hinv
    simp only [sinkDown]
    intro j hj
    by_cases hpji : (j - 1) / 2 = i
    · have hoob : heap.length ≤ j := by omega
      rw [scoreAt_oob heap j hoob]
      exact le_top
    · exact hinv.1 j hj hpji
  | succ fuel ih =>
    intro heap i hf hinv
    simp only [sinkDown]
    rcases hie : heap.get? i with _ | ie
    · intro j hj
      by_cases hpji : (j - 1) / 2 = i
      · have hioob : heap.length ≤ i := List.get?_eq_none.1 hie
        rw [scoreAt_oob heap j (by omega)]
        exact le_top
      · exact hinv.1 j hj hpji
    dsimp only
    have hies : scoreAt heap i = ie.score := by
      rw [scoreAt, hie]
      rfl
    have hnoswap : (∀ c, 0 < c → (c - 1) / 2 = i → ie.score ≤ scoreAt heap c) →
        HeapOrd heap := by
      intro hch j hj
      by_cases hpji : (j - 1) / 2 = i
      · rw [hpji, hies]
        exact hch j hj hpji
      · exact hinv.1 j hj hpji
    rcases hl : heap.get? (2 * i + 1) with _ | le <;>
      rcases hr : heap.get? (2 * i + 2) with _ | re <;> dsimp only
    · rw [if_pos rfl]
      apply hnoswap
      intro c hc hcp
      rcases child_characterize i c hc hcp with rfl | rfl
      · rw [scoreAt, hl]
        exact le_top
      · rw [scoreAt, hr]
        exact le_top
    · exfalso
      have h1 := List.get?_eq_none.1 hl
      have h2 : 2 * i + 2 < heap.length := by
        by_contra hc
        rw [List.get?_eq_none.2 (by omega)] at hr
        cases hr
      omega
    · have hres : scoreAt heap (2 * i + 1) = le.score := by
        rw [scoreAt, hl]
        rfl
      by_cases h1 : le.score < ie.score
      · rw [if_pos h1, if_neg (show ¬(2 * i + 1 = i) by omega)]
        apply ih _ _ (by rw [List.length_set, List.length_set]; omega)
        apply sinkDown_swap_inv heap i (2 * i + 1) ie le hie hl (by omega) (by omega) h1
          _ hinv
        intro c hc hcp hcm
        rcases child_characterize i c hc hcp with rfl | rfl
        · omega
        · rw [scoreAt, hr]
          exact le_top
      · rw [if_neg h1, if_pos rfl]
        apply hnoswap
        intro c hc hcp
        rcases child_characterize i c hc hcp with rfl | rfl
        · rw [hres]
          exact le_of_not_lt h1
        · rw [scoreAt, hr]
          exact le_top
    · have hles : scoreAt heap (2 * i + 1) = le.score := by
        rw [scoreAt, hl]
        rfl
      have hress : scoreAt heap (2 * i + 2) = re.score := by
        rw [scoreAt, hr]
        rfl
      by_cases h1 : le.score < ie.score
      · rw [if_pos h1]
        by_cases h2 : re.score < le.score
        · rw [if_pos h2, if_neg (show ¬(2 * i + 2 = i) by omega)]
          apply ih _ _ (by rw [List.length_set, List.length_set]; omega)
          apply sinkDown_swap_inv heap i (2 * i + 2) ie re hie hr (by omega) (by omega)
            (lt_trans h2 h1) _ hinv
          intro c hc hcp hcm
          rcases child_characterize i c hc hcp with rfl | rfl
          · rw [hles]
            exact le_of_lt h2
          · omega
        · rw [if_neg h2, if_neg (show ¬(2 * i + 1 = i) by omega)]
          apply ih _ _ (by rw [List.length_set, List.length_set]; omega)
          apply sinkDown_swap_inv heap i (2 * i + 1) ie le hie hl (by omega) (by omega) h1
            _ hinv
          intro c hc hcp hcm
          rcases child_characterize i c hc hcp with rfl | rfl
          · omega
          · rw [hress]
            exact le_of_not_lt h2
      · rw [if_neg h1]
        by_cases h2 : re.score < ie.score
        · rw [if_pos h2, if_neg (show ¬(2 * i + 2 = i) by omega)]
          apply ih _ _ (by rw [List.length_set, List.length_set]; omega)
          apply sinkDown_swap_inv heap i (2 * i + 2) ie re hie hr (by omega) (by omega) h2
            _ hinv
          intro c hc hcp hcm
          rcases child_characterize i c hc hcp with rfl | rfl
          · rw [hles]
            exact le_trans (le_of_lt h2) (le_of_not_lt h1)
          · omega
        · rw [if_neg h2, if_pos rfl]
          apply hnoswap
          intro c hc hcp
          rcases child_characterize i c hc hcp with rfl | rfl
          · rw [hles]
            exact le_of_not_lt h1
          · rw [hress]
            exact le_of_not_lt h2

theorem pop_none_iff (heap : List HeapEntry) : pop heap = none ↔ heap = [] := by
  cases heap with
  | nil => simp [pop]
  | cons e rest =>
    rcases hrl : rest.getLast? with _ | last <;> simp [pop, hrl]

/-- pop returns the root id; the remaining entries are a permutation of
the rest of the heap and stay heap-ordered. -/
theorem pop_spec (heap : List HeapEntry) (h : HeapOrd heap) (e0 : HeapEntry)
    (rest : List HeapEntry) (hcons : heap = e0 :: rest) :
    ∃ rest2, pop heap = some (e0.id, rest2) ∧ List.Perm rest2 rest ∧ HeapOrd rest2 := by
  subst hcons
  rcases hrl : rest.getLast? with _ | last
  · have hrnil : rest = [] := List.getLast?_eq_none_iff.1 hrl
    subst hrnil
    refine ⟨[], by simp [pop], List.Perm.refl _, ?_⟩
    intro j hj
    rw [scoreAt_oob [] j (by simp)]
    exact le_top
  · have hrne : rest ≠ [] := by
      intro hx
      subst hx
      simp at hrl
    have hrlen : 0 < rest.length := List.length_pos.2 hrne
    have hfull : rest.dropLast ++ [last] = rest :=
      List.dropLast_append_getLast? last (by simp [hrl, Option.mem_def])
    have hnewlen : (last :: rest.dropLast).length = rest.length := by
      simp only [List.length_cons, List.length_dropLast]
      omega
    have hsame : ∀ k, 0 < k → k < rest.length →
        scoreAt (last :: rest.dropLast) k = scoreAt (e0 :: rest) k := by
      intro k hk0 hkb
      obtain ⟨k2, rfl⟩ : ∃ k2, k = k2 + 1 := ⟨k - 1, by omega⟩
      rw [scoreAt, scoreAt]
      simp only [List.get?]
      rw [List.get?_eq_getElem?, List.get?_eq_getElem?, List.getElem?_dropLast,
        if_pos (by omega)]
    refine ⟨sinkDown (rest.length + 1) (last :: rest.dropLast) 0,
      by simp [pop, hrl], ?_, ?_⟩
    · refine (sinkDown_perm _ _ _).trans ?_
      have h1 : List.Perm (rest.dropLast ++ [last]) (last :: (rest.dropLast ++ [])) :=
        List.perm_middle
      rw [hfull] at h1
      simp only [List.append_nil] at h1
      exact h1.symm
    · apply sinkDown_ord
      · rw [hnewlen]
        omega
      · constructor
        · intro j hj hpj0
          by_cases hjb : j < (last :: rest.dropLast).length
          · rw [hnewlen] at hjb
            rw [hsame j hj hjb, hsame _ (by omega) (by have := parent_lt j hj; omega)]
            exact h j hj
          · rw [scoreAt_oob _ j (by omega)]
            exact le_top
        · intro h0
          exact absurd h0 (lt_irrefl 0)

end BinaryMinHeap

/-! ### The search graph underlying both findShortestPath variants -/

/-- One relaxable step of the search: v is listed among u's neighbors, is
not blocked, and has a walkable node.  Both variants skip a neighbor
under exactly the complementary conditions. -/
def stepR (nodesById : List (String × PathfindingNode)) (blockedTileIds : List String)
    (u v : String) : Prop :=
  ∃ nu nv, mget nodesById u = some nu ∧ v ∈ nu.neighbors ∧ v ∉ blockedTileIds ∧
    mget nodesById v = some nv ∧ nv.walkable = true

/-- Reachability by exactly n steps (built up at the far end, matching
how the relaxation extends known paths). -/
inductive ReachN (nodesById : List (String × PathfindingNode))
    (blockedTileIds : List String) : Nat → String → String → Prop
  | refl (u : String) : ReachN nodesById blockedTileIds 0 u u
  | snoc {n : Nat} {u v w : String} : ReachN nodesById blockedTileIds n u v →
      stepR nodesById blockedTileIds v w → ReachN nodesById blockedTileIds (n + 1) u w

theorem reachN_zero (nodesById : List (String × PathfindingNode))
    (blockedTileIds : List String) (u v : String)
    (h : ReachN nodesById blockedTileIds 0 u v) : u = v := by
  cases h
  rfl

theorem reachN_cons (nodesById : List (String × PathfindingNode))
    (blockedTileIds : List String) (n : Nat) (u v w : String)
    (hs : stepR nodesById blockedTileIds u v)
    (hr : ReachN nodesById blockedTileIds n v w) :
    ReachN nodesById blockedTileIds (n + 1) u w := by
  revert hs
  induction hr with
  | refl x => intro hs; exact ReachN.snoc (ReachN.refl u) hs
  | snoc hr2 hstep ih => intro hs; exact ReachN.snoc (ih hs) hstep

/-- The heuristic between a known node and itself is zero. -/
theorem heuristicDistance_self (nodesById : List (String × PathfindingNode)) (d : String)
    (nd : PathfindingNode) (h : mget nodesById d = some nd) :
    heuristicDistance nodesById d d = 0 := by
  rw [heuristicDistance, h]
  simp

/-! ### createNodesById characterization (used for heuristic consistency) -/

theorem mget_foldl_mset_not_mem {α : Type _} {κ : Type _} [DecidableEq κ]
    (key : Tile → κ) (val : Tile → α) :
    ∀ (ts : List Tile) (m : List (κ × α)) (i : κ), i ∉ ts.map key →
      mget (ts.foldl (fun m t => mset m (key t) (val t)) m) i = mget m i := by
  intro ts
  induction ts with
  | nil => intro m i _; rfl
  | cons t rest ih =>
    intro m i hmem
    simp only [List.map_cons, List.mem_cons, not_or] at hmem
    rw [List.foldl_cons, ih _ i hmem.2, mget_mset_ne _ _ _ _ hmem.1]

theorem mget_foldl_mset_mem {α : Type _} {κ : Type _} [DecidableEq κ]
    (key : Tile → κ) (val : Tile → α) :
    ∀ (ts : List Tile) (m : List (κ × α)) (t : Tile), t ∈ ts → (ts.map key).Nodup →
      mget (ts.foldl (fun m t => mset m (key t) (val t)) m) (key t) = some (val t) := by
  intro ts
  induction ts with
  | nil => intro m t ht; cases ht
  | cons t0 rest ih =>
    intro m t ht hnd
    simp only [List.map_cons, List.nodup_cons] at hnd
    rcases List.mem_cons.1 ht with rfl | hmem
    · rw [List.foldl_cons,
        mget_foldl_mset_not_mem key val rest _ (key t) hnd.1, mget_mset_self]
    · rw [List.foldl_cons]
      exact ih _ t hmem hnd.2

theorem mget_foldl_mset_inv {α : Type _} {κ : Type _} [DecidableEq κ]
    (key : Tile → κ) (val : Tile → α) :
    ∀ (ts : List Tile) (m : List (κ × α)) (i : κ) (x : α),
      mget (ts.foldl (fun m t => mset m (key t) (val t)) m) i = some x →
      (∃ t ∈ ts, key t = i ∧ val t = x) ∨ mget m i = some x := by
  intro ts
  induction ts with
  | nil => intro m i x h; exact Or.inr h
  | cons t0 rest ih =>
    intro m i x h
    rw [List.foldl_cons] at h
    rcases ih _ i x h with ⟨t, ht, hk, hv⟩ | hbase
    · exact Or.inl ⟨t, List.mem_cons_of_mem _ ht, hk, hv⟩
    · by_cases hk : key t0 = i
      · subst hk
        rw [mget_mset_self] at hbase
        injection hbase with hv
        exact Or.inl ⟨t0, List.mem_cons_self _ _, rfl, hv⟩
      · rw [mget_mset_ne _ _ _ _ (fun hh => hk hh.symm)] at hbase
        exact Or.inr hbase

/-- The node stored for a tile id, for tile lists with distinct ids. -/
theorem createNodesById_node (tiles : List Tile) (hnd : (tiles.map Tile.id).Nodup)
    (t : Tile) (ht : t ∈ tiles) :
    mget (createNodesById tiles) t.id = some
      { id := t.id, x := t.coordinate.x, y := t.coordinate.y, walkable := t.walkable,
        neighbors := ([
            mget (tiles.foldl (fun m tile =>
              mset m (toCoordinateKey tile.coordinate.x tile.coordinate.y) tile.id) [])
              (toCoordinateKey (t.coordinate.x + 1) t.coordinate.y),
            mget (tiles.foldl (fun m tile =>
              mset m (toCoordinateKey tile.coordinate.x tile.coordinate.y) tile.id) [])
              (toCoordinateKey (t.coordinate.x - 1) t.coordinate.y),
            mget (tiles.foldl (fun m tile =>
              mset m (toCoordinateKey tile.coordinate.x tile.coordinate.y) tile.id) [])
              (toCoordinateKey t.coordinate.x (t.coordinate.y + 1)),
            mget (tiles.foldl (fun m tile =>
              mset m (toCoordinateKey tile.coordinate.x tile.coordinate.y) tile.id) [])
              (toCoordinateKey t.coordinate.x (t.coordinate.y - 1))
          ].filterMap id) } := by
  rw [createNodesById]
  exact mget_foldl_mset_mem Tile.id _ tiles [] t ht hnd

/-- Conversely, every stored node comes from a tile of the list. -/
theorem createNodesById_inv (tiles : List Tile) (i : String) (n : PathfindingNode)
    (h : mget (createNodesById tiles) i = some n) :
    ∃ t ∈ tiles, t.id = i := by
  rw [createNodesById] at h
  rcases mget_foldl_mset_inv Tile.id _ tiles [] i n h with ⟨t, ht, hk, _⟩ | hbase
  · exact ⟨t, ht, hk⟩
  · simp [mget] at hbase

/-- A neighbor of a stored node sits at Manhattan distance one from it:
its id was found in the coordinate map at one of the four adjacent
coordinates, and (ids being distinct) its own node carries exactly that
coordinate. -/
theorem createNodesById_adjacent (tiles : List Tile) (hnd : (tiles.map Tile.id).Nodup)
    (u v : String) (nu nv : PathfindingNode)
    (hu : mget (createNodesById tiles) u = some nu)
    (hv : mget (createNodesById tiles) v = some nv)
    (hmem : v ∈ nu.neighbors) :
    (nu.x - nv.x).natAbs + (nu.y - nv.y).natAbs = 1 := by
  obtain ⟨tu, htu, htui⟩ := createNodesById_inv tiles u nu hu
  obtain ⟨tv, htv, htvi⟩ := createNodesById_inv tiles v nv hv
  subst htui
  subst htvi
  rw [createNodesById_node tiles hnd tu htu] at hu
  rw [createNodesById_node tiles hnd tv htv] at hv
  injection hu with hu2
  injection hv with hv2
  subst hu2
  subst hv2
  simp only [List.mem_filterMap, List.mem_cons, List.not_mem_nil, or_false,
    id_eq] at hmem
  obtain ⟨o, ho, hov⟩ := hmem
  have hcoord : ∀ (cx cy : Int),
      mget (tiles.foldl (fun m tile =>
        mset m (toCoordinateKey tile.coordinate.x tile.coordinate.y) tile.id) [])
        (toCoordinateKey cx cy) = some tv.id →
      tv.coordinate.x = cx ∧ tv.coordinate.y = cy := by
    intro cx cy hc
    rcases mget_foldl_mset_inv _ _ tiles [] _ _ hc with ⟨t2, ht2, hk2, hval2⟩ | hbase
    · have ht2v : t2 = tv := by
        have h1 : tiles.map Tile.id = tiles.map Tile.id := rfl
        exact List.inj_on_of_nodup_map hnd ht2 htv hval2
      subst ht2v
      rw [toCoordinateKey] at hk2
      injection hk2 with hx hy
      exact ⟨hx, hy⟩
    · simp [mget] at hbase
  rcases ho with ho | ho | ho | ho <;> rw [ho] at hov <;>
    obtain ⟨hx, hy⟩ := hcoord _ _ hov <;> simp only [] <;> rw [hx, hy] <;> omega

/-- Manhattan heuristic consistency along relaxable steps of a
distinct-id tile map.  (Out-of-map destinations make both sides ⊤.) -/
theorem heuristic_consistent (tiles : List Tile) (hnd : (tiles.map Tile.id).Nodup)
    (blockedTileIds : List String) (dest u v : String)
    (hstep : stepR (createNodesById tiles) blockedTileIds u v) :
    heuristicDistance (createNodesById tiles) u dest ≤
      heuristicDistance (createNodesById tiles) v dest + 1 := by
  obtain ⟨nu, nv, hu, hmem, _, hv, _⟩ := hstep
  rcases hd : mget (createNodesById tiles) dest with _ | nd
  · rw [heuristicDistance, heuristicDistance, hu, hv, hd]
    simp
  · rw [heuristicDistance, heuristicDistance, hu, hv, hd]
    have hadj := createNodesById_adjacent tiles hnd u v nu nv hu hv hmem
    have htri : (nu.x - nd.x).natAbs + (nu.y - nd.y).natAbs ≤
        ((nv.x - nd.x).natAbs + (nv.y - nd.y).natAbs) + 1 := by
      omega
    exact_mod_cast Nat.cast_le.2 htri

/-! ### The A* loop invariant (shared shape for both variants; the
candidate list is the heap in part_006 and the open set paired with its
f-scores in part_005) -/

structure AStarInv (nodesById : List (String × PathfindingNode))
    (blockedTileIds : List String) (startTileId destinationTileId : String)
    (cands : List HeapEntry) (closedSet : List String)
    (cameFrom : List (String × String)) (gScore : List (String × ℕ∞)) : Prop where
  g_start : mget gScore startTileId = some 0
  g_real : ∀ u c, mget gScore u = some c → ∃ k : Nat, c = (k : ℕ∞) ∧
    ReachN nodesById blockedTileIds k startTileId u
  settled : ∀ u ∈ closedSet, ∀ n, ReachN nodesById blockedTileIds n startTileId u →
    (mget gScore u).getD ⊤ ≤ (n : ℕ∞)
  expanded : ∀ u ∈ closedSet, ∀ v, stepR nodesById blockedTileIds u v →
    (mget gScore v).getD ⊤ ≤ (mget gScore u).getD ⊤ + 1
  parent : ∀ u p, mget cameFrom u = some p → p ∈ closedSet ∧
    stepR nodesById blockedTileIds p u ∧
    ∃ k : Nat, mget gScore p = some (k : ℕ∞) ∧ mget gScore u = some ((k + 1 : Nat) : ℕ∞)
  g_parent : ∀ u c, mget gScore u = some c → u ≠ startTileId →
    ∃ p, mget cameFrom u = some p
  cf_start : mget cameFrom startTileId = none
  entries : ∀ e ∈ cands, ∃ k : Nat,
    e.score = (k : ℕ∞) + heuristicDistance nodesById e.id destinationTileId ∧
    ReachN nodesById blockedTileIds k startTileId e.id ∧
    (mget gScore e.id).getD ⊤ ≤ (k : ℕ∞)
  cover : ∀ u c, u ∉ closedSet → mget gScore u = some c → ∃ e ∈ cands, e.id = u ∧
    e.score ≤ c + heuristicDistance nodesById u destinationTileId
  cand_ids : ∀ e ∈ cands, e.id = startTileId ∨ e.id ∈ nodesById.map Prod.fst
  dest_open : destinationTileId ∉ closedSet

/-- The frontier bound: as long as v is still open, some candidate's
score is at most n + h(v) for every n-step path from the start to v. -/
theorem frontier_entry (nodesById : List (String × PathfindingNode))
    (blockedTileIds : List String) (startTileId destinationTileId : String)
    (cands : List HeapEntry) (closedSet : List String)
    (cameFrom : List (String × String)) (gScore : List (String × ℕ∞))
    (hinv : AStarInv nodesById blockedTileIds startTileId destinationTileId cands
      closedSet cameFrom gScore)
    (hcons : ∀ u v, stepR nodesById blockedTileIds u v →
      heuristicDistance nodesById u destinationTileId ≤
        heuristicDistance nodesById v destinationTileId + 1) :
    ∀ (n : Nat) (v : String), ReachN nodesById blockedTileIds n startTileId v →
      v ∉ closedSet →
      ∃ e ∈ cands, e.score ≤ (n : ℕ∞) +
        heuristicDistance nodesById v destinationTileId := by
  have aux : ∀ (n : Nat) (s v : String), ReachN nodesById blockedTileIds n s v →
      s = startTileId → v ∉ closedSet →
      ∃ e ∈ cands, e.score ≤ (n : ℕ∞) +
        heuristicDistance nodesById v destinationTileId := by
    intro n s v hreach
    induction hreach with
    | refl u =>
      intro hu hopen
      subst hu
      obtain ⟨e, he, _, hle⟩ := hinv.cover _ 0 hopen hinv.g_start
      exact ⟨e, he, by simpa using hle⟩
    | snoc hr hstep ih =>
      intro hu hopen
      rename_i k u2 v2 w2
      subst hu
      by_cases hmid : v2 ∈ closedSet
      · have hgk := hinv.settled v2 hmid k hr
        have hgw := hinv.expanded v2 hmid w2 hstep
        have hbound : (mget gScore w2).getD ⊤ ≤ ((k + 1 : Nat) : ℕ∞) := by
          push_cast
          calc (mget gScore w2).getD ⊤ ≤ (mget gScore v2).getD ⊤ + 1 := hgw
            _ ≤ (k : ℕ∞) + 1 := add_le_add_right hgk 1
        rcases hmw : mget gScore w2 with _ | c
        · rw [hmw] at hbound
          simp only [Option.getD_none] at hbound
          exact absurd (top_le_iff.1 hbound) (ENat.coe_lt_top (k + 1)).ne
        · rw [hmw] at hbound
          simp only [Option.getD_some] at hbound
          obtain ⟨e, he, _, hle⟩ := hinv.cover w2 c hopen hmw
          refine ⟨e, he, le_trans hle ?_⟩
          exact add_le_add_right hbound _
      · obtain ⟨e, he, hle⟩ := ih rfl hmid
        refine ⟨e, he, le_trans hle ?_⟩
        have hcv := hcons v2 w2 hstep
        calc (k : ℕ∞) + heuristicDistance nodesById v2 destinationTileId ≤
            (k : ℕ∞) + (heuristicDistance nodesById w2 destinationTileId + 1) :=
              add_le_add_left hcv _
          _ = ((k + 1 : Nat) : ℕ∞) + heuristicDistance nodesById w2 destinationTileId := by
              push_cast
              ring
  exact fun n v h => aux n startTileId v h rfl

theorem reconstructChain_no_parent (cameFrom : List (String × String)) (fuel : Nat)
    (u : String) (h : mget cameFrom u = none) :
    reconstructChain cameFrom fuel u = [u] := by
  cases fuel with
  | zero => rfl
  | succ f => simp [reconstructChain, h]

/-- Following cameFrom from a node with g-score k yields the recorded
path: it starts at the start tile, ends at the node, takes k relaxable
steps, and any fuel ≥ k suffices. -/
theorem reconstruct_spec (nodesById : List (String × PathfindingNode))
    (blockedTileIds : List String) (startTileId destinationTileId : String)
    (cands : List HeapEntry) (closedSet : List String)
    (cameFrom : List (String × String)) (gScore : List (String × ℕ∞))
    (hinv : AStarInv nodesById blockedTileIds startTileId destinationTileId cands
      closedSet cameFrom gScore) :
    ∀ (k : Nat) (u : String) (fuel : Nat), mget gScore u = some ((k : Nat) : ℕ∞) →
      k ≤ fuel →
      (reconstructPath cameFrom fuel u).head? = some startTileId ∧
      (reconstructPath cameFrom fuel u).getLast? = some u ∧
      List.Chain' (stepR nodesById blockedTileIds) (reconstructPath cameFrom fuel u) ∧
      (reconstructPath cameFrom fuel u).length = k + 1 := by
  intro k
  induction k with
  | zero =>
    intro u fuel hg _
    obtain ⟨k2, hk2, hreach⟩ := hinv.g_real u _ hg
    have hk0 : k2 = 0 := by exact_mod_cast hk2.symm
    subst hk0
    have hstart : startTileId = u := reachN_zero _ _ _ _ hreach
    subst hstart
    rw [reconstructPath, reconstructChain_no_parent cameFrom fuel _ hinv.cf_start]
    simp
  | succ k ih =>
    intro u fuel hg hfuel
    have hustart : u ≠ startTileId := by
      intro hx
      subst hx
      rw [hinv.g_start] at hg
      injection hg with hg2
      exact absurd hg2.symm (by exact_mod_cast Nat.succ_ne_zero k)
    obtain ⟨p, hcf⟩ := hinv.g_parent u _ hg hustart
    obtain ⟨hpclosed, hpstep, k2, hgp, hgu⟩ := hinv.parent u p hcf
    have hk2 : k2 = k := by
      rw [hg] at hgu
      injection hgu with hgu2
      have : k + 1 = k2 + 1 := by exact_mod_cast hgu2
      omega
    subst hk2
    obtain ⟨f, rfl⟩ : ∃ f, fuel = f + 1 := ⟨fuel - 1, by omega⟩
    have hstep1 : reconstructPath cameFrom (f + 1) u =
        reconstructPath cameFrom f p ++ [u] := by
      rw [reconstructPath, reconstructPath]
      simp [reconstructChain, hcf]
    obtain ⟨ihh, ihl, ihc, ihlen⟩ := ih p f hgp (by omega)
    have hne : reconstructPath cameFrom f p ≠ [] := by
      intro hx
      rw [hx] at ihlen
      simp at ihlen
    refine ⟨?_, ?_, ?_, ?_⟩
    · rw [hstep1, List.head?_append, ihh]
      rfl
    · rw [hstep1, List.getLast?_concat]
    · rw [hstep1]
      rw [List.chain'_append]
      refine ⟨ihc, List.chain'_singleton u, ?_⟩
      intro x hx y hy
      simp only [List.head?_cons, Option.mem_def, Option.some.injEq] at hy
      subst hy
      rw [ihl] at hx
      simp only [Option.mem_def, Option.some.injEq] at hx
      subst hx
      exact hpstep
    · rw [hstep1]
      simp [ihlen]

/-- The A* invariant without the closed-set expansion property — the
state of affairs in the middle of relaxing the current node's
neighbors. -/
structure AStarPre (nodesById : List (String × PathfindingNode))
    (blockedTileIds : List String) (startTileId destinationTileId : String)
    (cands : List HeapEntry) (closedSet : List String)
    (cameFrom : List (String × String)) (gScore : List (String × ℕ∞)) : Prop where
  g_start : mget gScore startTileId = some 0
  g_real : ∀ u c, mget gScore u = some c → ∃ k : Nat, c = (k : ℕ∞) ∧
    ReachN nodesById blockedTileIds k startTileId u
  settled : ∀ u ∈ closedSet, ∀ n, ReachN nodesById blockedTileIds n startTileId u →
    (mget gScore u).getD ⊤ ≤ (n : ℕ∞)
  parent : ∀ u p, mget cameFrom u = some p → p ∈ closedSet ∧
    stepR nodesById blockedTileIds p u ∧
    ∃ k : Nat, mget gScore p = some (k : ℕ∞) ∧ mget gScore u = some ((k + 1 : Nat) : ℕ∞)
  g_parent : ∀ u c, mget gScore u = some c → u ≠ startTileId →
    ∃ p, mget cameFrom u = some p
  cf_start : mget cameFrom startTileId = none
  entries : ∀ e ∈ cands, ∃ k : Nat,
    e.score = (k : ℕ∞) + heuristicDistance nodesById e.id destinationTileId ∧
    ReachN nodesById blockedTileIds k startTileId e.id ∧
    (mget gScore e.id).getD ⊤ ≤ (k : ℕ∞)
  cover : ∀ u c, u ∉ closedSet → mget gScore u = some c → ∃ e ∈ cands, e.id = u ∧
    e.score ≤ c + heuristicDistance nodesById u destinationTileId
  cand_ids : ∀ e ∈ cands, e.id = startTileId ∨ e.id ∈ nodesById.map Prod.fst
  dest_open : destinationTileId ∉ closedSet

theorem AStarInv.toPre {nodesById : List (String × PathfindingNode)}
    {blockedTileIds : List String} {startTileId destinationTileId : String}
    {cands : List HeapEntry} {closedSet : List String}
    {cameFrom : List (String × String)} {gScore : List (String × ℕ∞)}
    (h : AStarInv nodesById blockedTileIds startTileId destinationTileId cands
      closedSet cameFrom gScore) :
    AStarPre nodesById blockedTileIds startTileId destinationTileId cands
      closedSet cameFrom gScore :=
  ⟨h.g_start, h.g_real, h.settled, h.parent, h.g_parent, h.cf_start, h.entries,
    h.cover, h.cand_ids, h.dest_open⟩

theorem AStarPre.toInv {nodesById : List (String × PathfindingNode)}
    {blockedTileIds : List String} {startTileId destinationTileId : String}
    {cands : List HeapEntry} {closedSet : List String}
    {cameFrom : List (String × String)} {gScore : List (String × ℕ∞)}
    (h : AStarPre nodesById blockedTileIds startTileId destinationTileId cands
      closedSet cameFrom gScore)
    (hexp : ∀ u ∈ closedSet, ∀ v, stepR nodesById blockedTileIds u v →
      (mget gScore v).getD ⊤ ≤ (mget gScore u).getD ⊤ + 1) :
    AStarInv nodesById blockedTileIds startTileId destinationTileId cands
      closedSet cameFrom gScore :=
  ⟨h.g_start, h.g_real, h.settled, hexp, h.parent, h.g_parent, h.cf_start, h.entries,
    h.cover, h.cand_ids, h.dest_open⟩

/-- Correctness of one pass of the neighbor-relaxation loop of part_006:
it preserves the invariant (establishing the expansion property for the
just-closed current node), keeps the heap ordered, and pushes at most
one entry per neighbor. -/
theorem relaxNeighbors_spec (nodesById : List (String × PathfindingNode))
    (blockedTileIds : List String) (startTileId destinationTileId : String)
    (closedSet2 : List String) (current : String) (currentNode : PathfindingNode)
    (kc : Nat)
    (hcn : mget nodesById current = some currentNode)
    (hcur : current ∈ closedSet2) :
    ∀ (neigh : List String) (heap : List HeapEntry)
      (cameFrom : List (String × String)) (gScore : List (String × ℕ∞)),
      mget gScore current = some ((kc : Nat) : ℕ∞) →
      (∀ x ∈ neigh, x ∈ currentNode.neighbors) →
      BinaryMinHeap.HeapOrd heap →
      AStarPre nodesById blockedTileIds startTileId destinationTileId heap
        closedSet2 cameFrom gScore →
      (∀ u ∈ closedSet2, u ≠ current → ∀ v, stepR nodesById blockedTileIds u v →
        (mget gScore v).getD ⊤ ≤ (mget gScore u).getD ⊤ + 1) →
      (∀ v, stepR nodesById blockedTileIds current v → v ∉ neigh →
        (mget gScore v).getD ⊤ ≤ ((kc : Nat) : ℕ∞) + 1) →
      BinaryMinHeap.HeapOrd (PathfindingHeap.relaxNeighbors nodesById destinationTileId
          blockedTileIds closedSet2 current neigh heap cameFrom gScore).1 ∧
      AStarInv nodesById blockedTileIds startTileId destinationTileId
        (PathfindingHeap.relaxNeighbors nodesById destinationTileId blockedTileIds
          closedSet2 current neigh heap cameFrom gScore).1 closedSet2
        (PathfindingHeap.relaxNeighbors nodesById destinationTileId blockedTileIds
          closedSet2 current neigh heap cameFrom gScore).2.1
        (PathfindingHeap.relaxNeighbors nodesById destinationTileId blockedTileIds
          closedSet2 current neigh heap cameFrom gScore).2.2 ∧
      (PathfindingHeap.relaxNeighbors nodesById destinationTileId blockedTileIds
        closedSet2 current neigh heap cameFrom gScore).1.length ≤
          heap.length + neigh.length ∧
      mget (PathfindingHeap.relaxNeighbors nodesById destinationTileId blockedTileIds
        closedSet2 current neigh heap cameFrom gScore).2.2 current =
          some ((kc : Nat) : ℕ∞) := by
  intro neigh
  induction neigh with
  | nil =>
    intro heap cameFrom gScore hgcur hne hord hpre hexpold hexpcur
    simp only [PathfindingHeap.relaxNeighbors]
    refine ⟨hord, hpre.toInv ?_, by simp, hgcur⟩
    intro u hu v hstep
    by_cases hcu : u = current
    · subst hcu
      rw [hgcur]
      simpa using hexpcur v hstep (by simp)
    · exact hexpold u hu hcu v hstep
  | cons v rest ih =>
    intro heap cameFrom gScore hgcur hne hord hpre hexpold hexpcur
    simp only [PathfindingHeap.relaxNeighbors]
    have hnerest : ∀ x ∈ rest, x ∈ currentNode.neighbors :=
      fun x hx => hne x (List.mem_cons_of_mem v hx)
    have hcontinue : (∀ w, stepR nodesById blockedTileIds current w → w ∉ rest →
        (mget gScore w).getD ⊤ ≤ ((kc : Nat) : ℕ∞) + 1) →
        BinaryMinHeap.HeapOrd (PathfindingHeap.relaxNeighbors nodesById destinationTileId
            blockedTileIds closedSet2 current rest heap cameFrom gScore).1 ∧
        AStarInv nodesById blockedTileIds startTileId destinationTileId
          (PathfindingHeap.relaxNeighbors nodesById destinationTileId blockedTileIds
            closedSet2 current rest heap cameFrom gScore).1 closedSet2
          (PathfindingHeap.relaxNeighbors nodesById destinationTileId blockedTileIds
            closedSet2 current rest heap cameFrom gScore).2.1
          (PathfindingHeap.relaxNeighbors nodesById destinationTileId blockedTileIds
            closedSet2 current rest heap cameFrom gScore).2.2 ∧
        (PathfindingHeap.relaxNeighbors nodesById destinationTileId blockedTileIds
          closedSet2 current rest heap cameFrom gScore).1.length ≤
            heap.length + (v :: rest).length ∧
        mget (PathfindingHeap.relaxNeighbors nodesById destinationTileId blockedTileIds
          closedSet2 current rest heap cameFrom gScore).2.2 current =
            some ((kc : Nat) : ℕ∞) := by
      intro hexpcur2
      obtain ⟨a, b, c, d⟩ := ih heap cameFrom gScore hgcur hnerest hord hpre hexpold hexpcur2
      exact ⟨a, b, le_trans c (by simp only [List.length_cons]; omega), d⟩
    have hnotrest : ∀ w, w ∉ (v :: rest) → w ∉ rest := by
      intro w hw hmem
      exact hw (List.mem_cons_of_mem v hmem)
    by_cases hskip : v ∈ closedSet2 ∨ v ∈ blockedTileIds
    · rw [if_pos hskip]
      apply hcontinue
      intro w hstep hwrest
      by_cases hwv : w = v
      · subst hwv
        obtain ⟨nu, nv, h1, h2, hwb, h4, h5⟩ := hstep
        have hwc : w ∈ closedSet2 := by
          rcases hskip with hskip | hskip
          · exact hskip
          · exact absurd hskip hwb
        obtain ⟨k2, hk2, hreach⟩ := hpre.g_real current _ hgcur
        have hk2e : k2 = kc := by exact_mod_cast hk2.symm
        subst hk2e
        have hreach2 : ReachN nodesById blockedTileIds (k2 + 1) startTileId w :=
          ReachN.snoc hreach ⟨nu, nv, h1, h2, hwb, h4, h5⟩
        have := hpre.settled w hwc (k2 + 1) hreach2
        simpa using this
      · exact hexpcur w hstep (by
          intro hmem
          rcases List.mem_cons.1 hmem with h1 | h1
          · exact hwv h1
          · exact hwrest h1)
    · rw [if_neg hskip]
      rcases hnv : mget nodesById v with _ | nv
      · apply hcontinue
        intro w hstep hwrest
        by_cases hwv : w = v
        · subst hwv
          obtain ⟨nu, nv2, _, _, _, hnv2, _⟩ := hstep
          rw [hnv] at hnv2
          cases hnv2
        · exact hexpcur w hstep (by
            intro hmem
            rcases List.mem_cons.1 hmem with h1 | h1
            · exact hwv h1
            · exact hwrest h1)
      dsimp only
      by_cases hwalk : nv.walkable = false
      · rw [if_pos hwalk]
        apply hcontinue
        intro w hstep hwrest
        by_cases hwv : w = v
        · subst hwv
          obtain ⟨nu, nv2, _, _, _, hnv2, hnw⟩ := hstep
          rw [hnv] at hnv2
          injection hnv2 with hnv3
          subst hnv3
          rw [hwalk] at hnw
          cases hnw
        · exact hexpcur w hstep (by
            intro hmem
            rcases List.mem_cons.1 hmem with h1 | h1
            · exact hwv h1
            · exact hwrest h1)
      · rw [if_neg hwalk]
        rw [hgcur]
        simp only [Option.getD_some]
        by_cases hcmp : (mget gScore v).getD ⊤ ≤ ((kc : Nat) : ℕ∞) + 1
        · rw [if_pos hcmp]
          apply hcontinue
          intro w hstep hwrest
          by_cases hwv : w = v
          · subst hwv
            simpa using hcmp
          · exact hexpcur w hstep (by
              intro hmem
              rcases List.mem_cons.1 hmem with h1 | h1
              · exact hwv h1
              · exact hwrest h1)
        · rw [if_neg hcmp]
          have hvnc : v ∉ closedSet2 := fun hx => hskip (Or.inl hx)
          have hvnb : v ∉ blockedTileIds := fun hx => hskip (Or.inr hx)
          have hwalk2 : nv.walkable = true := by
            revert hwalk
            cases nv.walkable <;> simp
          have hstepcv : stepR nodesById blockedTileIds current v :=
            ⟨currentNode, nv, hcn, hne v (List.mem_cons_self v rest), hvnb, hnv, hwalk2⟩
          have hvcur : v ≠ current := fun hx => hvnc (hx ▸ hcur)
          have hvstart : v ≠ startTileId := by
            intro hx
            subst hx
            rw [hpre.g_start] at hcmp
            simp at hcmp
          obtain ⟨k2, hk2, hreachc⟩ := hpre.g_real current _ hgcur
          have hk2e : k2 = kc := by exact_mod_cast hk2.symm
          subst hk2e
          have hreachv : ReachN nodesById blockedTileIds (k2 + 1) startTileId v :=
            ReachN.snoc hreachc hstepcv
          have hcast : ((k2 : Nat) : ℕ∞) + 1 = (((k2 + 1 : Nat)) : ℕ∞) := by
            push_cast
            ring
          have hvmem : v ∈ nodesById.map Prod.fst := mem_keys_of_mget hnv
          have hglt : ∀ u, (mget (mset gScore v (((k2 : Nat) : ℕ∞) + 1)) u).getD ⊤ ≤
              (mget gScore u).getD ⊤ := by
            intro u
            by_cases huv : u = v
            · subst huv
              rw [mget_mset_self]
              exact le_of_not_le hcmp
            · rw [mget_mset_ne _ _ _ _ huv]
          have hgne : ∀ u, u ≠ v →
              mget (mset gScore v (((k2 : Nat) : ℕ∞) + 1)) u = mget gScore u :=
            fun u huv => mget_mset_ne _ _ _ _ huv
          have hmemheap : ∀ e, e ∈ BinaryMinHeap.push heap v
              (((k2 : Nat) : ℕ∞) + 1 + heuristicDistance nodesById v destinationTileId) ↔
              (e ∈ heap ∨ e = { id := v, score := ((k2 : Nat) : ℕ∞) + 1 +
                heuristicDistance nodesById v destinationTileId }) := by
            intro e
            rw [(BinaryMinHeap.push_perm heap v _).mem_iff]
            simp
          have hpre2 : AStarPre nodesById blockedTileIds startTileId destinationTileId
              (BinaryMinHeap.push heap v (((k2 : Nat) : ℕ∞) + 1 +
                heuristicDistance nodesById v destinationTileId)) closedSet2
              (mset cameFrom v current) (mset gScore v (((k2 : Nat) : ℕ∞) + 1)) := by
            refine ⟨?_, ?_, ?_, ?_, ?_, ?_, ?_, ?_, ?_, hpre.dest_open⟩
            · rw [hgne startTileId (fun hx => hvstart hx.symm)]
              exact hpre.g_start
            · intro u c huc
              by_cases huv : u = v
              · subst huv
                rw [mget_mset_self] at huc
                injection huc with hc2
                exact ⟨k2 + 1, by rw [← hc2, hcast], hreachv⟩
              · rw [hgne u huv] at huc
                exact hpre.g_real u c huc
            · intro u hu n hr
              have huv : u ≠ v := fun hx => hvnc (hx ▸ hu)
              rw [hgne u huv]
              exact hpre.settled u hu n hr
            · intro u p hup
              by_cases huv : u = v
              · subst huv
                rw [mget_mset_self] at hup
                injection hup with hp2
                subst hp2
                refine ⟨hcur, hstepcv, k2, ?_, ?_⟩
                · rw [hgne _ (fun hx => hvcur hx.symm)]
                  exact hgcur
                · rw [mget_mset_self, hcast]
              · rw [mget_mset_ne _ _ _ _ huv] at hup
                obtain ⟨hpc, hpstep, k3, hk3, hk4⟩ := hpre.parent u p hup
                have hpv : p ≠ v := fun hx => hvnc (hx ▸ hpc)
                exact ⟨hpc, hpstep, k3, by rw [hgne p hpv]; exact hk3,
                  by rw [hgne u huv]; exact hk4⟩
            · intro u c huc hustart
              by_cases huv : u = v
              · subst huv
                exact ⟨current, mget_mset_self _ _ _⟩
              · rw [hgne u huv] at huc
                obtain ⟨p, hp⟩ := hpre.g_parent u c huc hustart
                exact ⟨p, by rw [mget_mset_ne _ _ _ _ huv]; exact hp⟩
            · rw [mget_mset_ne _ _ _ _ (fun hx => hvstart hx.symm)]
              exact hpre.cf_start
            · intro e he
              rw [hmemheap e] at he
              rcases he with he | rfl
              · obtain ⟨k3, hs, hr, hb⟩ := hpre.entries e he
                refine ⟨k3, hs, hr, le_trans (hglt e.id) hb⟩
              · refine ⟨k2 + 1, by rw [hcast], hreachv, ?_⟩
                simp only [mget_mset_self, Option.getD_some, hcast]
                exact le_refl _
            · intro u c hunc huc
              by_cases huv : u = v
              · subst huv
                rw [mget_mset_self] at huc
                injection huc with hc2
                refine ⟨{ id := u, score := ((k2 : Nat) : ℕ∞) + 1 +
                  heuristicDistance nodesById u destinationTileId },
                  (hmemheap _).2 (Or.inr rfl), rfl, ?_⟩
                rw [← hc2]
              · rw [hgne u huv] at huc
                obtain ⟨e, he, hei, hes⟩ := hpre.cover u c hunc huc
                exact ⟨e, (hmemheap e).2 (Or.inl he), hei, hes⟩
            · intro e he
              rw [hmemheap e] at he
              rcases he with he | rfl
              · exact hpre.cand_ids e he
              · exact Or.inr hvmem
          have hexpold2 : ∀ u ∈ closedSet2, u ≠ current →
              ∀ w, stepR nodesById blockedTileIds u w →
              (mget (mset gScore v (((k2 : Nat) : ℕ∞) + 1)) w).getD ⊤ ≤
                (mget (mset gScore v (((k2 : Nat) : ℕ∞) + 1)) u).getD ⊤ + 1 := by
            intro u hu hucur w hstep
            have huv : u ≠ v := fun hx => hvnc (hx ▸ hu)
            rw [hgne u huv]
            exact le_trans (hglt w) (hexpold u hu hucur w hstep)
          have hexpcur2 : ∀ w, stepR nodesById blockedTileIds current w → w ∉ rest →
              (mget (mset gScore v (((k2 : Nat) : ℕ∞) + 1)) w).getD ⊤ ≤
                ((k2 : Nat) : ℕ∞) + 1 := by
            intro w hstep hwrest
            by_cases hwv : w = v
            · subst hwv
              rw [mget_mset_self]
              simp
            · rw [hgne w hwv]
              exact hexpcur w hstep (by
                intro hmem
                rcases List.mem_cons.1 hmem with h1 | h1
                · exact hwv h1
                · exact hwrest h1)
          obtain ⟨a, b, c, d⟩ := ih
            (BinaryMinHeap.push heap v (((k2 : Nat) : ℕ∞) + 1 +
              heuristicDistance nodesById v destinationTileId))
            (mset cameFrom v current) (mset gScore v (((k2 : Nat) : ℕ∞) + 1))
            (by rw [hgne current (fun hx => hvcur hx.symm)]; exact hgcur)
            hnerest (BinaryMinHeap.push_ord heap v _ hord) hpre2 hexpold2 hexpcur2
          refine ⟨a, b, ?_, d⟩
          have hplen : (BinaryMinHeap.push heap v (((k2 : Nat) : ℕ∞) + 1 +
              heuristicDistance nodesById v destinationTileId)).length =
                heap.length + 1 := by
            rw [(BinaryMinHeap.push_perm heap v _).length_eq]
            simp
          rw [hplen] at c
          refine le_trans c (by simp only [List.length_cons]; omega)

theorem mem_sadd {α : Type _} [DecidableEq α] (s : List α) (a b : α) :
    b ∈ sadd s a ↔ b ∈ s ∨ b = a := by
  rw [sadd]
  split
  · next hmem =>
    constructor
    · exact Or.inl
    · rintro (h | rfl)
      · exact h
      · exact hmem
  · simp

/-- Number of map nodes not yet closed (the potential of the fuel
measure). -/
def unclosedCount (nodesById : List (String × PathfindingNode))
    (closedSet : List String) : Nat :=
  (nodesById.map Prod.fst).countP (fun x => decide (x ∉ closedSet))

theorem countP_sadd_aux (closedSet : List String) (current : String) :
    ∀ K : List String, K.Nodup → current ∈ K → current ∉ closedSet →
      K.countP (fun x => decide (x ∉ sadd closedSet current)) + 1 =
        K.countP (fun x => decide (x ∉ closedSet)) := by
  intro K
  induction K with
  | nil => intro _ hmem _; cases hmem
  | cons y rest ih =>
    intro hknd hmem hnc
    simp only [List.nodup_cons] at hknd
    rcases List.mem_cons.1 hmem with rfl | hmem2
    · have hsame : rest.countP (fun x => decide (x ∉ sadd closedSet current)) =
          rest.countP (fun x => decide (x ∉ closedSet)) := by
        apply List.countP_congr
        intro x hx
        have hxy : x ≠ current := fun hh => hknd.1 (hh ▸ hx)
        simp [mem_sadd, hxy]
      simp only [List.countP_cons, hsame]
      have h1 : decide (current ∉ sadd closedSet current) = false := by
        simp [mem_sadd]
      have h2 : decide (current ∉ closedSet) = true := by
        simp [hnc]
      rw [h1, h2]
      simp
    · have hyc : y ≠ current := fun hh => hknd.1 (hh ▸ hmem2)
      simp only [List.countP_cons]
      have heq : decide (y ∉ sadd closedSet current) = decide (y ∉ closedSet) := by
        by_cases hyb : y ∈ closedSet
        · simp [mem_sadd, hyb]
        · simp [mem_sadd, hyb, hyc]
      rw [heq]
      have := ih hknd.2 hmem2 hnc
      omega

theorem unclosedCount_sadd (nodesById : List (String × PathfindingNode))
    (closedSet : List String) (current : String)
    (hknd : (nodesById.map Prod.fst).Nodup)
    (hmem : current ∈ nodesById.map Prod.fst) (hnc : current ∉ closedSet) :
    unclosedCount nodesById (sadd closedSet current) + 1 =
      unclosedCount nodesById closedSet :=
  countP_sadd_aux closedSet current (nodesById.map Prod.fst) hknd hmem hnc

theorem unclosedCount_le (nodesById : List (String × PathfindingNode))
    (closedSet : List String) :
    unclosedCount nodesById closedSet ≤ nodesById.length := by
  rw [unclosedCount]
  calc (nodesById.map Prod.fst).countP _ ≤ (nodesById.map Prod.fst).length :=
        List.countP_le_length _
    _ = nodesById.length := List.length_map _ _

theorem nodup_subset_length {α : Type _} [DecidableEq α] (s t : List α)
    (hnd : s.Nodup) (hsub : ∀ x ∈ s, x ∈ t) : s.length ≤ t.length := by
  calc s.length = s.toFinset.card := (List.toFinset_card_of_nodup hnd).symm
    _ ≤ t.toFinset.card := Finset.card_le_card (by
        intro x hx
        rw [List.mem_toFinset] at hx ⊢
        exact hsub x hx)
    _ ≤ t.length := t.toFinset_card_le

/-- Any finite g-score is bounded by the size of the cameFrom map: the
parent chain below it visits that many distinct keys. -/
theorem g_le_cameFrom_length (nodesById : List (String × PathfindingNode))
    (blockedTileIds : List String) (startTileId destinationTileId : String)
    (cands : List HeapEntry) (closedSet : List String)
    (cameFrom : List (String × String)) (gScore : List (String × ℕ∞))
    (hinv : AStarInv nodesById blockedTileIds startTileId destinationTileId cands
      closedSet cameFrom gScore) :
    ∀ (kd : Nat) (u : String), mget gScore u = some ((kd : Nat) : ℕ∞) →
      kd ≤ cameFrom.length := by
  have aux : ∀ (kd : Nat) (u : String), mget gScore u = some ((kd : Nat) : ℕ∞) →
      ∃ S : List String, S.Nodup ∧ S.length = kd ∧
        (∀ x ∈ S, x ∈ cameFrom.map Prod.fst ∧
          ∃ j : Nat, 1 ≤ j ∧ j ≤ kd ∧ mget gScore x = some ((j : Nat) : ℕ∞)) := by
    intro kd
    induction kd with
    | zero => exact fun u _ => ⟨[], List.nodup_nil, rfl, by simp⟩
    | succ k ih =>
      intro u hu
      have hustart : u ≠ startTileId := by
        intro hx
        subst hx
        rw [hinv.g_start] at hu
        injection hu with h2
        exact absurd h2 (by exact_mod_cast (Nat.succ_ne_zero k).symm)
      obtain ⟨p, hp⟩ := hinv.g_parent u _ hu hustart
      obtain ⟨_, _, k2, hk2, hk3⟩ := hinv.parent u p hp
      have hk2e : k2 = k := by
        rw [hu] at hk3
        injection hk3 with h3
        have : k + 1 = k2 + 1 := by exact_mod_cast h3
        omega
      rw [hk2e] at hk2
      obtain ⟨S, hnd, hlen, hmem⟩ := ih p hk2
      refine ⟨u :: S, ?_, by simp [hlen], ?_⟩
      · rw [List.nodup_cons]
        refine ⟨?_, hnd⟩
        intro hus
        obtain ⟨_, j, hj1, hj2, hj3⟩ := hmem u hus
        rw [hu] at hj3
        injection hj3 with h4
        have : k + 1 = j := by exact_mod_cast h4
        omega
      · intro x hx
        rcases List.mem_cons.1 hx with rfl | hx2
        · exact ⟨mem_keys_of_mget hp, k + 1, by omega, le_refl _, hu⟩
        · obtain ⟨hxk, j, hj1, hj2, hj3⟩ := hmem x hx2
          exact ⟨hxk, j, hj1, by omega, hj3⟩
  intro kd u hu
  obtain ⟨S, hnd, hlen, hmem⟩ := aux kd u hu
  calc kd = S.length := hlen.symm
    _ ≤ (cameFrom.map Prod.fst).length :=
        nodup_subset_length _ _ hnd (fun x hx => (hmem x hx).1)
    _ = cameFrom.length := List.length_map _ _

/-- Full correctness of part_006's A* loop: with the invariant and
enough fuel, a returned path is a minimum-length relaxable path from
start to destination, and a none result means the destination is
unreachable. -/
theorem searchLoop_correct (nodesById : List (String × PathfindingNode))
    (blockedTileIds : List String) (startTileId destinationTileId : String)
    (hknd : (nodesById.map Prod.fst).Nodup)
    (hsmem : startTileId ∈ nodesById.map Prod.fst)
    (nd : PathfindingNode) (hdmem : mget nodesById destinationTileId = some nd)
    (hcons : ∀ u v, stepR nodesById blockedTileIds u v →
      heuristicDistance nodesById u destinationTileId ≤
        heuristicDistance nodesById v destinationTileId + 1)
    (hnb : ∀ i n, mget nodesById i = some n → n.neighbors.length ≤ 4) :
    ∀ (fuel : Nat) (heap : List HeapEntry) (closedSet : List String)
      (cameFrom : List (String × String)) (gScore : List (String × ℕ∞)),
      BinaryMinHeap.HeapOrd heap →
      AStarInv nodesById blockedTileIds startTileId destinationTileId heap closedSet
        cameFrom gScore →
      heap.length + 5 * unclosedCount nodesById closedSet + 1 ≤ fuel →
      (∀ p, PathfindingHeap.searchLoop nodesById destinationTileId blockedTileIds fuel
          heap closedSet cameFrom gScore = some p →
        ∃ k : Nat, p.head? = some startTileId ∧ p.getLast? = some destinationTileId ∧
          List.Chain' (stepR nodesById blockedTileIds) p ∧ p.length = k + 1 ∧
          ReachN nodesById blockedTileIds k startTileId destinationTileId ∧
          (∀ n, ReachN nodesById blockedTileIds n startTileId destinationTileId →
            k ≤ n)) ∧
      (PathfindingHeap.searchLoop nodesById destinationTileId blockedTileIds fuel heap
          closedSet cameFrom gScore = none →
        ∀ n, ¬ReachN nodesById blockedTileIds n startTileId destinationTileId) := by
  intro fuel
  induction fuel with
  | zero =>
    intro heap closedSet cameFrom gScore _ _ hmeas
    omega
  | succ fuel ih =>
    intro heap closedSet cameFrom gScore hord hinv hmeas
    rcases hhp : heap with _ | ⟨e0, hrest⟩
    · subst hhp
      constructor
      · intro p hp
        simp [PathfindingHeap.searchLoop, BinaryMinHeap.pop] at hp
      · intro _ n hreach
        obtain ⟨e, hmem, _⟩ := frontier_entry nodesById blockedTileIds startTileId
          destinationTileId [] closedSet cameFrom gScore hinv hcons n destinationTileId
          hreach hinv.dest_open
        cases hmem
    · subst hhp
      obtain ⟨rest2, hpop, hperm, hord2⟩ := BinaryMinHeap.pop_spec _ hord e0 hrest rfl
      have hmin : ∀ f ∈ (e0 :: hrest), e0.score ≤ f.score :=
        BinaryMinHeap.root_min_mem _ hord e0 hrest rfl
      simp only [PathfindingHeap.searchLoop, hpop]
      by_cases hdest : e0.id = destinationTileId
      · rw [if_pos hdest]
        constructor
        · intro p hp
          injection hp with hp2
          obtain ⟨k0, hscore, hreach0, hgb⟩ := hinv.entries e0 (List.mem_cons_self _ _)
          have hh0 : heuristicDistance nodesById destinationTileId destinationTileId
              = 0 := heuristicDistance_self _ _ nd hdmem
          rw [hdest] at hscore hreach0 hgb
          rcases hg : mget gScore destinationTileId with _ | c
          · rw [hg] at hgb
            simp only [Option.getD_none] at hgb
            exact absurd (top_le_iff.1 hgb) (ENat.coe_lt_top k0).ne
          obtain ⟨kd, hkd, hreachd⟩ := hinv.g_real _ _ hg
          subst hkd
          have hkdk0 : kd ≤ k0 := by
            rw [hg] at hgb
            simp only [Option.getD_some] at hgb
            exact_mod_cast hgb
          have hfuel2 : kd ≤ cameFrom.length + 1 := by
            have := g_le_cameFrom_length nodesById blockedTileIds startTileId
              destinationTileId (e0 :: hrest) closedSet cameFrom gScore hinv kd
              destinationTileId hg
            omega
          obtain ⟨hh, hl, hc, hlen⟩ := reconstruct_spec nodesById blockedTileIds
            startTileId destinationTileId (e0 :: hrest) closedSet cameFrom gScore hinv
            kd destinationTileId (cameFrom.length + 1) hg hfuel2
          rw [hdest] at hp2
          rw [← hp2]
          refine ⟨kd, hh, hl, hc, hlen, hreachd, ?_⟩
          intro n hreachn
          obtain ⟨e', he', hb⟩ := frontier_entry nodesById blockedTileIds startTileId
            destinationTileId (e0 :: hrest) closedSet cameFrom gScore hinv hcons n
            destinationTileId hreachn hinv.dest_open
          have h1 : e0.score ≤ e'.score := hmin e' he'
          rw [hscore, hh0, add_zero] at h1
          rw [hh0, add_zero] at hb
          have h2 : (k0 : ℕ∞) ≤ (n : ℕ∞) := le_trans h1 hb
          have h3 : k0 ≤ n := by exact_mod_cast h2
          omega
        · intro hcon
          cases hcon
      · rw [if_neg hdest]
        by_cases hclosed : e0.id ∈ closedSet
        · rw [if_pos hclosed]
          have hinv2 : AStarInv nodesById blockedTileIds startTileId destinationTileId
              rest2 closedSet cameFrom gScore := by
            refine ⟨hinv.g_start, hinv.g_real, hinv.settled, hinv.expanded, hinv.parent,
              hinv.g_parent, hinv.cf_start, ?_, ?_, ?_, hinv.dest_open⟩
            · intro e he
              exact hinv.entries e (List.mem_cons_of_mem _ (hperm.mem_iff.1 he))
            · intro u c hunc huc
              obtain ⟨e, he, hei, hes⟩ := hinv.cover u c hunc huc
              rcases List.mem_cons.1 he with rfl | he2
              · rw [hei] at hclosed
                exact absurd hclosed hunc
              · exact ⟨e, hperm.mem_iff.2 he2, hei, hes⟩
            · intro e he
              exact hinv.cand_ids e (List.mem_cons_of_mem _ (hperm.mem_iff.1 he))
          apply ih rest2 closedSet cameFrom gScore hord2 hinv2
          have hl2 : rest2.length = hrest.length := hperm.length_eq
          simp only [List.length_cons] at hmeas
          omega
        · rw [if_neg hclosed]
          have hcid : e0.id ∈ nodesById.map Prod.fst := by
            rcases hinv.cand_ids e0 (List.mem_cons_self _ _) with h | h
            · rw [h]
              exact hsmem
            · exact h
          rcases hcn : mget nodesById e0.id with _ | ncur
          · exact absurd hcid ((mget_eq_none_iff _ _).1 hcn)
          dsimp only
          have hfin : heuristicDistance nodesById e0.id destinationTileId ≠ ⊤ := by
            rw [heuristicDistance, hcn, hdmem]
            exact (ENat.coe_lt_top _).ne
          obtain ⟨k0, hscore, hreach0, hgb⟩ := hinv.entries e0 (List.mem_cons_self _ _)
          rcases hg : mget gScore e0.id with _ | c
          · rw [hg] at hgb
            simp only [Option.getD_none] at hgb
            exact absurd (top_le_iff.1 hgb) (ENat.coe_lt_top k0).ne
          obtain ⟨kc, hkc, hreachc⟩ := hinv.g_real _ _ hg
          subst hkc
          have hkck0 : kc ≤ k0 := by
            rw [hg] at hgb
            simp only [Option.getD_some] at hgb
            exact_mod_cast hgb
          have hsettle : ∀ n, ReachN nodesById blockedTileIds n startTileId e0.id →
              kc ≤ n := by
            intro n hrn
            obtain ⟨e', he', hb⟩ := frontier_entry nodesById blockedTileIds startTileId
              destinationTileId (e0 :: hrest) closedSet cameFrom gScore hinv hcons n
              e0.id hrn hclosed
            have h1 : e0.score ≤ e'.score := hmin e' he'
            rw [hscore] at h1
            have h2 := le_trans h1 hb
            rw [WithTop.add_le_add_iff_right hfin] at h2
            have h3 : k0 ≤ n := by exact_mod_cast h2
            omega
          have hc2mem : e0.id ∈ sadd closedSet e0.id := (mem_sadd _ _ _).2 (Or.inr rfl)
          have hsubc : ∀ u, u ∈ closedSet → u ∈ sadd closedSet e0.id :=
            fun u hu => (mem_sadd _ _ _).2 (Or.inl hu)
          have hpre2 : AStarPre nodesById blockedTileIds startTileId destinationTileId
              rest2 (sadd closedSet e0.id) cameFrom gScore := by
            refine ⟨hinv.g_start, hinv.g_real, ?_, ?_, hinv.g_parent, hinv.cf_start,
              ?_, ?_, ?_, ?_⟩
            · intro u hu n hrn
              rcases (mem_sadd _ _ _).1 hu with hu2 | rfl
              · exact hinv.settled u hu2 n hrn
              · rw [hg]
                simp only [Option.getD_some]
                exact_mod_cast hsettle n hrn
            · intro u p hup
              obtain ⟨hpc, hpstep, k3, h3, h4⟩ := hinv.parent u p hup
              exact ⟨hsubc p hpc, hpstep, k3, h3, h4⟩
            · intro e he
              exact hinv.entries e (List.mem_cons_of_mem _ (hperm.mem_iff.1 he))
            · intro u c2 hunc huc
              have hunc2 : u ∉ closedSet := fun hx => hunc (hsubc u hx)
              have hune : u ≠ e0.id := by
                intro hx
                exact hunc (hx ▸ hc2mem)
              obtain ⟨e, he, hei, hes⟩ := hinv.cover u c2 hunc2 huc
              rcases List.mem_cons.1 he with rfl | he2
              · exact absurd hei.symm hune
              · exact ⟨e, hperm.mem_iff.2 he2, hei, hes⟩
            · intro e he
              exact hinv.cand_ids e (List.mem_cons_of_mem _ (hperm.mem_iff.1 he))
            · intro hx
              rcases (mem_sadd _ _ _).1 hx with hx2 | hx2
              · exact hinv.dest_open hx2
              · exact hdest hx2.symm
          have hexpold : ∀ u ∈ sadd closedSet e0.id, u ≠ e0.id →
              ∀ v, stepR nodesById blockedTileIds u v →
              (mget gScore v).getD ⊤ ≤ (mget gScore u).getD ⊤ + 1 := by
            intro u hu hue v hstep
            rcases (mem_sadd _ _ _).1 hu with hu2 | hu2
            · exact hinv.expanded u hu2 v hstep
            · exact absurd hu2 hue
          have hexpcur : ∀ v, stepR nodesById blockedTileIds e0.id v →
              v ∉ ncur.neighbors →
              (mget gScore v).getD ⊤ ≤ ((kc : Nat) : ℕ∞) + 1 := by
            intro v hstep hvn
            obtain ⟨nu, nv, h1, h2, _, _, _⟩ := hstep
            rw [hcn] at h1
            injection h1 with h1b
            subst h1b
            exact absurd h2 hvn
          obtain ⟨hordR, hinvR, hlenR, hgR⟩ := relaxNeighbors_spec nodesById
            blockedTileIds startTileId destinationTileId (sadd closedSet e0.id) e0.id
            ncur kc hcn hc2mem ncur.neighbors rest2 cameFrom gScore hg
            (fun x hx => hx) hord2 hpre2 hexpold hexpcur
          rcases hrel : PathfindingHeap.relaxNeighbors nodesById destinationTileId
              blockedTileIds (sadd closedSet e0.id) e0.id ncur.neighbors rest2 cameFrom
              gScore with ⟨heap2, cameFrom2, gScore2⟩
          rw [hrel] at hordR hinvR hlenR
          have hlenR2 : heap2.length ≤ rest2.length + ncur.neighbors.length := hlenR
          apply ih heap2 (sadd closedSet e0.id) cameFrom2 gScore2 hordR hinvR
          have hl2 : rest2.length = hrest.length := hperm.length_eq
          have hnb2 : ncur.neighbors.length ≤ 4 := hnb _ _ hcn
          have huc := unclosedCount_sadd nodesById closedSet e0.id hknd hcid hclosed
          simp only [List.length_cons] at hmeas
          omega

theorem createNodesById_neighbors_le (tiles : List Tile) (i : String)
    (n : PathfindingNode) (h : mget (createNodesById tiles) i = some n) :
    n.neighbors.length ≤ 4 := by
  rw [createNodesById] at h
  rcases mget_foldl_mset_inv Tile.id _ tiles [] i n h with ⟨t, _, _, hval⟩ | hbase
  · rw [← hval]
    calc (List.filterMap id _).length ≤ _ := List.length_filterMap_le _ _
      _ ≤ 4 := by simp
  · simp [mget] at hbase

/-- The initial A* state of both variants satisfies the invariant. -/
theorem initial_inv (nodesById : List (String × PathfindingNode))
    (blockedTileIds : List String) (startTileId destinationTileId : String) :
    AStarInv nodesById blockedTileIds startTileId destinationTileId
      [{ id := startTileId,
         score := heuristicDistance nodesById startTileId destinationTileId }] [] []
      [(startTileId, (0 : ℕ∞))] := by
  refine ⟨by simp [mget], ?_, by simp, by simp, ?_, ?_, rfl, ?_, ?_, ?_, by simp⟩
  · intro u c huc
    rcases hsu : decide (startTileId = u) with _ | _
    · rw [mget] at huc
      rw [if_neg (by simpa using hsu)] at huc
      simp [mget] at huc
    · have : startTileId = u := by simpa using hsu
      subst this
      rw [mget, if_pos rfl] at huc
      injection huc with hc
      exact ⟨0, by rw [← hc]; simp, ReachN.refl _⟩
  · intro u p hup
    simp [mget] at hup
  · intro u c huc hustart
    by_cases hsu : startTileId = u
    · exact absurd hsu.symm hustart
    · rw [mget, if_neg hsu] at huc
      simp [mget] at huc
  · intro e he
    simp only [List.mem_singleton] at he
    subst he
    refine ⟨0, by simp, ReachN.refl _, ?_⟩
    simp [mget]
  · intro u c _ huc
    by_cases hsu : startTileId = u
    · subst hsu
      rw [mget, if_pos rfl] at huc
      injection huc with hc
      refine ⟨_, List.mem_singleton_self _, rfl, ?_⟩
      rw [← hc]
      simp
    · rw [mget, if_neg hsu] at huc
      simp [mget] at huc
  · intro e he
    simp only [List.mem_singleton] at he
    subst he
    exact Or.inl rfl

/-- End-to-end correctness of part_006's findShortestPath on a map with
distinct keys containing the start and destination. -/
theorem findShortestPathHeap_correct (nodesById : List (String × PathfindingNode))
    (blockedTileIds : List String) (startTileId destinationTileId : String)
    (hknd : (nodesById.map Prod.fst).Nodup)
    (hsmem : startTileId ∈ nodesById.map Prod.fst)
    (nd : PathfindingNode) (hdmem : mget nodesById destinationTileId = some nd)
    (hcons : ∀ u v, stepR nodesById blockedTileIds u v →
      heuristicDistance nodesById u destinationTileId ≤
        heuristicDistance nodesById v destinationTileId + 1)
    (hnb : ∀ i n, mget nodesById i = some n → n.neighbors.length ≤ 4) :
    (∀ p, PathfindingHeap.findShortestPath nodesById startTileId destinationTileId
        blockedTileIds = some p →
      ∃ k : Nat, p.head? = some startTileId ∧ p.getLast? = some destinationTileId ∧
        List.Chain' (stepR nodesById blockedTileIds) p ∧ p.length = k + 1 ∧
        ReachN nodesById blockedTileIds k startTileId destinationTileId ∧
        (∀ n, ReachN nodesById blockedTileIds n startTileId destinationTileId →
          k ≤ n)) ∧
    (PathfindingHeap.findShortestPath nodesById startTileId destinationTileId
        blockedTileIds = none →
      ∀ n, ¬ReachN nodesById blockedTileIds n startTileId destinationTileId) := by
  have hpush : BinaryMinHeap.push [] startTileId
      (heuristicDistance nodesById startTileId destinationTileId) =
      [{ id := startTileId,
         score := heuristicDistance nodesById startTileId destinationTileId }] := rfl
  have hord0 : BinaryMinHeap.HeapOrd
      [{ id := startTileId,
         score := heuristicDistance nodesById startTileId destinationTileId }] := by
    intro j hj
    rw [BinaryMinHeap.scoreAt_oob _ j (by simpa using hj)]
    exact le_top
  have hmeas : (1 : Nat) + 5 * unclosedCount nodesById [] + 1 ≤
      5 * nodesById.length + 2 := by
    have : unclosedCount nodesById [] ≤ nodesById.length := unclosedCount_le _ _
    omega
  have hmain := searchLoop_correct nodesById blockedTileIds startTileId
    destinationTileId hknd hsmem nd hdmem hcons hnb (5 * nodesById.length + 2)
    [{ id := startTileId,
       score := heuristicDistance nodesById startTileId destinationTileId }] [] []
    [(startTileId, (0 : ℕ∞))] hord0
    (initial_inv nodesById blockedTileIds startTileId destinationTileId)
    (by simpa using hmeas)
  rw [PathfindingHeap.findShortestPath, hpush]
  exact hmain

/-! ### Correctness of part_005's linear-scan variant -/

theorem pickLowestScore_spec (openSet : List String) (fScore : List (String × ℕ∞)) :
    (PathfindingScan.pickLowestScore openSet fScore = none →
      ∀ w ∈ openSet, (mget fScore w).getD ⊤ = ⊤) ∧
    (∀ u, PathfindingScan.pickLowestScore openSet fScore = some u →
      u ∈ openSet ∧
      (∀ w ∈ openSet, (mget fScore u).getD ⊤ ≤ (mget fScore w).getD ⊤)) := by
  have aux : ∀ (l : List String) (st : Option String × ℕ∞),
      (st.1 = none → st.2 = ⊤) →
      (∀ u, st.1 = some u → st.2 = (mget fScore u).getD ⊤) →
      ((l.foldl (fun best tileId =>
          if (mget fScore tileId).getD ⊤ < best.2
          then (some tileId, (mget fScore tileId).getD ⊤) else best) st).1 = none →
        st.1 = none ∧
        (l.foldl (fun best tileId =>
          if (mget fScore tileId).getD ⊤ < best.2
          then (some tileId, (mget fScore tileId).getD ⊤) else best) st).2 = ⊤) ∧
      (∀ u, (l.foldl (fun best tileId =>
          if (mget fScore tileId).getD ⊤ < best.2
          then (some tileId, (mget fScore tileId).getD ⊤) else best) st).1 = some u →
        ((st.1 = some u ∧ (l.foldl (fun best tileId =>
          if (mget fScore tileId).getD ⊤ < best.2
          then (some tileId, (mget fScore tileId).getD ⊤) else best) st).2 = st.2) ∨
         (u ∈ l ∧ (l.foldl (fun best tileId =>
          if (mget fScore tileId).getD ⊤ < best.2
          then (some tileId, (mget fScore tileId).getD ⊤) else best) st).2 =
            (mget fScore u).getD ⊤))) ∧
      (l.foldl (fun best tileId =>
          if (mget fScore tileId).getD ⊤ < best.2
          then (some tileId, (mget fScore tileId).getD ⊤) else best) st).2 ≤ st.2 ∧
      (∀ w ∈ l, (l.foldl (fun best tileId =>
          if (mget fScore tileId).getD ⊤ < best.2
          then (some tileId, (mget fScore tileId).getD ⊤) else best) st).2 ≤
            (mget fScore w).getD ⊤) := by
    intro l
    induction l with
    | nil =>
      intro st h1 h2
      exact ⟨fun hn => ⟨hn, h1 hn⟩, fun u hu => Or.inl ⟨hu, rfl⟩, le_refl _, by simp⟩
    | cons x rest ih =>
      intro st h1 h2
      simp only [List.foldl_cons]
      by_cases hlt : (mget fScore x).getD ⊤ < st.2
      · rw [if_pos hlt]
        obtain ⟨ih1, ih2, ih3, ih4⟩ := ih (some x, (mget fScore x).getD ⊤)
          (by intro h; cases h) (by
            intro u hu
            injection hu with hu2
            rw [hu2])
        refine ⟨?_, ?_, ?_, ?_⟩
        · intro hn
          obtain ⟨hc, _⟩ := ih1 hn
          cases hc
        · intro u hu
          rcases ih2 u hu with ⟨hs, heq⟩ | ⟨hmem, heq⟩
          · injection hs with hs2
            exact Or.inr ⟨by rw [hs2]; exact List.mem_cons_self _ _, by rw [heq, hs2]⟩
          · exact Or.inr ⟨List.mem_cons_of_mem _ hmem, heq⟩
        · exact le_trans ih3 (le_of_lt hlt)
        · intro w hw
          rcases List.mem_cons.1 hw with rfl | hw2
          · exact ih3
          · exact ih4 w hw2
      · rw [if_neg hlt]
        obtain ⟨ih1, ih2, ih3, ih4⟩ := ih st h1 h2
        refine ⟨ih1, ?_, ih3, ?_⟩
        · intro u hu
          rcases ih2 u hu with ⟨hs, heq⟩ | ⟨hmem, heq⟩
          · exact Or.inl ⟨hs, heq⟩
          · exact Or.inr ⟨List.mem_cons_of_mem _ hmem, heq⟩
        · intro w hw
          rcases List.mem_cons.1 hw with rfl | hw2
          · exact le_trans ih3 (le_of_not_lt hlt)
          · exact ih4 w hw2
  obtain ⟨h1, h2, _, h4⟩ := aux openSet ((none : Option String), (⊤ : ℕ∞))
    (fun _ => rfl) (by intro u hu; cases hu)
  constructor
  · intro hn w hw
    rw [PathfindingScan.pickLowestScore] at hn
    obtain ⟨_, htop⟩ := h1 hn
    have h5 := h4 w hw
    rw [htop] at h5
    exact top_le_iff.1 h5
  · intro u hu
    rw [PathfindingScan.pickLowestScore] at hu
    rcases h2 u hu with ⟨hs, _⟩ | ⟨hmem, heq⟩
    · cases hs
    · exact ⟨hmem, fun w hw => by rw [← heq]; exact h4 w hw⟩

theorem nodup_sadd {α : Type _} [DecidableEq α] (s : List α) (a : α) (h : s.Nodup) :
    (sadd s a).Nodup := by
  rw [sadd]
  split
  · exact h
  · next hmem =>
    rw [List.nodup_append]
    refine ⟨h, List.nodup_singleton a, ?_⟩
    intro x hx hxs
    rw [List.mem_singleton] at hxs
    subst hxs
    exact hmem hx

theorem length_sadd_le {α : Type _} [DecidableEq α] (s : List α) (a : α) :
    (sadd s a).length ≤ s.length + 1 := by
  rw [sadd]
  split
  · omega
  · simp

/-- The candidate list of the scan variant: the open set paired with its
f-scores (missing f-scores read as infinity, as in pickLowestScore). -/
def scanCands (openSet : List String) (fScore : List (String × ℕ∞)) : List HeapEntry :=
  openSet.map (fun u => { id := u, score := (mget fScore u).getD ⊤ })

theorem mem_scanCands (openSet : List String) (fScore : List (String × ℕ∞))
    (e : HeapEntry) :
    e ∈ scanCands openSet fScore ↔
      ∃ u ∈ openSet, e = { id := u, score := (mget fScore u).getD ⊤ } := by
  rw [scanCands, List.mem_map]
  constructor
  · rintro ⟨u, hu, rfl⟩
    exact ⟨u, hu, rfl⟩
  · rintro ⟨u, hu, rfl⟩
    exact ⟨u, hu, rfl⟩

/-- Membership in the scan candidates after one relaxation update:
sadd on the open set plus an f-score overwrite replaces any old entry
for the touched node by the freshly written one. -/
theorem scanCands_update_mem (openSet : List String) (fScore : List (String × ℕ∞))
    (v : String) (s : ℕ∞) (e : HeapEntry) :
    e ∈ scanCands (sadd openSet v) (mset fScore v s) ↔
      ((e ∈ scanCands openSet fScore ∧ e.id ≠ v) ∨ e = { id := v, score := s }) := by
  rw [mem_scanCands]
  constructor
  · rintro ⟨u, hu, rfl⟩
    by_cases huv : u = v
    · subst huv
      refine Or.inr ?_
      simp only [mget_mset_self, Option.getD_some]
    · rw [mget_mset_ne _ _ _ _ huv]
      refine Or.inl ⟨(mem_scanCands _ _ _).2 ⟨u, ?_, rfl⟩, huv⟩
      rcases (mem_sadd _ _ _).1 hu with h | h
      · exact h
      · exact absurd h huv
  · rintro (⟨he, hne⟩ | rfl)
    · obtain ⟨u, hu, rfl⟩ := (mem_scanCands _ _ _).1 he
      exact ⟨u, (mem_sadd _ _ _).2 (Or.inl hu),
        by rw [mget_mset_ne _ _ _ _ hne]⟩
    · exact ⟨v, (mem_sadd _ _ _).2 (Or.inr rfl),
        by simp only [mget_mset_self, Option.getD_some]⟩

/-- Correctness of one pass of the neighbor-relaxation loop of part_005:
it preserves the invariant over the scan candidate view (establishing
the expansion property for the just-closed current node), keeps the open
set duplicate-free and disjoint from the closed set, and adds at most
one open entry per neighbor. -/
theorem scanRelax_spec (nodesById : List (String × PathfindingNode))
    (blockedTileIds : List String) (startTileId destinationTileId : String)
    (closedSet2 : List String) (current : String) (currentNode : PathfindingNode)
    (kc : Nat)
    (hcn : mget nodesById current = some currentNode)
    (hcur : current ∈ closedSet2) :
    ∀ (neigh : List String) (openSet : List String)
      (cameFrom : List (String × String)) (gScore fScore : List (String × ℕ∞)),
      mget gScore current = some ((kc : Nat) : ℕ∞) →
      (∀ x ∈ neigh, x ∈ currentNode.neighbors) →
      openSet.Nodup →
      (∀ u ∈ openSet, u ∉ closedSet2) →
      AStarPre nodesById blockedTileIds startTileId destinationTileId
        (scanCands openSet fScore) closedSet2 cameFrom gScore →
      (∀ u ∈ closedSet2, u ≠ current → ∀ v, stepR nodesById blockedTileIds u v →
        (mget gScore v).getD ⊤ ≤ (mget gScore u).getD ⊤ + 1) →
      (∀ v, stepR nodesById blockedTileIds current v → v ∉ neigh →
        (mget gScore v).getD ⊤ ≤ ((kc : Nat) : ℕ∞) + 1) →
      AStarInv nodesById blockedTileIds startTileId destinationTileId
        (scanCands
          (PathfindingScan.relaxNeighbors nodesById destinationTileId blockedTileIds
            closedSet2 current neigh openSet cameFrom gScore fScore).1
          (PathfindingScan.relaxNeighbors nodesById destinationTileId blockedTileIds
            closedSet2 current neigh openSet cameFrom gScore fScore).2.2.2) closedSet2
        (PathfindingScan.relaxNeighbors nodesById destinationTileId blockedTileIds
          closedSet2 current neigh openSet cameFrom gScore fScore).2.1
        (PathfindingScan.relaxNeighbors nodesById destinationTileId blockedTileIds
          closedSet2 current neigh openSet cameFrom gScore fScore).2.2.1 ∧
      (PathfindingScan.relaxNeighbors nodesById destinationTileId blockedTileIds
        closedSet2 current neigh openSet cameFrom gScore fScore).1.Nodup ∧
      (∀ u ∈ (PathfindingScan.relaxNeighbors nodesById destinationTileId blockedTileIds
        closedSet2 current neigh openSet cameFrom gScore fScore).1,
          u ∉ closedSet2) ∧
      (PathfindingScan.relaxNeighbors nodesById destinationTileId blockedTileIds
        closedSet2 current neigh openSet cameFrom gScore fScore).1.length ≤
          openSet.length + neigh.length ∧
      mget (PathfindingScan.relaxNeighbors nodesById destinationTileId blockedTileIds
        closedSet2 current neigh openSet cameFrom gScore fScore).2.2.1 current =
          some ((kc : Nat) : ℕ∞) := by
  intro neigh
  induction neigh with
  | nil =>
    intro openSet cameFrom gScore fScore hgcur hne hond hdisj hpre hexpold hexpcur
    simp only [PathfindingScan.relaxNeighbors]
    refine ⟨hpre.toInv ?_, hond, hdisj, by simp, hgcur⟩
    intro u hu v hstep
    by_cases hcu : u = current
    · subst hcu
      rw [hgcur]
      simpa using hexpcur v hstep (by simp)
    · exact hexpold u hu hcu v hstep
  | cons v rest ih =>
    intro openSet cameFrom gScore fScore hgcur hne hond hdisj hpre hexpold hexpcur
    simp only [PathfindingScan.relaxNeighbors]
    have hnerest : ∀ x ∈ rest, x ∈ currentNode.neighbors :=
      fun x hx => hne x (List.mem_cons_of_mem v hx)
    have hcontinue : (∀ w, stepR nodesById blockedTileIds current w → w ∉ rest →
        (mget gScore w).getD ⊤ ≤ ((kc : Nat) : ℕ∞) + 1) →
        AStarInv nodesById blockedTileIds startTileId destinationTileId
          (scanCands
            (PathfindingScan.relaxNeighbors nodesById destinationTileId blockedTileIds
              closedSet2 current rest openSet cameFrom gScore fScore).1
            (PathfindingScan.relaxNeighbors nodesById destinationTileId blockedTileIds
              closedSet2 current rest openSet cameFrom gScore fScore).2.2.2) closedSet2
          (PathfindingScan.relaxNeighbors nodesById destinationTileId blockedTileIds
            closedSet2 current rest openSet cameFrom gScore fScore).2.1
          (PathfindingScan.relaxNeighbors nodesById destinationTileId blockedTileIds
            closedSet2 current rest openSet cameFrom gScore fScore).2.2.1 ∧
        (PathfindingScan.relaxNeighbors nodesById destinationTileId blockedTileIds
          closedSet2 current rest openSet cameFrom gScore fScore).1.Nodup ∧
        (∀ u ∈ (PathfindingScan.relaxNeighbors nodesById destinationTileId
          blockedTileIds closedSet2 current rest openSet cameFrom gScore fScore).1,
            u ∉ closedSet2) ∧
        (PathfindingScan.relaxNeighbors nodesById destinationTileId blockedTileIds
          closedSet2 current rest openSet cameFrom gScore fScore).1.length ≤
            openSet.length + (v :: rest).length ∧
        mget (PathfindingScan.relaxNeighbors nodesById destinationTileId blockedTileIds
          closedSet2 current rest openSet cameFrom gScore fScore).2.2.1 current =
            some ((kc : Nat) : ℕ∞) := by
      intro hexpcur2
      obtain ⟨a, b, c, d, e⟩ := ih openSet cameFrom gScore fScore hgcur hnerest hond
        hdisj hpre hexpold hexpcur2
      exact ⟨a, b, c, le_trans d (by simp only [List.length_cons]; omega), e⟩
    by_cases hskip : v ∈ closedSet2 ∨ v ∈ blockedTileIds
    · rw [if_pos hskip]
      apply hcontinue
      intro w hstep hwrest
      by_cases hwv : w = v
      · subst hwv
        obtain ⟨nu, nv, h1, h2, hwb, h4, h5⟩ := hstep
        have hwc : w ∈ closedSet2 := by
          rcases hskip with hskip | hskip
          · exact hskip
          · exact absurd hskip hwb
        obtain ⟨k2, hk2, hreach⟩ := hpre.g_real current _ hgcur
        have hk2e : k2 = kc := by exact_mod_cast hk2.symm
        subst hk2e
        have hreach2 : ReachN nodesById blockedTileIds (k2 + 1) startTileId w :=
          ReachN.snoc hreach ⟨nu, nv, h1, h2, hwb, h4, h5⟩
        have := hpre.settled w hwc (k2 + 1) hreach2
        simpa using this
      · exact hexpcur w hstep (by
          intro hmem
          rcases List.mem_cons.1 hmem with h1 | h1
          · exact hwv h1
          · exact hwrest h1)
    · rw [if_neg hskip]
      rcases hnv : mget nodesById v with _ | nv
      · apply hcontinue
        intro w hstep hwrest
        by_cases hwv : w = v
        · subst hwv
          obtain ⟨nu, nv2, _, _, _, hnv2, _⟩ := hstep
          rw [hnv] at hnv2
          cases hnv2
        · exact hexpcur w hstep (by
            intro hmem
            rcases List.mem_cons.1 hmem with h1 | h1
            · exact hwv h1
            · exact hwrest h1)
      dsimp only
      by_cases hwalk : nv.walkable = false
      · rw [if_pos hwalk]
        apply hcontinue
        intro w hstep hwrest
        by_cases hwv : w = v
        · subst hwv
          obtain ⟨nu, nv2, _, _, _, hnv2, hnw⟩ := hstep
          rw [hnv] at hnv2
          injection hnv2 with hnv3
          subst hnv3
          rw [hwalk] at hnw
          cases hnw
        · exact hexpcur w hstep (by
            intro hmem
            rcases List.mem_cons.1 hmem with h1 | h1
            · exact hwv h1
            · exact hwrest h1)
      · rw [if_neg hwalk]
        rw [hgcur]
        simp only [Option.getD_some]
        by_cases hcmp : (mget gScore v).getD ⊤ ≤ ((kc : Nat) : ℕ∞) + 1
        · rw [if_pos hcmp]
          apply hcontinue
          intro w hstep hwrest
          by_cases hwv : w = v
          · subst hwv
            simpa using hcmp
          · exact hexpcur w hstep (by
              intro hmem
              rcases List.mem_cons.1 hmem with h1 | h1
              · exact hwv h1
              · exact hwrest h1)
        · rw [if_neg hcmp]
          have hvnc : v ∉ closedSet2 := fun hx => hskip (Or.inl hx)
          have hvnb : v ∉ blockedTileIds := fun hx => hskip (Or.inr hx)
          have hwalk2 : nv.walkable = true := by
            revert hwalk
            cases nv.walkable <;> simp
          have hstepcv : stepR nodesById blockedTileIds current v :=
            ⟨currentNode, nv, hcn, hne v (List.mem_cons_self v rest), hvnb, hnv, hwalk2⟩
          have hvcur : v ≠ current := fun hx => hvnc (hx ▸ hcur)
          have hvstart : v ≠ startTileId := by
            intro hx
            subst hx
            rw [hpre.g_start] at hcmp
            simp at hcmp
          obtain ⟨k2, hk2, hreachc⟩ := hpre.g_real current _ hgcur
          have hk2e : k2 = kc := by exact_mod_cast hk2.symm
          subst hk2e
          have hreachv : ReachN nodesById blockedTileIds (k2 + 1) startTileId v :=
            ReachN.snoc hreachc hstepcv
          have hcast : ((k2 : Nat) : ℕ∞) + 1 = (((k2 + 1 : Nat)) : ℕ∞) := by
            push_cast
            ring
          have hvmem : v ∈ nodesById.map Prod.fst := mem_keys_of_mget hnv
          have hglt : ∀ u, (mget (mset gScore v (((k2 : Nat) : ℕ∞) + 1)) u).getD ⊤ ≤
              (mget gScore u).getD ⊤ := by
            intro u
            by_cases huv : u = v
            · subst huv
              rw [mget_mset_self]
              exact le_of_not_le hcmp
            · rw [mget_mset_ne _ _ _ _ huv]
          have hgne : ∀ u, u ≠ v →
              mget (mset gScore v (((k2 : Nat) : ℕ∞) + 1)) u = mget gScore u :=
            fun u huv => mget_mset_ne _ _ _ _ huv
          have hmemcands : ∀ e, e ∈ scanCands (sadd openSet v)
              (mset fScore v (((k2 : Nat) : ℕ∞) + 1 +
                heuristicDistance nodesById v destinationTileId)) ↔
              ((e ∈ scanCands openSet fScore ∧ e.id ≠ v) ∨
                e = { id := v, score := ((k2 : Nat) : ℕ∞) + 1 +
                  heuristicDistance nodesById v destinationTileId }) :=
            fun e => scanCands_update_mem openSet fScore v _ e
          have hpre2 : AStarPre nodesById blockedTileIds startTileId destinationTileId
              (scanCands (sadd openSet v)
                (mset fScore v (((k2 : Nat) : ℕ∞) + 1 +
                  heuristicDistance nodesById v destinationTileId))) closedSet2
              (mset cameFrom v current) (mset gScore v (((k2 : Nat) : ℕ∞) + 1)) := by
            refine ⟨?_, ?_, ?_, ?_, ?_, ?_, ?_, ?_, ?_, hpre.dest_open⟩
            · rw [hgne startTileId (fun hx => hvstart hx.symm)]
              exact hpre.g_start
            · intro u c huc
              by_cases huv : u = v
              · subst huv
                rw [mget_mset_self] at huc
                injection huc with hc2
                exact ⟨k2 + 1, by rw [← hc2, hcast], hreachv⟩
              · rw [hgne u huv] at huc
                exact hpre.g_real u c huc
            · intro u hu n hr
              have huv : u ≠ v := fun hx => hvnc (hx ▸ hu)
              rw [hgne u huv]
              exact hpre.settled u hu n hr
            · intro u p hup
              by_cases huv : u = v
              · subst huv
                rw [mget_mset_self] at hup
                injection hup with hp2
                subst hp2
                refine ⟨hcur, hstepcv, k2, ?_, ?_⟩
                · rw [hgne _ (fun hx => hvcur hx.symm)]
                  exact hgcur
                · rw [mget_mset_self, hcast]
              · rw [mget_mset_ne _ _ _ _ huv] at hup
                obtain ⟨hpc, hpstep, k3, hk3, hk4⟩ := hpre.parent u p hup
                have hpv : p ≠ v := fun hx => hvnc (hx ▸ hpc)
                exact ⟨hpc, hpstep, k3, by rw [hgne p hpv]; exact hk3,
                  by rw [hgne u huv]; exact hk4⟩
            · intro u c huc hustart
              by_cases huv : u = v
              · subst huv
                exact ⟨current, mget_mset_self _ _ _⟩
              · rw [hgne u huv] at huc
                obtain ⟨p, hp⟩ := hpre.g_parent u c huc hustart
                exact ⟨p, by rw [mget_mset_ne _ _ _ _ huv]; exact hp⟩
            · rw [mget_mset_ne _ _ _ _ (fun hx => hvstart hx.symm)]
              exact hpre.cf_start
            · intro e he
              rw [hmemcands e] at he
              rcases he with ⟨he, _⟩ | rfl
              · obtain ⟨k3, hs, hr, hb⟩ := hpre.entries e he
                refine ⟨k3, hs, hr, le_trans (hglt e.id) hb⟩
              · refine ⟨k2 + 1, by rw [hcast], hreachv, ?_⟩
                simp only [mget_mset_self, Option.getD_some, hcast]
                exact le_refl _
            · intro u c hunc huc
              by_cases huv : u = v
              · subst huv
                rw [mget_mset_self] at huc
                injection huc with hc2
                refine ⟨{ id := u, score := ((k2 : Nat) : ℕ∞) + 1 +
                  heuristicDistance nodesById u destinationTileId },
                  (hmemcands _).2 (Or.inr rfl), rfl, ?_⟩
                rw [← hc2]
              · rw [hgne u huv] at huc
                obtain ⟨e, he, hei, hes⟩ := hpre.cover u c hunc huc
                exact ⟨e, (hmemcands e).2 (Or.inl ⟨he, hei ▸ huv⟩), hei, hes⟩
            · intro e he
              rw [hmemcands e] at he
              rcases he with ⟨he, _⟩ | rfl
              · exact hpre.cand_ids e he
              · exact Or.inr hvmem
          have hexpold2 : ∀ u ∈ closedSet2, u ≠ current →
              ∀ w, stepR nodesById blockedTileIds u w →
              (mget (mset gScore v (((k2 : Nat) : ℕ∞) + 1)) w).getD ⊤ ≤
                (mget (mset gScore v (((k2 : Nat) : ℕ∞) + 1)) u).getD ⊤ + 1 := by
            intro u hu hucur w hstep
            have huv : u ≠ v := fun hx => hvnc (hx ▸ hu)
            rw [hgne u huv]
            exact le_trans (hglt w) (hexpold u hu hucur w hstep)
          have hexpcur2 : ∀ w, stepR nodesById blockedTileIds current w → w ∉ rest →
              (mget (mset gScore v (((k2 : Nat) : ℕ∞) + 1)) w).getD ⊤ ≤
                ((k2 : Nat) : ℕ∞) + 1 := by
            intro w hstep hwrest
            by_cases hwv : w = v
            · subst hwv
              rw [mget_mset_self]
              simp
            · rw [hgne w hwv]
              exact hexpcur w hstep (by
                intro hmem
                rcases List.mem_cons.1 hmem with h1 | h1
                · exact hwv h1
                · exact hwrest h1)
          obtain ⟨a, b, c, d, e⟩ := ih (sadd openSet v) (mset cameFrom v current)
            (mset gScore v (((k2 : Nat) : ℕ∞) + 1))
            (mset fScore v (((k2 : Nat) : ℕ∞) + 1 +
              heuristicDistance nodesById v destinationTileId))
            (by rw [hgne current (fun hx => hvcur hx.symm)]; exact hgcur)
            hnerest (nodup_sadd _ _ hond)
            (fun u hu => by
              rcases (mem_sadd _ _ _).1 hu with hu2 | rfl
              · exact hdisj u hu2
              · exact hvnc)
            hpre2 hexpold2 hexpcur2
          refine ⟨a, b, c, ?_, e⟩
          refine le_trans d ?_
          have := length_sadd_le openSet v
          simp only [List.length_cons]
          omega

/-- Full correctness of part_005's A* loop: with the invariant over the
scan candidate view and enough fuel, a returned path is a minimum-length
relaxable path from start to destination, and a none result means the
destination is unreachable. -/
theorem scanLoop_correct (nodesById : List (String × PathfindingNode))
    (blockedTileIds : List String) (startTileId destinationTileId : String)
    (hknd : (nodesById.map Prod.fst).Nodup)
    (hsmem : startTileId ∈ nodesById.map Prod.fst)
    (nd : PathfindingNode) (hdmem : mget nodesById destinationTileId = some nd)
    (hcons : ∀ u v, stepR nodesById blockedTileIds u v →
      heuristicDistance nodesById u destinationTileId ≤
        heuristicDistance nodesById v destinationTileId + 1)
    (hnb : ∀ i n, mget nodesById i = some n → n.neighbors.length ≤ 4) :
    ∀ (fuel : Nat) (openSet closedSet : List String)
      (cameFrom : List (String × String)) (gScore fScore : List (String × ℕ∞)),
      openSet.Nodup →
      (∀ u ∈ openSet, u ∉ closedSet) →
      AStarInv nodesById blockedTileIds startTileId destinationTileId
        (scanCands openSet fScore) closedSet cameFrom gScore →
      openSet.length + 5 * unclosedCount nodesById closedSet + 1 ≤ fuel →
      (∀ p, PathfindingScan.searchLoop nodesById destinationTileId blockedTileIds fuel
          openSet closedSet cameFrom gScore fScore = some p →
        ∃ k : Nat, p.head? = some startTileId ∧ p.getLast? = some destinationTileId ∧
          List.Chain' (stepR nodesById blockedTileIds) p ∧ p.length = k + 1 ∧
          ReachN nodesById blockedTileIds k startTileId destinationTileId ∧
          (∀ n, ReachN nodesById blockedTileIds n startTileId destinationTileId →
            k ≤ n)) ∧
      (PathfindingScan.searchLoop nodesById destinationTileId blockedTileIds fuel
          openSet closedSet cameFrom gScore fScore = none →
        ∀ n, ¬ReachN nodesById blockedTileIds n startTileId destinationTileId) := by
  intro fuel
  induction fuel with
  | zero =>
    intro openSet closedSet cameFrom gScore fScore _ _ _ hmeas
    omega
  | succ fuel ih =>
    intro openSet closedSet cameFrom gScore fScore hond hdisj hinv hmeas
    by_cases hemp : openSet.isEmpty = true
    · have hnil : openSet = [] := by
        rcases openSet with _ | ⟨x, xs⟩
        · rfl
        · cases hemp
      subst hnil
      constructor
      · intro p hp
        simp [PathfindingScan.searchLoop] at hp
      · intro _ n hreach
        obtain ⟨e, hmem, _⟩ := frontier_entry nodesById blockedTileIds startTileId
          destinationTileId (scanCands [] fScore) closedSet cameFrom gScore hinv hcons
          n destinationTileId hreach hinv.dest_open
        simp [scanCands] at hmem
    · have hempf : openSet.isEmpty = false := by
        revert hemp
        cases openSet.isEmpty <;> simp
      rcases hpick : PathfindingScan.pickLowestScore openSet fScore with _ | current
      · constructor
        · intro p hp
          simp only [PathfindingScan.searchLoop, hempf, Bool.false_eq_true, if_false,
            hpick] at hp
          cases hp
        · intro _ n hreach
          obtain ⟨e, hmem, hb⟩ := frontier_entry nodesById blockedTileIds startTileId
            destinationTileId (scanCands openSet fScore) closedSet cameFrom gScore hinv
            hcons n destinationTileId hreach hinv.dest_open
          obtain ⟨w, hw, rfl⟩ := (mem_scanCands _ _ _).1 hmem
          have htopw : (mget fScore w).getD ⊤ = ⊤ :=
            (pickLowestScore_spec openSet fScore).1 hpick w hw
          have hh0 : heuristicDistance nodesById destinationTileId destinationTileId
              = 0 := heuristicDistance_self _ _ nd hdmem
          rw [hh0, add_zero] at hb
          have hb2 : ((⊤ : ℕ∞) ≤ (n : ℕ∞)) := by
            rw [← htopw]
            exact hb
          exact absurd (top_le_iff.1 hb2) (ENat.coe_lt_top n).ne
      · obtain ⟨hcurmem, hcurmin⟩ :=
          (pickLowestScore_spec openSet fScore).2 current hpick
        have he0mem : ({ id := current, score := (mget fScore current).getD ⊤ } :
            HeapEntry) ∈ scanCands openSet fScore :=
          (mem_scanCands _ _ _).2 ⟨current, hcurmem, rfl⟩
        have hmin : ∀ e' ∈ scanCands openSet fScore,
            (mget fScore current).getD ⊤ ≤ e'.score := by
          intro e' he'
          obtain ⟨w, hw, rfl⟩ := (mem_scanCands _ _ _).1 he'
          exact hcurmin w hw
        have hclosed : current ∉ closedSet := hdisj current hcurmem
        by_cases hdest : current = destinationTileId
        · subst hdest
          constructor
          · intro p hp
            simp only [PathfindingScan.searchLoop, hempf, Bool.false_eq_true, if_false,
              hpick, eq_self_iff_true, if_true] at hp
            obtain ⟨k0, hscore, hreach0, hgb⟩ := hinv.entries _ he0mem
            dsimp only at hscore hreach0 hgb
            have hh0 : heuristicDistance nodesById current current = 0 :=
              heuristicDistance_self _ _ nd hdmem
            rcases hg : mget gScore current with _ | c
            · rw [hg] at hgb
              simp only [Option.getD_none] at hgb
              exact absurd (top_le_iff.1 hgb) (ENat.coe_lt_top k0).ne
            obtain ⟨kd, hkd, hreachd⟩ := hinv.g_real _ _ hg
            subst hkd
            have hkdk0 : kd ≤ k0 := by
              rw [hg] at hgb
              simp only [Option.getD_some] at hgb
              exact_mod_cast hgb
            have hfuel2 : kd ≤ cameFrom.length + 1 := by
              have := g_le_cameFrom_length nodesById blockedTileIds startTileId
                current (scanCands openSet fScore) closedSet cameFrom gScore hinv kd
                current hg
              omega
            obtain ⟨hh, hl, hc, hlen⟩ := reconstruct_spec nodesById blockedTileIds
              startTileId current (scanCands openSet fScore) closedSet cameFrom gScore
              hinv kd current (cameFrom.length + 1) hg hfuel2
            injection hp with hp2
            rw [← hp2]
            refine ⟨kd, hh, hl, hc, hlen, hreachd, ?_⟩
            intro n hreachn
            obtain ⟨e', he', hb⟩ := frontier_entry nodesById blockedTileIds startTileId
              current (scanCands openSet fScore) closedSet cameFrom gScore hinv hcons n
              current hreachn hinv.dest_open
            have h1 : (mget fScore current).getD ⊤ ≤ e'.score := hmin e' he'
            rw [hscore, hh0, add_zero] at h1
            rw [hh0, add_zero] at hb
            have h2 : (k0 : ℕ∞) ≤ (n : ℕ∞) := le_trans h1 hb
            have h3 : k0 ≤ n := by exact_mod_cast h2
            omega
          · intro hcon
            simp only [PathfindingScan.searchLoop, hempf, Bool.false_eq_true, if_false,
              hpick, eq_self_iff_true, if_true] at hcon
            cases hcon
        · have hcid : current ∈ nodesById.map Prod.fst := by
            rcases hinv.cand_ids _ he0mem with h | h
            · dsimp only at h
              rw [h]
              exact hsmem
            · exact h
          rcases hcn : mget nodesById current with _ | ncur
          · exact absurd hcid ((mget_eq_none_iff _ _).1 hcn)
          have hfin : heuristicDistance nodesById current destinationTileId ≠ ⊤ := by
            rw [heuristicDistance, hcn, hdmem]
            exact (ENat.coe_lt_top _).ne
          obtain ⟨k0, hscore, hreach0, hgb⟩ := hinv.entries _ he0mem
          dsimp only at hscore hreach0 hgb
          rcases hg : mget gScore current with _ | c
          · rw [hg] at hgb
            simp only [Option.getD_none] at hgb
            exact absurd (top_le_iff.1 hgb) (ENat.coe_lt_top k0).ne
          obtain ⟨kc, hkc, hreachc⟩ := hinv.g_real _ _ hg
          subst hkc
          have hkck0 : kc ≤ k0 := by
            rw [hg] at hgb
            simp only [Option.getD_some] at hgb
            exact_mod_cast hgb
          have hsettle : ∀ n, ReachN nodesById blockedTileIds n startTileId current →
              kc ≤ n := by
            intro n hrn
            obtain ⟨e', he', hb⟩ := frontier_entry nodesById blockedTileIds startTileId
              destinationTileId (scanCands openSet fScore) closedSet cameFrom gScore
              hinv hcons n current hrn hclosed
            have h1 : (mget fScore current).getD ⊤ ≤ e'.score := hmin e' he'
            rw [hscore] at h1
            have h2 := le_trans h1 hb
            rw [WithTop.add_le_add_iff_right hfin] at h2
            have h3 : k0 ≤ n := by exact_mod_cast h2
            omega
          have hc2mem : current ∈ sadd closedSet current :=
            (mem_sadd _ _ _).2 (Or.inr rfl)
          have hsubc : ∀ u, u ∈ closedSet → u ∈ sadd closedSet current :=
            fun u hu => (mem_sadd _ _ _).2 (Or.inl hu)
          have hmemerase : ∀ u, u ∈ openSet.erase current ↔
              u ∈ openSet ∧ u ≠ current := by
            intro u
            constructor
            · intro hu
              have hne : u ≠ current := by
                intro hx
                subst hx
                exact (hond.not_mem_erase) hu
              exact ⟨List.mem_of_mem_erase hu, hne⟩
            · rintro ⟨hu, hne⟩
              exact (List.mem_erase_of_ne hne).2 hu
          have hpre2 : AStarPre nodesById blockedTileIds startTileId destinationTileId
              (scanCands (openSet.erase current) fScore) (sadd closedSet current)
              cameFrom gScore := by
            refine ⟨hinv.g_start, hinv.g_real, ?_, ?_, hinv.g_parent, hinv.cf_start,
              ?_, ?_, ?_, ?_⟩
            · intro u hu n hrn
              rcases (mem_sadd _ _ _).1 hu with hu2 | rfl
              · exact hinv.settled u hu2 n hrn
              · rw [hg]
                simp only [Option.getD_some]
                exact_mod_cast hsettle n hrn
            · intro u p hup
              obtain ⟨hpc, hpstep, k3, h3, h4⟩ := hinv.parent u p hup
              exact ⟨hsubc p hpc, hpstep, k3, h3, h4⟩
            · intro e he
              obtain ⟨w, hw, rfl⟩ := (mem_scanCands _ _ _).1 he
              exact hinv.entries _
                ((mem_scanCands _ _ _).2 ⟨w, ((hmemerase w).1 hw).1, rfl⟩)
            · intro u c2 hunc huc
              have hunc2 : u ∉ closedSet := fun hx => hunc (hsubc u hx)
              have hune : u ≠ current := by
                intro hx
                exact hunc (hx ▸ hc2mem)
              obtain ⟨e, he, hei, hes⟩ := hinv.cover u c2 hunc2 huc
              obtain ⟨w, hw, rfl⟩ := (mem_scanCands _ _ _).1 he
              dsimp only at hei
              subst hei
              exact ⟨_, (mem_scanCands _ _ _).2 ⟨w, (hmemerase w).2 ⟨hw, hune⟩, rfl⟩,
                rfl, hes⟩
            · intro e he
              obtain ⟨w, hw, rfl⟩ := (mem_scanCands _ _ _).1 he
              exact hinv.cand_ids _
                ((mem_scanCands _ _ _).2 ⟨w, ((hmemerase w).1 hw).1, rfl⟩)
            · intro hx
              rcases (mem_sadd _ _ _).1 hx with hx2 | hx2
              · exact hinv.dest_open hx2
              · exact hdest hx2.symm
          have hexpold : ∀ u ∈ sadd closedSet current, u ≠ current →
              ∀ v, stepR nodesById blockedTileIds u v →
              (mget gScore v).getD ⊤ ≤ (mget gScore u).getD ⊤ + 1 := by
            intro u hu hue v hstep
            rcases (mem_sadd _ _ _).1 hu with hu2 | hu2
            · exact hinv.expanded u hu2 v hstep
            · exact absurd hu2 hue
          have hexpcur : ∀ v, stepR nodesById blockedTileIds current v →
              v ∉ ncur.neighbors →
              (mget gScore v).getD ⊤ ≤ ((kc : Nat) : ℕ∞) + 1 := by
            intro v hstep hvn
            obtain ⟨nu, nv, h1, h2, _, _, _⟩ := hstep
            rw [hcn] at h1
            injection h1 with h1b
            subst h1b
            exact absurd h2 hvn
          have hond2 : (openSet.erase current).Nodup := hond.erase current
          have hdisj2 : ∀ u ∈ openSet.erase current, u ∉ sadd closedSet current := by
            intro u hu hmem2
            obtain ⟨hu1, hu2⟩ := (hmemerase u).1 hu
            rcases (mem_sadd _ _ _).1 hmem2 with h | h
            · exact hdisj u hu1 h
            · exact hu2 h
          obtain ⟨hinvR, hondR, hdisjR, hlenR, hgR⟩ := scanRelax_spec nodesById
            blockedTileIds startTileId destinationTileId (sadd closedSet current)
            current ncur kc hcn hc2mem ncur.neighbors (openSet.erase current) cameFrom
            gScore fScore hg (fun x hx => hx) hond2 hdisj2 hpre2 hexpold hexpcur
          rcases hrel : PathfindingScan.relaxNeighbors nodesById destinationTileId
              blockedTileIds (sadd closedSet current) current ncur.neighbors
              (openSet.erase current) cameFrom gScore fScore with
            ⟨openSet2, cameFrom2, gScore2, fScore2⟩
          rw [hrel] at hinvR hondR hdisjR hlenR
          have hloop : PathfindingScan.searchLoop nodesById destinationTileId
              blockedTileIds (fuel + 1) openSet closedSet cameFrom gScore fScore =
              PathfindingScan.searchLoop nodesById destinationTileId blockedTileIds
                fuel openSet2 (sadd closedSet current) cameFrom2 gScore2 fScore2 := by
            simp only [PathfindingScan.searchLoop, hempf, Bool.false_eq_true, if_false,
              hpick, if_neg hdest, hcn, hrel]
          rw [hloop]
          apply ih openSet2 (sadd closedSet current) cameFrom2 gScore2 fScore2 hondR
            hdisjR hinvR
          have hlenR2 : openSet2.length ≤
              (openSet.erase current).length + ncur.neighbors.length := hlenR
          have herase : (openSet.erase current).length = openSet.length - 1 :=
            List.length_erase_of_mem hcurmem
          have hpos : 0 < openSet.length := List.length_pos_of_mem hcurmem
          have hnb2 : ncur.neighbors.length ≤ 4 := hnb _ _ hcn
          have huc := unclosedCount_sadd nodesById closedSet current hknd hcid hclosed
          omega

/-- End-to-end correctness of part_005's findShortestPath on a map with
distinct keys containing the start and destination. -/
theorem findShortestPathScan_correct (nodesById : List (String × PathfindingNode))
    (blockedTileIds : List String) (startTileId destinationTileId : String)
    (hknd : (nodesById.map Prod.fst).Nodup)
    (hsmem : startTileId ∈ nodesById.map Prod.fst)
    (nd : PathfindingNode) (hdmem : mget nodesById destinationTileId = some nd)
    (hcons : ∀ u v, stepR nodesById blockedTileIds u v →
      heuristicDistance nodesById u destinationTileId ≤
        heuristicDistance nodesById v destinationTileId + 1)
    (hnb : ∀ i n, mget nodesById i = some n → n.neighbors.length ≤ 4) :
    (∀ p, PathfindingScan.findShortestPath nodesById startTileId destinationTileId
        blockedTileIds = some p →
      ∃ k : Nat, p.head? = some startTileId ∧ p.getLast? = some destinationTileId ∧
        List.Chain' (stepR nodesById blockedTileIds) p ∧ p.length = k + 1 ∧
        ReachN nodesById blockedTileIds k startTileId destinationTileId ∧
        (∀ n, ReachN nodesById blockedTileIds n startTileId destinationTileId →
          k ≤ n)) ∧
    (PathfindingScan.findShortestPath nodesById startTileId destinationTileId
        blockedTileIds = none →
      ∀ n, ¬ReachN nodesById blockedTileIds n startTileId destinationTileId) := by
  have hcands : scanCands [startTileId]
      [(startTileId, heuristicDistance nodesById startTileId destinationTileId)] =
      [{ id := startTileId,
         score := heuristicDistance nodesById startTileId destinationTileId }] := by
    simp [scanCands, mget]
  have hmeas : (1 : Nat) + 5 * unclosedCount nodesById [] + 1 ≤
      5 * nodesById.length + 2 := by
    have : unclosedCount nodesById [] ≤ nodesById.length := unclosedCount_le _ _
    omega
  have hmain := scanLoop_correct nodesById blockedTileIds startTileId
    destinationTileId hknd hsmem nd hdmem hcons hnb (5 * nodesById.length + 2)
    [startTileId] [] [] [(startTileId, (0 : ℕ∞))]
    [(startTileId, heuristicDistance nodesById startTileId destinationTileId)]
    (List.nodup_singleton _) (by simp)
    (by
      rw [hcands]
      exact initial_inv nodesById blockedTileIds startTileId destinationTileId)
    (by simpa using hmeas)
  rw [PathfindingScan.findShortestPath]
  exact hmain

theorem nodup_keys_foldl_mset {α : Type _} {κ : Type _} [DecidableEq κ]
    (key : Tile → κ) (val : Tile → α) :
    ∀ (ts : List Tile) (m : List (κ × α)), (m.map Prod.fst).Nodup →
      (((ts.foldl (fun m t => mset m (key t) (val t)) m)).map Prod.fst).Nodup := by
  intro ts
  induction ts with
  | nil => exact fun m h => h
  | cons t rest ih =>
    intro m h
    rw [List.foldl_cons]
    exact ih _ (nodup_keys_mset _ _ _ h)

/-- The node map built by createNodesById has duplicate-free keys. -/
theorem nodup_keys_createNodesById (tiles : List Tile) :
    ((createNodesById tiles).map Prod.fst).Nodup := by
  rw [createNodesById]
  exact nodup_keys_foldl_mset Tile.id _ tiles [] List.nodup_nil

/-- A concrete 2x2 all-walkable map used by the pathfinding witnesses. -/
def witnessTiles : List Tile :=
  [ { id := "tile_0_0", coordinate := { x := 0, y := 0 }, type := .path, walkable := true },
    { id := "tile_1_0", coordinate := { x := 1, y := 0 }, type := .path, walkable := true },
    { id := "tile_0_1", coordinate := { x := 0, y := 1 }, type := .path, walkable := true },
    { id := "tile_1_1", coordinate := { x := 1, y := 1 }, type := .path, walkable := true } ]

def wreq1 : PathfindingRequest :=
  { startTileId := "tile_0_0", destinationTileId := "tile_1_1", blockedTileIds := [] }

def wreq2 : PathfindingRequest :=
  { startTileId := "tile_1_1", destinationTileId := "tile_0_0", blockedTileIds := [] }

def wreqEq : PathfindingRequest :=
  { startTileId := "tile_0_0", destinationTileId := "tile_0_0", blockedTileIds := [] }

def wreqBlk : PathfindingRequest :=
  { startTileId := "tile_0_0", destinationTileId := "tile_1_1",
    blockedTileIds := ["tile_1_0", "tile_0_1"] }

/-- Witness for claim C4 on the 2x2 map: an immediate retry of a found
request is served from the cache with the identical path; an equal
start/destination request leaves the cache empty; and a fully blocked
request yields no-route with no cache entry under its key. -/
theorem claim_C4_witness :
    (PathfindingHeap.findPath (createNodesById witnessTiles) 1
        (PathfindingHeap.findPath (createNodesById witnessTiles) 1 [] wreq1).2 wreq1).1 =
      .found ["tile_0_0", "tile_1_0", "tile_1_1"] true ∧
    (PathfindingHeap.findPath (createNodesById witnessTiles) 1 [] wreqEq).2 = [] ∧
    mget ([] : List (String × List String)) (requestCacheKey wreqBlk) = none := by
  refine ⟨?_, ?_, ?_⟩
  · exact (claim_C4 witnessTiles 1 (by decide)).1 []
      wreq1 ["tile_0_0", "tile_1_0", "tile_1_1"] false (by decide) (by decide)
  · exact ((claim_C4 witnessTiles 1 (by decide)).2.1 [] [] wreqEq rfl).1
  · exact ((claim_C4 witnessTiles 1 (by decide)).2.2 [] wreqBlk "no-route" (by decide)).2 rfl

/-- Witness for claim C3 at capacity 1 on the 2x2 map: the bound holds
after two calls; a repeated request hits and keeps its entry
most-recently-used; and two distinct-key inserts evict exactly the first
key. -/
theorem claim_C3_witness :
    ((PathfindingHeap.runFindPaths (createNodesById witnessTiles) 1 [wreq1, wreq2] []).2).length
        ≤ 1 ∧
    mget (PathfindingHeap.runFindPaths (createNodesById witnessTiles) 1 [wreq1] []).2
        (requestCacheKey wreq1) = some ["tile_0_0", "tile_1_0", "tile_1_1"] ∧
    ((PathfindingHeap.runFindPaths (createNodesById witnessTiles) 1 [wreq1, wreq2] []).2).map
        Prod.fst = ([wreq1, wreq2].map requestCacheKey).drop 1 := by
  refine ⟨(claim_C3 witnessTiles 1 (by decide)).1 [wreq1, wreq2], ?_, ?_⟩
  · exact ((claim_C3 witnessTiles 1 (by decide)).2.1 [wreq1] wreq1
      ["tile_0_0", "tile_1_0", "tile_1_1"] (by decide)).1
  · refine (claim_C3 witnessTiles 1 (by decide)).2.2 [wreq1, wreq2] rfl ?_ ?_ ?_
    · intro res hres
      have hconc : (PathfindingHeap.runFindPaths (createNodesById witnessTiles) 1
          [wreq1, wreq2] []).1 =
            [.found ["tile_0_0", "tile_1_0", "tile_1_1"] false,
             .found ["tile_1_1", "tile_0_1", "tile_0_0"] false] := by decide
      rw [hconc] at hres
      simp only [List.mem_cons, List.not_mem_nil, or_false] at hres
      rcases hres with rfl | rfl
      · exact ⟨_, rfl⟩
      · exact ⟨_, rfl⟩
    · intro r hr
      simp only [List.mem_cons, List.not_mem_nil, or_false] at hr
      rcases hr with rfl | rfl
      · decide
      · decide
    · decide

/-! ### Cache keys determine their query (string-level injectivity) -/

/-- A string usable as a cache-key atom: nonempty, and free of the four
separator characters of toCacheKey. -/
def keyAtom (s : String) : Prop :=
  s ≠ "" ∧ ∀ c ∈ s.data, c ≠ '-' ∧ c ≠ '>' ∧ c ≠ '|' ∧ c ≠ ','

theorem string_data_inj (s t : String) (h : s.data = t.data) : s = t :=
  congrArg String.mk h

theorem digitChar_not_sep (c : Char) (h : isDigitChar c = true) :
    c ≠ '-' ∧ c ≠ '>' ∧ c ≠ '|' ∧ c ≠ ',' := by
  refine ⟨?_, ?_, ?_, ?_⟩ <;> intro hx <;> subst hx <;> exact absurd h (by decide)

/-- Tile-id strings (template tile_<digits>_<digits>) are valid cache-key
atoms. -/
theorem isTileIdStr_keyAtom (s : String) (h : isTileIdStr s = true) : keyAtom s := by
  rw [isTileIdStr] at h
  split at h
  case _ rest heq =>
    rw [tileIdSuffix, List.span_eq_take_drop] at h
    simp only [Bool.and_eq_true] at h
    obtain ⟨hds, h2⟩ := h
    split at h2
    case _ ds2 heq2 =>
      simp only [Bool.and_eq_true] at h2
      constructor
      · intro hx
        rw [hx] at heq
        cases heq
      · intro c hc
        rw [heq] at hc
        simp only [List.mem_cons] at hc
        rcases hc with rfl | rfl | rfl | rfl | rfl | hc
        · exact ⟨by decide, by decide, by decide, by decide⟩
        · exact ⟨by decide, by decide, by decide, by decide⟩
        · exact ⟨by decide, by decide, by decide, by decide⟩
        · exact ⟨by decide, by decide, by decide, by decide⟩
        · exact ⟨by decide, by decide, by decide, by decide⟩
        · rw [← List.takeWhile_append_dropWhile isDigitChar rest] at hc
          rcases List.mem_append.1 hc with hc2 | hc2
          · exact digitChar_not_sep c (List.mem_takeWhile_imp hc2)
          · rw [heq2] at hc2
            rcases List.mem_cons.1 hc2 with rfl | hc3
            · exact ⟨by decide, by decide, by decide, by decide⟩
            · exact digitChar_not_sep c (by
                have := List.all_eq_true.1 h2.2 c hc3
                simpa using this)
    case _ => cases h2
  case _ => cases h

/-- Splitting two equal lists at a separator absent from both prefixes. -/
theorem append_sep_split (sep : Char) :
    ∀ (l1 l2 r1 r2 : List Char), sep ∉ l1 → sep ∉ l2 →
      l1 ++ sep :: r1 = l2 ++ sep :: r2 → l1 = l2 ∧ r1 = r2 := by
  intro l1
  induction l1 with
  | nil =>
    intro l2 r1 r2 _ h2 heq
    cases l2 with
    | nil =>
      simp only [List.nil_append] at heq
      injection heq with _ h
      exact ⟨rfl, h⟩
    | cons c cs =>
      simp only [List.nil_append, List.cons_append] at heq
      injection heq with hc _
      exact absurd (by rw [hc]; exact List.mem_cons_self c cs) h2
  | cons a as ih =>
    intro l2 r1 r2 h1 h2 heq
    cases l2 with
    | nil =>
      simp only [List.cons_append, List.nil_append] at heq
      injection heq with hc _
      exact absurd (by rw [← hc]; exact List.mem_cons_self a as) h1
    | cons b bs =>
      simp only [List.cons_append] at heq
      injection heq with hab htail
      subst hab
      have h1b : sep ∉ as := fun hx => h1 (List.mem_cons_of_mem a hx)
      have h2b : sep ∉ bs := fun hx => h2 (List.mem_cons_of_mem a hx)
      obtain ⟨he1, he2⟩ := ih bs r1 r2 h1b h2b htail
      exact ⟨by rw [he1], he2⟩

/-- The three fields of a cache key are recoverable when the start and
destination contain no separator characters. -/
theorem key_decomp (s1 d1 p1 s2 d2 p2 : String)
    (hs1 : keyAtom s1) (hd1 : keyAtom d1) (hs2 : keyAtom s2) (hd2 : keyAtom d2)
    (heq : s1 ++ "->" ++ d1 ++ "|" ++ p1 = s2 ++ "->" ++ d2 ++ "|" ++ p2) :
    s1 = s2 ∧ d1 = d2 ∧ p1 = p2 := by
  have hdata := congrArg String.data heq
  simp only [String.data_append] at hdata
  have reassoc : ∀ (A B C : List Char),
      A ++ ['-', '>'] ++ B ++ ['|'] ++ C = A ++ '-' :: '>' :: (B ++ '|' :: C) := by
    intro A B C
    simp
  rw [reassoc, reassoc] at hdata
  have hnos1 : '-' ∉ s1.data := fun hx => (hs1.2 '-' hx).1 rfl
  have hnos2 : '-' ∉ s2.data := fun hx => (hs2.2 '-' hx).1 rfl
  obtain ⟨hseq, hrest⟩ := append_sep_split '-' _ _ _ _ hnos1 hnos2 hdata
  injection hrest with _ hrest2
  have hnod1 : '|' ∉ d1.data := fun hx => (hd1.2 '|' hx).2.2.1 rfl
  have hnod2 : '|' ∉ d2.data := fun hx => (hd2.2 '|' hx).2.2.1 rfl
  obtain ⟨hdeq, hpeq⟩ := append_sep_split '|' _ _ _ _ hnod1 hnod2 hrest2
  exact ⟨string_data_inj _ _ hseq, string_data_inj _ _ hdeq, string_data_inj _ _ hpeq⟩

theorem joinComma_ne_empty : ∀ l : List String, l ≠ [] → (∀ x ∈ l, x ≠ "") →
    joinComma l ≠ "" := by
  intro l
  match l with
  | [] => intro h _; exact absurd rfl h
  | [a] =>
    intro _ hmem
    exact hmem a (List.mem_singleton_self a)
  | a :: b :: r =>
    intro _ _ hx
    have hdata := congrArg String.data hx
    have he : joinComma (a :: b :: r) = a ++ "," ++ joinComma (b :: r) := rfl
    rw [he] at hdata
    simp only [String.data_append] at hdata
    simp at hdata

theorem joinComma_inj : ∀ l1 l2 : List String,
    (∀ x ∈ l1, x ≠ "" ∧ ',' ∉ x.data) → (∀ x ∈ l2, x ≠ "" ∧ ',' ∉ x.data) →
    joinComma l1 = joinComma l2 → l1 = l2 := by
  intro l1
  induction l1 with
  | nil =>
    intro l2 _ h2 heq
    cases l2 with
    | nil => rfl
    | cons b bs =>
      exact absurd heq.symm (joinComma_ne_empty (b :: bs) (by simp)
        (fun x hx => (h2 x hx).1))
  | cons a as ih =>
    intro l2 h1 h2 heq
    cases l2 with
    | nil =>
      exact absurd heq (joinComma_ne_empty (a :: as) (by simp)
        (fun x hx => (h1 x hx).1))
    | cons b bs =>
      cases as with
      | nil =>
        cases bs with
        | nil =>
          have ha : joinComma [a] = a := rfl
          have hb : joinComma [b] = b := rfl
          rw [ha, hb] at heq
          rw [heq]
        | cons b2 bs2 =>
          have ha : joinComma [a] = a := rfl
          have hb : joinComma (b :: b2 :: bs2) = b ++ "," ++ joinComma (b2 :: bs2) :=
            rfl
          rw [ha, hb] at heq
          have hmem : ',' ∈ (b ++ "," ++ joinComma (b2 :: bs2)).data := by
            simp [String.data_append]
          rw [← heq] at hmem
          exact absurd hmem (h1 a (List.mem_cons_self a [])).2
      | cons a2 as2 =>
        cases bs with
        | nil =>
          have ha : joinComma (a :: a2 :: as2) = a ++ "," ++ joinComma (a2 :: as2) :=
            rfl
          have hb : joinComma [b] = b := rfl
          rw [ha, hb] at heq
          have hmem : ',' ∈ (a ++ "," ++ joinComma (a2 :: as2)).data := by
            simp [String.data_append]
          rw [heq] at hmem
          exact absurd hmem (h2 b (List.mem_cons_self b [])).2
        | cons b2 bs2 =>
          have ha : joinComma (a :: a2 :: as2) = a ++ "," ++ joinComma (a2 :: as2) :=
            rfl
          have hb : joinComma (b :: b2 :: bs2) = b ++ "," ++ joinComma (b2 :: bs2) :=
            rfl
          rw [ha, hb] at heq
          have hdata := congrArg String.data heq
          simp only [String.data_append] at hdata
          have reassoc : ∀ (A C : List Char), A ++ [','] ++ C = A ++ ',' :: C := by
            intro A C
            simp
          rw [reassoc, reassoc] at hdata
          obtain ⟨haeq, hrest⟩ := append_sep_split ',' _ _ _ _
            (h1 a (List.mem_cons_self a _)).2 (h2 b (List.mem_cons_self b _)).2 hdata
          have hab : a = b := string_data_inj _ _ haeq
          have htail : joinComma (a2 :: as2) = joinComma (b2 :: bs2) :=
            string_data_inj _ _ hrest
          have h1b : ∀ x ∈ a2 :: as2, x ≠ "" ∧ ',' ∉ x.data :=
            fun x hx => h1 x (List.mem_cons_of_mem a hx)
          have h2b : ∀ x ∈ b2 :: bs2, x ≠ "" ∧ ',' ∉ x.data :=
            fun x hx => h2 x (List.mem_cons_of_mem b hx)
          rw [hab, ih (b2 :: bs2) h1b h2b htail]

theorem insertSortedString_perm (s : String) (l : List String) :
    List.Perm (insertSortedString s l) (s :: l) := by
  induction l with
  | nil => exact List.Perm.refl _
  | cons t rest ih =>
    rw [insertSortedString]
    split
    · exact List.Perm.refl _
    · exact List.Perm.trans (List.Perm.cons t ih) (List.Perm.swap s t rest)

theorem sortStrings_perm (l : List String) : List.Perm (sortStrings l) l := by
  induction l with
  | nil => exact List.Perm.refl _
  | cons s rest ih =>
    rw [sortStrings]
    exact List.Perm.trans (insertSortedString_perm s _) (List.Perm.cons s ih)

theorem mem_foldl_sadd {α : Type _} [DecidableEq α] :
    ∀ (l acc : List α) (x : α), x ∈ l.foldl sadd acc ↔ x ∈ acc ∨ x ∈ l := by
  intro l
  induction l with
  | nil => simp
  | cons a rest ih =>
    intro acc x
    rw [List.foldl_cons, ih, mem_sadd]
    simp only [List.mem_cons]
    tauto

theorem mem_jsSetOf {α : Type _} [DecidableEq α] (l : List α) (x : α) :
    x ∈ jsSetOf l ↔ x ∈ l := by
  rw [jsSetOf, mem_foldl_sadd]
  simp

/-- Equal blocked parts of two cache keys mean equal blocked-set
membership (for separator-free nonempty blocked ids). -/
theorem blockedPart_eq_mem (b1 b2 : List String)
    (hb1 : ∀ x ∈ b1, keyAtom x) (hb2 : ∀ x ∈ b2, keyAtom x)
    (heq : (if b1.isEmpty then "" else joinComma (sortStrings b1)) =
           (if b2.isEmpty then "" else joinComma (sortStrings b2))) :
    ∀ x, x ∈ b1 ↔ x ∈ b2 := by
  have hmem1 : ∀ x, x ∈ sortStrings b1 ↔ x ∈ b1 :=
    fun x => (sortStrings_perm b1).mem_iff
  have hmem2 : ∀ x, x ∈ sortStrings b2 ↔ x ∈ b2 :=
    fun x => (sortStrings_perm b2).mem_iff
  by_cases he1 : b1.isEmpty = true
  · by_cases he2 : b2.isEmpty = true
    · have hn1 : b1 = [] := by
        cases b1
        · rfl
        · cases he1
      have hn2 : b2 = [] := by
        cases b2
        · rfl
        · cases he2
      rw [hn1, hn2]
      simp
    · rw [if_pos he1, if_neg he2] at heq
      have hb2ne : b2 ≠ [] := by
        intro hx
        rw [hx] at he2
        exact he2 rfl
      have hsne : sortStrings b2 ≠ [] := by
        intro hx
        have := (sortStrings_perm b2).length_eq
        rw [hx] at this
        exact hb2ne (List.eq_nil_of_length_eq_zero this.symm)
      exact absurd heq.symm (joinComma_ne_empty _ hsne
        (fun x hx => (hb2 x ((hmem2 x).1 hx)).1))
  · by_cases he2 : b2.isEmpty = true
    · rw [if_neg he1, if_pos he2] at heq
      have hb1ne : b1 ≠ [] := by
        intro hx
        rw [hx] at he1
        exact he1 rfl
      have hsne : sortStrings b1 ≠ [] := by
        intro hx
        have := (sortStrings_perm b1).length_eq
        rw [hx] at this
        exact hb1ne (List.eq_nil_of_length_eq_zero this.symm)
      exact absurd heq (joinComma_ne_empty _ hsne
        (fun x hx => (hb1 x ((hmem1 x).1 hx)).1))
    · rw [if_neg he1, if_neg he2] at heq
      have hsort := joinComma_inj (sortStrings b1) (sortStrings b2)
        (fun x hx =>
          ⟨(hb1 x ((hmem1 x).1 hx)).1,
           fun hc => ((hb1 x ((hmem1 x).1 hx)).2 ',' hc).2.2.2 rfl⟩)
        (fun x hx =>
          ⟨(hb2 x ((hmem2 x).1 hx)).1,
           fun hc => ((hb2 x ((hmem2 x).1 hx)).2 ',' hc).2.2.2 rfl⟩)
        heq
      intro x
      rw [← hmem1 x, ← hmem2 x, hsort]

/-- toCacheKey determines the start, the destination, and the blocked-set
membership, for separator-free nonempty components. -/
theorem toCacheKey_inj (s1 d1 s2 d2 : String) (b1 b2 : List String)
    (hs1 : keyAtom s1) (hd1 : keyAtom d1) (hs2 : keyAtom s2) (hd2 : keyAtom d2)
    (hb1 : ∀ x ∈ b1, keyAtom x) (hb2 : ∀ x ∈ b2, keyAtom x)
    (heq : toCacheKey s1 d1 b1 = toCacheKey s2 d2 b2) :
    s1 = s2 ∧ d1 = d2 ∧ ∀ x, (x ∈ b1 ↔ x ∈ b2) := by
  have hview : ∀ (s d : String) (b : List String), toCacheKey s d b =
      s ++ "->" ++ d ++ "|" ++ (if b.isEmpty then "" else joinComma (sortStrings b)) :=
    fun s d b => rfl
  rw [hview, hview] at heq
  obtain ⟨hseq, hdeq, hpeq⟩ := key_decomp s1 d1 _ s2 d2 _ hs1 hd1 hs2 hd2 heq
  exact ⟨hseq, hdeq, blockedPart_eq_mem b1 b2 hb1 hb2 hpeq⟩

/-! ### The specification-level step relation (claim C1's wording) -/

/-- One step of a spec-level path: between tiles of the set whose
coordinates are 4-adjacent (Manhattan distance one), onto a walkable
tile that is not in the blocked set. -/
def SpecStep (tiles : List Tile) (blockedTileIds : List String) (u v : String) : Prop :=
  ∃ tu tv, tu ∈ tiles ∧ tv ∈ tiles ∧ tu.id = u ∧ tv.id = v ∧
    (tu.coordinate.x - tv.coordinate.x).natAbs +
      (tu.coordinate.y - tv.coordinate.y).natAbs = 1 ∧
    tv.walkable = true ∧ v ∉ blockedTileIds

/-- A spec-level path for a query: starts at the start tile, ends at the
destination tile, and steps only between 4-adjacent walkable unblocked
tiles. -/
def SpecPathOk (tiles : List Tile) (blockedTileIds : List String)
    (startTileId destinationTileId : String) (p : List String) : Prop :=
  p.head? = some startTileId ∧ p.getLast? = some destinationTileId ∧
    List.Chain' (SpecStep tiles blockedTileIds) p

/-- For tile sets with distinct ids and distinct coordinates, the
relaxable-step relation of the built node map coincides with the
spec-level step relation. -/
theorem stepR_iff_specStep (tiles : List Tile)
    (hnd : (tiles.map Tile.id).Nodup)
    (hndc : (tiles.map Tile.coordinate).Nodup)
    (blockedTileIds : List String) (u v : String) :
    stepR (createNodesById tiles) blockedTileIds u v ↔
      SpecStep tiles blockedTileIds u v := by
  constructor
  · rintro ⟨nu, nv, hu, hmem, hnb, hv, hw⟩
    obtain ⟨tu, htu, htui⟩ := createNodesById_inv tiles u nu hu
    obtain ⟨tv, htv, htvi⟩ := createNodesById_inv tiles v nv hv
    have hadj := createNodesById_adjacent tiles hnd u v nu nv hu hv hmem
    have hun := createNodesById_node tiles hnd tu htu
    have hvn := createNodesById_node tiles hnd tv htv
    rw [htui] at hun
    rw [htvi] at hvn
    rw [hun] at hu
    rw [hvn] at hv
    injection hu with hu2
    injection hv with hv2
    refine ⟨tu, tv, htu, htv, htui, htvi, ?_, ?_, hnb⟩
    · rw [← hu2, ← hv2] at hadj
      exact hadj
    · rw [← hw, ← hv2]
  · rintro ⟨tu, tv, htu, htv, rfl, rfl, hadj, hw, hnb⟩
    have hckey : (tiles.map
        (fun t => toCoordinateKey t.coordinate.x t.coordinate.y)).Nodup := by
      have hmapeq : tiles.map (fun t => toCoordinateKey t.coordinate.x t.coordinate.y) =
          (tiles.map Tile.coordinate).map (fun c => toCoordinateKey c.x c.y) := by
        rw [List.map_map]
        rfl
      rw [hmapeq]
      refine List.Nodup.map ?_ hndc
      intro c1 c2 hcc
      simp only [toCoordinateKey, Prod.mk.injEq] at hcc
      obtain ⟨hx, hy⟩ := hcc
      cases c1
      cases c2
      simp only at hx hy
      rw [hx, hy]
    have hcget : mget (tiles.foldl (fun m tile =>
        mset m (toCoordinateKey tile.coordinate.x tile.coordinate.y) tile.id) [])
        (toCoordinateKey tv.coordinate.x tv.coordinate.y) = some tv.id :=
      mget_foldl_mset_mem (fun t => toCoordinateKey t.coordinate.x t.coordinate.y)
        Tile.id tiles [] tv htv hckey
    have hun := createNodesById_node tiles hnd tu htu
    have hvn := createNodesById_node tiles hnd tv htv
    refine ⟨_, _, hun, ?_, hnb, hvn, hw⟩
    simp only [List.mem_filterMap, List.mem_cons, List.not_mem_nil, or_false, id_eq]
    have hcases : (tv.coordinate.x = tu.coordinate.x + 1 ∧
          tv.coordinate.y = tu.coordinate.y) ∨
        (tv.coordinate.x = tu.coordinate.x - 1 ∧ tv.coordinate.y = tu.coordinate.y) ∨
        (tv.coordinate.x = tu.coordinate.x ∧ tv.coordinate.y = tu.coordinate.y + 1) ∨
        (tv.coordinate.x = tu.coordinate.x ∧ tv.coordinate.y = tu.coordinate.y - 1) := by
      omega
    rcases hcases with ⟨hx, hy⟩ | ⟨hx, hy⟩ | ⟨hx, hy⟩ | ⟨hx, hy⟩
    · refine ⟨_, Or.inl rfl, ?_⟩
      rw [← hx, ← hy]
      exact hcget
    · refine ⟨_, Or.inr (Or.inl rfl), ?_⟩
      rw [← hx, ← hy]
      exact hcget
    · refine ⟨_, Or.inr (Or.inr (Or.inl rfl)), ?_⟩
      rw [← hx, ← hy]
      exact hcget
    · refine ⟨_, Or.inr (Or.inr (Or.inr rfl)), ?_⟩
      rw [← hx, ← hy]
      exact hcget

/-- The step relation only reads the blocked set through membership. -/
theorem stepR_congr_blocked (nodesById : List (String × PathfindingNode))
    (bl1 bl2 : List String) (h : ∀ x, x ∈ bl1 ↔ x ∈ bl2) (u v : String) :
    stepR nodesById bl1 u v ↔ stepR nodesById bl2 u v := by
  constructor
  · rintro ⟨nu, nv, h1, h2, h3, h4, h5⟩
    exact ⟨nu, nv, h1, h2, fun hx => h3 ((h v).2 hx), h4, h5⟩
  · rintro ⟨nu, nv, h1, h2, h3, h4, h5⟩
    exact ⟨nu, nv, h1, h2, fun hx => h3 ((h v).1 hx), h4, h5⟩

theorem reachN_congr_blocked (nodesById : List (String × PathfindingNode))
    (bl1 bl2 : List String) (h : ∀ x, x ∈ bl1 ↔ x ∈ bl2) (k : Nat) (s d : String)
    (hr : ReachN nodesById bl1 k s d) : ReachN nodesById bl2 k s d := by
  induction hr with
  | refl u => exact ReachN.refl u
  | snoc hr2 hstep ih =>
    exact ReachN.snoc ih ((stepR_congr_blocked nodesById bl1 bl2 h _ _).1 hstep)

/-- Every nonempty step-chain witnesses n-step reachability between its
endpoints, with n one less than its length. -/
theorem reachN_of_chain (nodesById : List (String × PathfindingNode))
    (blockedTileIds : List String) :
    ∀ (p : List String) (s d : String), p.head? = some s → p.getLast? = some d →
      List.Chain' (stepR nodesById blockedTileIds) p →
      ∃ k, p.length = k + 1 ∧ ReachN nodesById blockedTileIds k s d := by
  intro p
  induction p with
  | nil =>
    intro s d hh _ _
    cases hh
  | cons x rest ih =>
    intro s d hh hl hc
    have hsx : s = x := by
      rw [List.head?_cons] at hh
      injection hh with h2
      rw [h2]
    subst hsx
    cases rest with
    | nil =>
      rw [List.getLast?_singleton] at hl
      injection hl with h2
      subst h2
      exact ⟨0, rfl, ReachN.refl s⟩
    | cons y rest2 =>
      rw [List.chain'_cons] at hc
      rw [List.getLast?_cons_cons] at hl
      obtain ⟨k, hlen, hreach⟩ := ih y d (List.head?_cons) hl hc.2
      refine ⟨k + 1, ?_, reachN_cons _ _ _ _ _ _ hc.1 hreach⟩
      simp only [List.length_cons] at hlen ⊢
      omega

/-- Claim C10 (counterexample): with an empty tile set and equal,
unknown start and destination, the heap variant of findShortestPath
returns the one-tile path while the scan variant returns undefined
(its pickLowestScore finds no entry with a score below infinity), so
the two implementations are not equivalent on every input. -/
theorem claim_C10_counterexample :
    PathfindingHeap.findShortestPath (createNodesById []) "tile_0_0" "tile_0_0" [] =
      some ["tile_0_0"] ∧
    PathfindingScan.findShortestPath (createNodesById []) "tile_0_0" "tile_0_0" [] =
      none := by
  decide

/-- Claim C10 (amended): over any tile set with distinct tile ids, for
requests whose start and destination are both in the built node map, the
linear-scan variant (part_005) and the binary-min-heap variant
(part_006) of findShortestPath agree: one returns undefined exactly when
the other does, and any two returned paths have equal length and the
same first and last tiles. -/
theorem claim_C10_amended (tiles : List Tile) (startTileId destinationTileId : String)
    (blockedTileIds : List String)
    (hnd : (tiles.map Tile.id).Nodup)
    (hs : startTileId ∈ (createNodesById tiles).map Prod.fst)
    (hd : destinationTileId ∈ (createNodesById tiles).map Prod.fst) :
    (PathfindingScan.findShortestPath (createNodesById tiles) startTileId
        destinationTileId blockedTileIds = none ↔
      PathfindingHeap.findShortestPath (createNodesById tiles) startTileId
        destinationTileId blockedTileIds = none) ∧
    (∀ p q,
      PathfindingScan.findShortestPath (createNodesById tiles) startTileId
        destinationTileId blockedTileIds = some p →
      PathfindingHeap.findShortestPath (createNodesById tiles) startTileId
        destinationTileId blockedTileIds = some q →
      p.length = q.length ∧ p.head? = q.head? ∧ p.getLast? = q.getLast?) := by
  have hknd : ((createNodesById tiles).map Prod.fst).Nodup :=
    nodup_keys_createNodesById tiles
  rcases hdm : mget (createNodesById tiles) destinationTileId with _ | dn
  · exact absurd hd ((mget_eq_none_iff _ _).1 hdm)
  have hcons : ∀ u v, stepR (createNodesById tiles) blockedTileIds u v →
      heuristicDistance (createNodesById tiles) u destinationTileId ≤
        heuristicDistance (createNodesById tiles) v destinationTileId + 1 :=
    fun u v hstep => heuristic_consistent tiles hnd blockedTileIds destinationTileId
      u v hstep
  have hnb : ∀ i n, mget (createNodesById tiles) i = some n →
      n.neighbors.length ≤ 4 :=
    fun i n h => createNodesById_neighbors_le tiles i n h
  have hscan := findShortestPathScan_correct (createNodesById tiles) blockedTileIds
    startTileId destinationTileId hknd hs dn hdm hcons hnb
  have hheap := findShortestPathHeap_correct (createNodesById tiles) blockedTileIds
    startTileId destinationTileId hknd hs dn hdm hcons hnb
  constructor
  · constructor
    · intro hsn
      rcases hhr : PathfindingHeap.findShortestPath (createNodesById tiles) startTileId
          destinationTileId blockedTileIds with _ | q
      · rfl
      · obtain ⟨k, _, _, _, _, hreach, _⟩ := hheap.1 q hhr
        exact absurd hreach (hscan.2 hsn k)
    · intro hhn
      rcases hsr : PathfindingScan.findShortestPath (createNodesById tiles) startTileId
          destinationTileId blockedTileIds with _ | p
      · rfl
      · obtain ⟨k, _, _, _, _, hreach, _⟩ := hscan.1 p hsr
        exact absurd hreach (hheap.2 hhn k)
  · intro p q hsp hhq
    obtain ⟨k1, h1h, h1l, _, h1len, h1reach, h1min⟩ := hscan.1 p hsp
    obtain ⟨k2, h2h, h2l, _, h2len, h2reach, h2min⟩ := hheap.1 q hhq
    have hk : k1 = k2 := le_antisymm (h1min k2 h2reach) (h2min k1 h1reach)
    refine ⟨?_, ?_, ?_⟩
    · rw [h1len, h2len, hk]
    · rw [h1h, h2h]
    · rw [h1l, h2l]

/-- Witness for the amended claim C10: on the 2x2 all-walkable map, with
start tile_0_0 and destination tile_1_1, the two variants return paths
of equal length with the same endpoints (both in fact return the same
three-tile path). -/
theorem claim_C10_witness :
    ((witnessTiles.map Tile.id).Nodup ∧
     "tile_0_0" ∈ (createNodesById witnessTiles).map Prod.fst ∧
     "tile_1_1" ∈ (createNodesById witnessTiles).map Prod.fst) ∧
    ((PathfindingScan.findShortestPath (createNodesById witnessTiles) "tile_0_0"
        "tile_1_1" [] = none ↔
      PathfindingHeap.findShortestPath (createNodesById witnessTiles) "tile_0_0"
        "tile_1_1" [] = none) ∧
     (∀ p q,
      PathfindingScan.findShortestPath (createNodesById witnessTiles) "tile_0_0"
        "tile_1_1" [] = some p →
      PathfindingHeap.findShortestPath (createNodesById witnessTiles) "tile_0_0"
        "tile_1_1" [] = some q →
      p.length = q.length ∧ p.head? = q.head? ∧ p.getLast? = q.getLast?)) ∧
    PathfindingScan.findShortestPath (createNodesById witnessTiles) "tile_0_0"
      "tile_1_1" [] = some ["tile_0_0", "tile_1_0", "tile_1_1"] ∧
    PathfindingHeap.findShortestPath (createNodesById witnessTiles) "tile_0_0"
      "tile_1_1" [] = some ["tile_0_0", "tile_1_0", "tile_1_1"] :=
  ⟨⟨by decide, by decide, by decide⟩,
   claim_C10_amended witnessTiles "tile_0_0" "tile_1_1" [] (by decide) (by decide)
     (by decide),
   by decide, by decide⟩

end StartdueValley
